import Mathlib

/-!
# IHC–AN synapse model (`model_Synapse_2023.c`): embedding and verified properties

The C source works on `double` and `int`.  The embedding is in exact arithmetic:

* a `double` is an element of an arbitrary linearly ordered field `α` with floor and
  ceiling (`ℚ` for evaluation, `ℝ` for the statements that need `exp`/`log`);
* an `int` is an element of `ℤ` (loop counters that only count upwards from `0` are `ℕ`);
* the `libm` functions `log`, `exp`, `pow` are parameters of the definitions, instantiated
  with `Real.log`, `Real.exp` and the real power where a statement depends on them;
* an array that the code only reads is a function from indices to values, an array that
  it writes is an `Arr` (a function from indices to values with a `set` operation);
  `mxCalloc` gives `Arr.zero`;
* the MATLAB collaborators (`ffGn_rochester`, `resample`, `rand`) are function
  parameters, so every statement holds for whatever they return;
* a loop whose termination depends on the data carries a fuel argument and returns
  `none` when the fuel runs out.

The section on the arithmetic of the type `double` repeats the spike generator and the
binning of the spike times with every operation rounded to binary64; the definitions and
theorems about the rounded computation carry the suffix `D` or name `double`.
-/

set_option linter.unusedSectionVars false

namespace ModelSynapse

variable {α : Type} [LinearOrderedField α] [FloorRing α]

/-! ## Macros and casts -/

/-- The macro `__max(a,b) (((a) > (b))? (a): (b))`. -/
def cmax (a b : α) : α := if a > b then a else b

/-- The macro `__min(a,b) (((a) < (b))? (a): (b))`. -/
def cmin (a b : α) : α := if a < b then a else b

/-- The cast `(int) x` of a `double`: truncation towards zero. -/
def toInt (x : α) : ℤ := if 0 ≤ x then ⌊x⌋ else ⌈x⌉

/-- The function `fmod(x, y)` of `math.h`: `x - n*y` with `n` the quotient `x/y` truncated
towards zero. -/
def fmod (x y : α) : α := x - (toInt (x / y) : α) * y

/-! ## Arrays -/

/-- An array reached through a pointer: the value held at every index. -/
structure Arr (ι α : Type) where
  get : ι → α

instance {ι α : Type} : CoeFun (Arr ι α) (fun _ => ι → α) := ⟨Arr.get⟩

/-- The assignment `a[i] = v`. -/
def Arr.set {ι α : Type} [DecidableEq ι] (a : Arr ι α) (i : ι) (v : α) : Arr ι α :=
  ⟨Function.update a.get i v⟩

/-- A zeroed array, as `mxCalloc` and `mxCreateNumericArray` return it. -/
def Arr.zero {ι α : Type} [Zero α] : Arr ι α := ⟨fun _ => 0⟩

/-! ## SpikeGenerator -/

/-- The local variables of `SpikeGenerator` that change during the rate-vector loop,
together with the output buffer `sptime`. -/
structure SpikeState (α : Type) where
  k : ℤ
  countTime : α
  refracValue0 : α
  refracValue1 : α
  Xsum : α
  unitRateIntrvl : α
  Nout : ℕ
  randBufIndex : ℕ
  sptime : Arr ℕ α

/-- `NoutMax = (long) ceil(totalstim*nrep*tdres/dead)`: the number of `sptime` cells allocated
by `SingleAN`, and (plus one) the number of uniform draws requested by `SpikeGenerator`. -/
def NoutMax (tdres : α) (totalstim nrep : ℤ) : ℤ :=
  ⌈((totalstim * nrep : ℤ) : α) * tdres / 0.00075⌉

/-- `deadtimeIndex = (long) floor(dead/tdres)`. -/
def deadtimeIndex (tdres : α) : ℤ := ⌊(0.00075 : α) / tdres⌋

/-- One pass through the body of the rate-vector loop of `SpikeGenerator`, followed by the
increment expressions of the `for` statement. -/
def spikeBody (log : α → α) (synouttmp : ℤ → α) (tdres : α) (randNums : ℕ → α)
    (s : SpikeState α) : SpikeState α :=
  let c0 : α := 0.5
  let s0 : α := 0.001
  let c1 : α := 0.5
  let s1 : α := 0.0125
  let deadtimeRnd : α := (deadtimeIndex tdres : α) * tdres
  let refracMult0 : α := 1 - tdres / s0
  let refracMult1 : α := 1 - tdres / s1
  let t : SpikeState α :=
    if synouttmp s.k > 0 then
      let Xsum := s.Xsum + synouttmp s.k * (1 - s.refracValue0 - s.refracValue1)
      if Xsum ≥ s.unitRateIntrvl then
        { k := s.k + deadtimeIndex tdres
          countTime := s.countTime + deadtimeRnd
          refracValue0 := c0
          refracValue1 := c1
          Xsum := 0
          unitRateIntrvl := -log (randNums s.randBufIndex) / tdres
          Nout := s.Nout + 1
          randBufIndex := s.randBufIndex + 1
          sptime := Arr.set s.sptime s.Nout s.countTime }
      else { s with Xsum := Xsum }
    else s
  { t with
    k := t.k + 1
    countTime := t.countTime + tdres
    refracValue0 := t.refracValue0 * refracMult0
    refracValue1 := t.refracValue1 * refracMult1 }

/-- The rate-vector loop `for (k=0; (k<totalstim*nrep) && (countTime<DT); ...)`; `none`
when the fuel is used up before the loop condition fails. -/
def spikeLoop (log : α → α) (synouttmp : ℤ → α) (tdres : α) (totalstim nrep : ℤ)
    (randNums : ℕ → α) : ℕ → SpikeState α → Option (SpikeState α)
  | fuel, s =>
    if s.k < totalstim * nrep ∧ s.countTime < (totalstim : α) * tdres * (nrep : α) then
      match fuel with
      | 0 => none
      | fuel + 1 =>
        spikeLoop log synouttmp tdres totalstim nrep randNums fuel
          (spikeBody log synouttmp tdres randNums s)
    else some s

/-- The state of `SpikeGenerator` when the rate-vector loop is entered: the effect of a
random spike before `t = 0` and the first unit-rate interval.  In line 582 the macro
`__max(0, X)` expands to `((0) > (X)) ? (0) : (X)` with `randNums[randBufIndex++]` inside
`X`: the comparison reads `randNums[0]`, and when it fails `X` is evaluated a second time,
from `randNums[1]`. -/
def spikeInit (log exp : α → α) (synouttmp : ℤ → α) (tdres : α) (randNums : ℕ → α)
    (sptime : Arr ℕ α) : SpikeState α :=
  let c0 : α := 0.5
  let s0 : α := 0.001
  let c1 : α := 0.5
  let s1 : α := 0.0125
  let dead : α := 0.00075
  let compared := log (randNums 0) / synouttmp 0 + dead
  let endOfLastDeadtime :=
    if 0 > compared then 0 else log (randNums 1) / synouttmp 0 + dead
  let randBufIndex : ℕ := if 0 > compared then 1 else 2
  { k := 0
    countTime := tdres
    refracValue0 := c0 * exp (endOfLastDeadtime / s0)
    refracValue1 := c1 * exp (endOfLastDeadtime / s1)
    Xsum := synouttmp 0 * (-endOfLastDeadtime + c0 * s0 * (exp (endOfLastDeadtime / s0) - 1)
      + c1 * s1 * (exp (endOfLastDeadtime / s1) - 1))
    unitRateIntrvl := -log (randNums randBufIndex) / tdres
    Nout := 0
    randBufIndex := randBufIndex + 1
    sptime := sptime }

/-- The function `SpikeGenerator`.  The collaborator `rand` is called once, for a row of
`NoutMax+1` uniform numbers.  The result is the final state: `Nout` is the returned
`nspikes`, `sptime` the output buffer, `randBufIndex` the number of uniform draws read. -/
def SpikeGenerator (fuel : ℕ) (log exp : α → α) (rand : ℤ → ℤ → ℕ → α) (synouttmp : ℤ → α)
    (tdres : α) (totalstim nrep : ℤ) (sptime : Arr ℕ α) : Option (SpikeState α) :=
  let randNums := rand 1 (NoutMax tdres totalstim nrep + 1)
  spikeLoop log synouttmp tdres totalstim nrep randNums fuel
    (spikeInit log exp synouttmp tdres randNums sptime)

/-! ## Loops with a fixed trip count -/

/-- The loop `for (i = 0; i < n; i++) body`, where the body changes neither `i` nor `n`:
`forLoop n body s` is the state after the `n` passes `body 0`, …, `body (n-1)`. -/
def forLoop {σ : Type} : ℕ → (ℕ → σ → σ) → σ → σ
  | 0, _, s => s
  | n + 1, body, s => body n (forLoop n body s)

/-! ## Synapse -/

/-- Values of the variables that the C code reads on some paths without having assigned
them: `spont` in `SingleAN` when `fibertype` is none of 1, 2, 3; `cf_factor`, `Asp`, `vsat`
in `Synapse` when no branch assigns them; `I_slow`, `I_fast` at the first coarse sample of
the parallel-exponential mode; the variable-length arrays `E_slow`, `E_fast`. -/
structure Indeterminate (α : Type) where
  spont : α
  cf_factor : α
  Asp : α
  vsat : α
  I_slow : α
  I_fast : α
  E_slow : Arr ℕ α
  E_fast : Arr ℕ α

/-- The scalar constants derived at the start of `Synapse` (lines 334–381). -/
structure SynapseConstants (α : Type) where
  cf_factor : α
  PImax : α
  kslope : α
  Ass : α
  Asp : α
  TauR : α
  TauST : α
  Ar_Ast : α
  PTS : α
  Aon : α
  AR : α
  AST : α
  Prest : α
  CG : α
  gamma1 : α
  gamma2 : α
  k1 : α
  k2 : α
  VI0 : α
  VI1 : α
  VI : α
  alpha : α
  beta : α
  theta1 : α
  theta2 : α
  theta3 : α
  PL : α
  PG : α
  VL : α
  CI : α
  CL : α
  vsat : α
  tmpst : α
  synstrength : α
  synslope : α

/-- The derivation of the constants in `Synapse` (lines 334–381).  `pow` is the `libm`
power function, used with base 10 and a non-integer exponent. -/
def synapseConstants (log exp : α → α) (pow : α → α → α) (u : Indeterminate α)
    (cf spont implnt : α) : SynapseConstants α :=
  let cf_factor := u.cf_factor
  let cf_factor := if spont = 100 then cmin 800 (pow 10 (0.29 * cf / 1e3 + 0.7)) else cf_factor
  let cf_factor := if spont = 4 then cmin 50 (2.5e-4 * cf * 4 + 0.2) else cf_factor
  let cf_factor := if spont = 0.1 then cmin 1.0 (2.5e-4 * cf * 0.1 + 0.15) else cf_factor
  let PImax : α := 0.6
  let kslope := (1 + 50.0) / (5 + 50.0) * cf_factor * 20.0 * PImax
  let Ass := 800 * (1 + cf / 100e3)
  let Asp := u.Asp
  let Asp := if implnt = 2 then spont * 3.0 else Asp
  let Asp := if implnt = 1 then spont * 3.0 else Asp
  let Asp := if implnt = 0 then spont * 2.75 else Asp
  let TauR : α := 2e-3
  let TauST : α := 60e-3
  let Ar_Ast : α := 6
  let PTS : α := 3
  let Aon := PTS * Ass
  let AR := (Aon - Ass) * Ar_Ast / (1 + Ar_Ast)
  let AST := Aon - Ass - AR
  let Prest := PImax / Aon * Asp
  let CG := (Asp * (Aon - Asp)) / (Aon * Prest * (1 - Asp / Ass))
  let gamma1 := CG / Asp
  let gamma2 := CG / Ass
  let k1 := -1 / TauR
  let k2 := -1 / TauST
  let VI0 := (1 - PImax / Prest)
    / (gamma1 * (AR * (k1 - k2) / CG / PImax + k2 / Prest / gamma1 - k2 / PImax / gamma2))
  let VI1 := (1 - PImax / Prest)
    / (gamma1 * (AST * (k2 - k1) / CG / PImax + k1 / Prest / gamma1 - k1 / PImax / gamma2))
  let VI := (VI0 + VI1) / 2
  let alpha := gamma2 / k1 / k2
  let beta := -(k1 + k2) * alpha
  let theta1 := alpha * PImax / VI
  let theta2 := VI / PImax
  let theta3 := gamma2 - 1 / PImax
  let PL := ((beta - theta2 * theta3) / theta1 - 1) * PImax
  let PG := 1 / (theta3 - 1 / PL)
  let VL := theta1 * PL * PG
  let CI := Asp / Prest
  let CL := CI * (Prest + PL) / PL
  let vsat := if kslope ≥ 0 then kslope + Prest else u.vsat
  let tmpst := log 2 * vsat / Prest
  let synstrength := if tmpst < 400 then log (exp tmpst - 1) else tmpst
  let synslope := Prest / log 2 * synstrength
  { cf_factor := cf_factor, PImax := PImax, kslope := kslope, Ass := Ass, Asp := Asp,
    TauR := TauR, TauST := TauST, Ar_Ast := Ar_Ast, PTS := PTS, Aon := Aon, AR := AR,
    AST := AST, Prest := Prest, CG := CG, gamma1 := gamma1, gamma2 := gamma2, k1 := k1,
    k2 := k2, VI0 := VI0, VI1 := VI1, VI := VI, alpha := alpha, beta := beta,
    theta1 := theta1, theta2 := theta2, theta3 := theta3, PL := PL, PG := PG, VL := VL,
    CI := CI, CL := CL, vsat := vsat, tmpst := tmpst, synstrength := synstrength,
    synslope := synslope }

/-- The vesicle-store state: immediate-pool concentration `CI` and local-pool
concentration `CL`. -/
structure Store (α : Type) where
  CI : α
  CL : α

/-- The release probability `PPI` of one fine sample (lines 386–388), from the drive
sample `x = ihcout[indx]`. -/
def releaseProb (log exp : α → α) (synstrength synslope x : α) : α :=
  let tmp := synstrength * x
  let tmp := if tmp < 400 then log (1 + exp tmp) else tmp
  synslope / synstrength * tmp

/-- The explicit forward step of the store (lines 390–392). -/
def explicitStep (tdres PL PG CG VI VL PPI : α) (s : Store α) : Store α :=
  let CIlast := s.CI
  let CI := s.CI + (tdres / VI) * (-PPI * s.CI + PL * (s.CL - s.CI))
  let CL := s.CL + (tdres / VL) * (-PL * (s.CL - CIlast) + PG * (CG - s.CL))
  { CI := CI, CL := CL }

/-- The pair written by the branch `if (CI<0)` (lines 395–397). -/
def renormalised (PL PG CG PPI : α) : Store α :=
  let temp := 1 / PG + 1 / PL + 1 / PPI
  let CI := CG / (PPI * temp)
  let CL := CI * (PPI + PL) / PL
  { CI := CI, CL := CL }

/-- The per-sample store update (lines 390–398): the explicit step, replaced by the
renormalised pair when it gives `CI < 0`. -/
def storeUpdate (tdres PL PG CG VI VL PPI : α) (s : Store α) : Store α :=
  let t := explicitStep tdres PL PG CG VI VL PPI s
  if t.CI < 0 then renormalised PL PG CG PPI else t

/-- One pass through the body of the store loop (lines 386–400) at index `indx`: the new
store state and the array `exponOut` with the cell `indx` written. -/
def storeBody (log exp : α → α) (tdres synstrength synslope PL PG CG VI VL : α)
    (ihcout : ℕ → α) (indx : ℕ) (se : Store α × Arr ℕ α) : Store α × Arr ℕ α :=
  let PPI := releaseProb log exp synstrength synslope (ihcout indx)
  let s := storeUpdate tdres PL PG CG VI VL PPI se.1
  (s, Arr.set se.2 indx (s.CI * PPI))

/-- The store loop `for (indx=0; indx<totalstim*nrep; ++indx)` (lines 384–401), started
from the store state `s0` and a zeroed `exponOut`; the result is the state and `exponOut`
after `n` passes. -/
def storeLoop (log exp : α → α) (tdres synstrength synslope PL PG CG VI VL : α)
    (ihcout : ℕ → α) (s0 : Store α) (n : ℕ) : Store α × Arr ℕ α :=
  forLoop n (storeBody log exp tdres synstrength synslope PL PG CG VI VL ihcout)
    (s0, Arr.zero)

/-- The array `exponOut` computed by `Synapse` (lines 334–401). -/
def exponOut (log exp : α → α) (pow : α → α → α) (u : Indeterminate α) (ihcout : ℕ → α)
    (tdres cf : α) (totalstim nrep : ℤ) (spont implnt : α) : Arr ℕ α :=
  let c := synapseConstants log exp pow u cf spont implnt
  (storeLoop log exp tdres c.synstrength c.synslope c.PL c.PG c.CG c.VI c.VL ihcout
    { CI := c.CI, CL := c.CL } (totalstim * nrep).toNat).2

/-- The store state of `Synapse` after `n` passes through the store loop. -/
def storeState (log exp : α → α) (pow : α → α → α) (u : Indeterminate α) (ihcout : ℕ → α)
    (tdres cf spont implnt : α) (n : ℕ) : Store α :=
  let c := synapseConstants log exp pow u cf spont implnt
  (storeLoop log exp tdres c.synstrength c.synslope c.PL c.PG c.CG c.VI c.VL ihcout
    { CI := c.CI, CL := c.CL } n).1

/-- The variable `delaypoint = (int) floor(7500/(cf/1e3))`. -/
def delaypoint (cf : α) : ℤ := ⌊(7500 : α) / (cf / 1e3)⌋

/-- The variable `resamp = (int) ceil(1/(tdres*sampFreq))`. -/
def resamp (tdres sampFreq : α) : ℤ := ⌈1 / (tdres * sampFreq)⌉

/-- The array `powerLawIn` (lines 402–407): `delaypoint` copies of `exponOut[0]`, then
`exponOut`, then `2*delaypoint` copies of the last cell. -/
def powerLawIn (exponOut : Arr ℕ α) (totalstim nrep delaypoint : ℤ) : Arr ℤ α :=
  let p : Arr ℤ α := Arr.zero
  let p := forLoop delaypoint.toNat (fun k p => Arr.set p (k : ℤ) (exponOut 0)) p
  let p := forLoop (totalstim * nrep).toNat
    (fun i p => Arr.set p (delaypoint + i) (exponOut (delaypoint + i - delaypoint).toNat)) p
  forLoop (2 * delaypoint).toNat
    (fun i p => Arr.set p (totalstim * nrep + delaypoint + i)
      (p (totalstim * nrep + delaypoint + i - 1))) p

/-- The local variables of `Synapse` that change during the power-law adaptation loop
(lines 435–514). -/
structure PlaState (α : Type) where
  k : ℕ
  sout1 : Arr ℕ α
  sout2 : Arr ℕ α
  synSampOut : Arr ℕ α
  m1 : Arr ℕ α
  m2 : Arr ℕ α
  m3 : Arr ℕ α
  m4 : Arr ℕ α
  m5 : Arr ℕ α
  n1 : Arr ℕ α
  n2 : Arr ℕ α
  n3 : Arr ℕ α
  I1 : α
  I2 : α
  I_slow : α
  I_fast : α
  E_slow : Arr ℕ α
  E_fast : Arr ℕ α

/-- The state when the power-law adaptation loop is entered: zeroed arrays, `I1 = I2 = 0`,
and unassigned `I_slow`, `I_fast`, `E_slow`, `E_fast`. -/
def plaInit (u : Indeterminate α) : PlaState α :=
  { k := 0, sout1 := Arr.zero, sout2 := Arr.zero, synSampOut := Arr.zero,
    m1 := Arr.zero, m2 := Arr.zero, m3 := Arr.zero, m4 := Arr.zero, m5 := Arr.zero,
    n1 := Arr.zero, n2 := Arr.zero, n3 := Arr.zero, I1 := 0, I2 := 0,
    I_slow := u.I_slow, I_fast := u.I_fast, E_slow := u.E_slow, E_fast := u.E_fast }

/-- The assignments to `n1[k]` in the branch `implnt == 0` (lines 443–457), from the
array `n1` so far and the already updated `sout2`. -/
def n1Section (n1 sout2 : Arr ℕ α) (k : ℕ) : Arr ℕ α :=
  if k = 0 then Arr.set n1 k (1.0e-3 * sout2 k)
  else if k = 1 then
    Arr.set n1 k (1.992127932802320 * n1 (k - 1)
      + 1.0e-3 * (sout2 k - 0.994466986569624 * sout2 (k - 1)))
  else
    Arr.set n1 k (1.992127932802320 * n1 (k - 1) - 0.992140616993846 * n1 (k - 2)
      + 1.0e-3 * (sout2 k - 0.994466986569624 * sout2 (k - 1)
        + 0.000000000002347 * sout2 (k - 2)))

/-- The assignments to `n2[k]` in the branch `implnt == 0` (lines 444–457), from the
array `n2` so far and the already updated `n1`. -/
def n2Section (n2 n1 : Arr ℕ α) (k : ℕ) : Arr ℕ α :=
  if k = 0 then Arr.set n2 k (n1 k)
  else if k = 1 then
    Arr.set n2 k (1.999195329360981 * n2 (k - 1) + n1 k
      - 1.997855276593802 * n1 (k - 1))
  else
    Arr.set n2 k (1.999195329360981 * n2 (k - 1) - 0.999195402928777 * n2 (k - 2)
      + n1 k - 1.997855276593802 * n1 (k - 1) + 0.997855827934345 * n1 (k - 2))

/-- The assignments to `n3[k]` in the branch `implnt == 0` (lines 444–457), from the
array `n3` so far and the already updated `n2`. -/
def n3Section (n3 n2 : Arr ℕ α) (k : ℕ) : Arr ℕ α :=
  if k = 0 then Arr.set n3 0 (n2 k)
  else if k = 1 then
    Arr.set n3 k (-0.798261718183851 * n3 (k - 1) + n2 k
      + 0.798261718184977 * n2 (k - 1))
  else
    Arr.set n3 k (-0.798261718183851 * n3 (k - 1) - 0.199131619873480 * n3 (k - 2)
      + n2 k + 0.798261718184977 * n2 (k - 1) + 0.199131619874064 * n2 (k - 2))

/-- The assignments to `m1[k]` in the branch `implnt == 0` (lines 462–481), from the
array `m1` so far and the already updated `sout1`. -/
def m1Section (m1 sout1 : Arr ℕ α) (k : ℕ) : Arr ℕ α :=
  if k = 0 then Arr.set m1 k (0.2 * sout1 k)
  else if k = 1 then
    Arr.set m1 k (0.491115852967412 * m1 (k - 1)
      + 0.2 * (sout1 k - 0.173492003319319 * sout1 (k - 1)))
  else
    Arr.set m1 k (0.491115852967412 * m1 (k - 1) - 0.055050209956838 * m1 (k - 2)
      + 0.2 * (sout1 k - 0.173492003319319 * sout1 (k - 1)
        + 0.000000172983796 * sout1 (k - 2)))

/-- The assignments to `m2[k]` in the branch `implnt == 0` (lines 463–481), from the
array `m2` so far and the already updated `m1`. -/
def m2Section (m2 m1 : Arr ℕ α) (k : ℕ) : Arr ℕ α :=
  if k = 0 then Arr.set m2 k (m1 k)
  else if k = 1 then
    Arr.set m2 k (1.084520302502860 * m2 (k - 1) + m1 k
      - 0.803462163297112 * m1 (k - 1))
  else
    Arr.set m2 k (1.084520302502860 * m2 (k - 1) - 0.288760329320566 * m2 (k - 2)
      + m1 k - 0.803462163297112 * m1 (k - 1) + 0.154962026341513 * m1 (k - 2))

/-- The assignments to `m3[k]` in the branch `implnt == 0` (lines 463–481), from the
array `m3` so far and the already updated `m2`. -/
def m3Section (m3 m2 : Arr ℕ α) (k : ℕ) : Arr ℕ α :=
  if k = 0 then Arr.set m3 k (m2 k)
  else if k = 1 then
    Arr.set m3 k (1.588427084535629 * m3 (k - 1) + m2 k
      - 1.416084732997016 * m2 (k - 1))
  else
    Arr.set m3 k (1.588427084535629 * m3 (k - 1) - 0.628138993662508 * m3 (k - 2)
      + m2 k - 1.416084732997016 * m2 (k - 1) + 0.496615555008723 * m2 (k - 2))

/-- The assignments to `m4[k]` in the branch `implnt == 0` (lines 464–481), from the
array `m4` so far and the already updated `m3`. -/
def m4Section (m4 m3 : Arr ℕ α) (k : ℕ) : Arr ℕ α :=
  if k = 0 then Arr.set m4 k (m3 k)
  else if k = 1 then
    Arr.set m4 k (1.886287488516458 * m4 (k - 1) + m3 k
      - 1.830362725074550 * m3 (k - 1))
  else
    Arr.set m4 k (1.886287488516458 * m4 (k - 1) - 0.888972875389923 * m4 (k - 2)
      + m3 k - 1.830362725074550 * m3 (k - 1) + 0.836399964176882 * m3 (k - 2))

/-- The assignments to `m5[k]` in the branch `implnt == 0` (lines 464–481), from the
array `m5` so far and the already updated `m4`. -/
def m5Section (m5 m4 : Arr ℕ α) (k : ℕ) : Arr ℕ α :=
  if k = 0 then Arr.set m5 k (m4 k)
  else if k = 1 then
    Arr.set m5 k (1.989549282714008 * m5 (k - 1) + m4 k
      - 1.983165053215032 * m4 (k - 1))
  else
    Arr.set m5 k (1.989549282714008 * m5 (k - 1) - 0.989558985673023 * m5 (k - 2)
      + m4 k - 1.983165053215032 * m4 (k - 1) + 0.983193027347456 * m4 (k - 2))

/-- The branch `implnt == 0` of the adaptation loop (lines 439–482): the two cascades of
fixed second-order sections. -/
def plaApprox (sampIHC randNums : ℕ → α) (n : ℕ) (s : PlaState α) : PlaState α :=
  let alpha1 : α := 2.5e-6 * 100e3
  let alpha2 : α := 1e-2 * 100e3
  let k := s.k
  let sout1 := Arr.set s.sout1 k (cmax 0 (sampIHC n + randNums n - alpha1 * s.I1))
  let sout2 := Arr.set s.sout2 k (cmax 0 (sampIHC n - alpha2 * s.I2))
  let n1 := n1Section s.n1 sout2 k
  let n2 := n2Section s.n2 n1 k
  let n3 := n3Section s.n3 n2 k
  let I2 := n3 k
  let m1 := m1Section s.m1 sout1 k
  let m2 := m2Section s.m2 m1 k
  let m3 := m3Section s.m3 m2 k
  let m4 := m4Section s.m4 m3 k
  let m5 := m5Section s.m5 m4 k
  let I1 := m5 k
  { s with sout1 := sout1, sout2 := sout2, n1 := n1, n2 := n2, n3 := n3, I2 := I2,
           m1 := m1, m2 := m2, m3 := m3, m4 := m4, m5 := m5, I1 := I1 }

/-- The branch `implnt == 1` of the adaptation loop (lines 485–492): the power-law kernel
convolved with the whole history. -/
def plaActual (sampFreq : α) (sampIHC randNums : ℕ → α) (n : ℕ) (s : PlaState α) :
    PlaState α :=
  let binwidth : α := 1 / sampFreq
  let alpha1 : α := 2.5e-6 * 100e3
  let beta1 : α := 5e-4
  let alpha2 : α := 1e-2 * 100e3
  let beta2 : α := 1e-1
  let k := s.k
  let sout1 := Arr.set s.sout1 k (cmax 0 (sampIHC n + randNums n - alpha1 * s.I1))
  let sout2 := Arr.set s.sout2 k (cmax 0 (sampIHC n - alpha2 * s.I2))
  let I := forLoop (k + 1)
    (fun j (I : α × α) =>
      (I.1 + sout1 j * binwidth / ((((k : ℤ) - (j : ℤ) : ℤ) : α) * binwidth + beta1),
       I.2 + sout2 j * binwidth / ((((k : ℤ) - (j : ℤ) : ℤ) : α) * binwidth + beta2)))
    (0, 0)
  { s with sout1 := sout1, sout2 := sout2, I1 := I.1, I2 := I.2 }

/-- The accumulators of the parallel-exponential update: the arrays `E_slow`, `E_fast` and
the running sums `I_slow`, `I_fast`. -/
structure ExpBank (α : Type) where
  E_slow : Arr ℕ α
  E_fast : Arr ℕ α
  I_slow : α
  I_fast : α

/-- The branch `implnt == 2` of the adaptation loop (lines 495–510): `n_process` parallel
first-order low-pass filters per kernel. -/
def plaParallel (sampFreq : α) (w_slow w_fast D_slow D_fast : ℕ → α) (n_process : ℤ)
    (sampIHC randNums : ℕ → α) (n : ℕ) (s : PlaState α) : PlaState α :=
  let alpha1 : α := 2.5e-6 * 100e3
  let alpha2 : α := 1e-2 * 100e3
  let sout1 := Arr.set s.sout1 n
    (cmax 0 (sampIHC n + randNums n - alpha1 / sampFreq * s.I_slow))
  let sout2 := Arr.set s.sout2 n (cmax 0 (sampIHC n - alpha2 / sampFreq * s.I_fast))
  let e := forLoop n_process.toNat
    (fun i (e : ExpBank α) =>
      let E_slow :=
        if n = 0 then Arr.set e.E_slow i (w_slow i * sout1 n)
        else Arr.set e.E_slow i (w_slow i * sout1 n + (1 - D_slow i) * e.E_slow i)
      let E_fast :=
        if n = 0 then Arr.set e.E_fast i (w_fast i * sout2 n)
        else Arr.set e.E_fast i (w_fast i * sout2 n + (1 - D_fast i) * e.E_fast i)
      { E_slow := E_slow, E_fast := E_fast, I_slow := e.I_slow + E_slow i,
        I_fast := e.I_fast + E_fast i })
    { E_slow := s.E_slow, E_fast := s.E_fast, I_slow := 0.0, I_fast := 0.0 }
  { s with sout1 := sout1, sout2 := sout2, E_slow := e.E_slow, E_fast := e.E_fast,
           I_slow := e.I_slow, I_fast := e.I_fast }

/-- One pass through the body of the adaptation loop (lines 438–513) at coarse sample `n`. -/
def plaBody (exp : α → α) (implnt sampFreq : α) (tau_slow w_slow tau_fast w_fast : ℕ → α)
    (n_process : ℤ) (sampIHC randNums : ℕ → α) (n : ℕ) (s : PlaState α) : PlaState α :=
  let D_slow : ℕ → α := fun p => 1 - exp (-1 / sampFreq / tau_slow p)
  let D_fast : ℕ → α := fun p => 1 - exp (-1 / sampFreq / tau_fast p)
  let t :=
    if implnt = 0 then plaApprox sampIHC randNums n s
    else if implnt = 1 then plaActual sampFreq sampIHC randNums n s
    else if implnt = 2 then
      plaParallel sampFreq w_slow w_fast D_slow D_fast n_process sampIHC randNums n s
    else s
  { t with synSampOut := Arr.set t.synSampOut t.k (t.sout1 t.k + t.sout2 t.k)
           k := t.k + 1 }

/-- The adaptation loop `for (int n=0; n<floor(...); n++)` (lines 436–514): the state after
`cnt` passes. -/
def plaLoop (exp : α → α) (u : Indeterminate α) (implnt sampFreq : α)
    (tau_slow w_slow tau_fast w_fast : ℕ → α) (n_process : ℤ) (sampIHC randNums : ℕ → α)
    (cnt : ℕ) : PlaState α :=
  forLoop cnt
    (plaBody exp implnt sampFreq tau_slow w_slow tau_fast w_fast n_process sampIHC randNums)
    (plaInit u)

/-- The up-sampling loops (lines 520–527): linear interpolation of `synSampOut[0..k-1]`
into a zeroed `TmpSyn`, `resamp` fine cells for each coarse interval. -/
def upsample (synSampOut : Arr ℕ α) (k : ℕ) (resamp : ℤ) : Arr ℤ α :=
  forLoop (k - 1)
    (fun z (T : Arr ℤ α) =>
      let incr := (synSampOut (z + 1) - synSampOut z) / (resamp : α)
      forLoop resamp.toNat
        (fun b (T : Arr ℤ α) =>
          Arr.set T ((z : ℤ) * resamp + (b : ℤ)) (synSampOut z + (b : α) * incr))
        T)
    Arr.zero

/-- The function `Synapse`: the array `synouttmp` after the call (its cells
`0..totalstim*nrep-1` are written) and the returned value `ceil(totalstim*nrep)`.
The collaborators `ffGn_rochester` and `resample` are parameters. -/
def Synapse (log exp : α → α) (pow : α → α → α) (u : Indeterminate α)
    (ffGn_rochester : α → α → α → α → α → α → ℕ → α) (resample : List α → α → α → ℕ → α)
    (ihcout : ℕ → α) (tdres cf : α) (totalstim nrep : ℤ) (spont noiseType implnt sampFreq : α)
    (tau_slow w_slow tau_fast w_fast : ℕ → α) (n_process : ℤ) (synouttmp : Arr ℤ α) :
    Arr ℤ α × α :=
  let resamp := resamp tdres sampFreq
  let delaypoint := delaypoint cf
  let len : α := ((totalstim * nrep + 2 * delaypoint : ℤ) : α) * tdres * sampFreq
  let randNums := ffGn_rochester (⌈len⌉ : ℤ) (1 / sampFreq) 0.9 noiseType spont 2014
  let exponOut := exponOut log exp pow u ihcout tdres cf totalstim nrep spont implnt
  let powerLawIn := powerLawIn exponOut totalstim nrep delaypoint
  let k : ℤ := max (totalstim * nrep + delaypoint) (totalstim * nrep + 3 * delaypoint)
  let ihcDims := (List.range k.toNat).map (fun i => powerLawIn (i : ℤ))
  let sampIHC := resample ihcDims 1 (resamp : α)
  let s := plaLoop exp u implnt sampFreq tau_slow w_slow tau_fast w_fast n_process sampIHC
    randNums ⌊len⌋.toNat
  let TmpSyn := upsample s.synSampOut s.k resamp
  (forLoop (totalstim * nrep).toNat
      (fun i (o : Arr ℤ α) => Arr.set o (i : ℤ) (TmpSyn ((i : ℤ) + delaypoint)))
      synouttmp,
    ((totalstim * nrep : ℤ) : α))

/-! ## SingleAN -/

/-- The three output arrays of `SingleAN`. -/
structure SingleANOut (α : Type) where
  meanrate : Arr ℤ α
  varrate : Arr ℤ α
  psth : Arr ℤ α

/-- The loop that wraps the unfolded synapse output into `meanrate` (lines 220–224);
`I` is the value returned by `Synapse`. -/
def foldRate (synouttmp : ℤ → α) (I : α) (totalstim nrep : ℤ) (meanrate : Arr ℤ α) :
    Arr ℤ α :=
  forLoop ⌈I⌉.toNat
    (fun i (m : Arr ℤ α) =>
      let ipst := toInt (fmod (i : α) (totalstim : α))
      Arr.set m ipst (m ipst + synouttmp (i : ℤ) / (nrep : α)))
    meanrate

/-- The body of the refractory-correction loop (lines 228–229) at index `i`, on the pair
`(meanrate, varrate)`; `pow(x,3)` is the cube. -/
def refractoryBody (i : ℕ) (mv : Arr ℤ α × Arr ℤ α) : Arr ℤ α × Arr ℤ α :=
  let varrate := Arr.set mv.2 (i : ℤ) (mv.1 (i : ℤ) / (1 + 0.75e-3 * mv.1 (i : ℤ)) ^ 3)
  let meanrate := Arr.set mv.1 (i : ℤ) (mv.1 (i : ℤ) / (1 + 0.75e-3 * mv.1 (i : ℤ)))
  (meanrate, varrate)

/-- The loop that applies the refractory correction (lines 226–230) to the pair
`(meanrate, varrate)`. -/
def refractoryCorrection (totalstim : ℤ) (mv : Arr ℤ α × Arr ℤ α) : Arr ℤ α × Arr ℤ α :=
  forLoop totalstim.toNat refractoryBody mv

/-- The phase index `(int) (fmod(sptime[i], tdres*totalstim) / tdres)` of a spike time. -/
def phaseIndex (tdres : α) (totalstim : ℤ) (t : α) : ℤ :=
  toInt (fmod t (tdres * (totalstim : α)) / tdres)

/-- The loop that bins the spike times into `psth` (lines 234–238). -/
def binSpikes (sptime : Arr ℕ α) (nspikes : ℕ) (tdres : α) (totalstim : ℤ)
    (psth : Arr ℤ α) : Arr ℤ α :=
  forLoop nspikes
    (fun i (p : Arr ℤ α) =>
      let ipst := phaseIndex tdres totalstim (sptime i)
      Arr.set p ipst (p ipst + 1))
    psth

/-- The part of `SingleAN` after the call of `Synapse` (lines 219–238), from the rate
array `synouttmp` and the value `I` that `Synapse` returned; `sptime` is zeroed by
`mxCalloc`. -/
def aggregate (fuel : ℕ) (log exp : α → α) (rand : ℤ → ℤ → ℕ → α) (synouttmp : ℤ → α) (I : α)
    (nrep : ℤ) (tdres : α) (totalstim : ℤ) (meanrate varrate psth : Arr ℤ α) :
    Option (SingleANOut α) :=
  let meanrate := foldRate synouttmp I totalstim nrep meanrate
  let mv := refractoryCorrection totalstim (meanrate, varrate)
  match SpikeGenerator fuel log exp rand synouttmp tdres totalstim nrep Arr.zero with
  | none => none
  | some r =>
    some { meanrate := mv.1, varrate := mv.2
           psth := binSpikes r.sptime r.Nout tdres totalstim psth }

/-- The function `SingleAN`: the arrays `meanrate`, `varrate`, `psth` after the call.
`synouttmp` is zeroed by `mxCalloc` before `Synapse` fills it. -/
def SingleAN (fuel : ℕ) (log exp : α → α) (pow : α → α → α) (u : Indeterminate α)
    (ffGn_rochester : α → α → α → α → α → α → ℕ → α) (resample : List α → α → α → ℕ → α)
    (rand : ℤ → ℤ → ℕ → α) (px : ℕ → α) (cf : α) (nrep : ℤ) (tdres : α) (totalstim : ℤ)
    (fibertype noiseType implnt sampFreq : α) (tau_slow w_slow tau_fast w_fast : ℕ → α)
    (n_process : ℤ) (meanrate varrate psth : Arr ℤ α) : Option (SingleANOut α) :=
  let spont := u.spont
  let spont := if fibertype = 1 then 0.1 else spont
  let spont := if fibertype = 2 then 4.0 else spont
  let spont := if fibertype = 3 then 100.0 else spont
  let r := Synapse log exp pow u ffGn_rochester resample px tdres cf totalstim nrep spont
    noiseType implnt sampFreq tau_slow w_slow tau_fast w_fast n_process Arr.zero
  aggregate fuel log exp rand r.1.get r.2 nrep tdres totalstim meanrate varrate psth

/-! ## Arithmetic of the type `double`

The definitions above compute in exact arithmetic.  This section repeats `SpikeGenerator`
and the binning loop of `SingleAN` with the arithmetic of the C type `double` (IEEE 754
binary64, rounding to nearest, ties to even): a `double` is the rational number it stands
for, every `+`, `-`, `*`, `/` of the source is followed by one rounding, and decimal
literals are rounded when they are read.  Comparisons, negation, `floor`, `ceil`, `fmod`,
the cast to `int` and the conversion of an `int` to `double` are exact.  The exponent
range is not modelled (no overflow, no subnormal numbers), nor are infinities and NaN. -/

/-- The integer nearest to `q`; when `q` lies half-way between two integers, the even
one. -/
def roundEven (q : ℚ) : ℤ :=
  let f := ⌊q⌋
  if q - f < 1 / 2 then f
  else if 1 / 2 < q - f then f + 1
  else if f % 2 = 0 then f else f + 1

/-- The number of binary digits of `n` (`0` for `n = 0`), found by halving `n` at most
`fuel` times; `fuel = n` is enough. -/
def bitLength : ℕ → ℕ → ℕ
  | 0, _ => 0
  | fuel + 1, n => if n = 0 then 0 else bitLength fuel (n / 2) + 1

/-- The binary exponent of a rational `x ≠ 0`: the integer `e` with
`2^e ≤ |x| < 2^(e+1)`.  The difference of the bit lengths of numerator and denominator
is `e` or `e + 1`. -/
def binade (x : ℚ) : ℤ :=
  let e : ℤ := (bitLength x.num.natAbs x.num.natAbs : ℤ) - (bitLength x.den x.den : ℤ)
  if (2 : ℚ) ^ e ≤ |x| then e else e - 1

/-- The `double` nearest to the rational `x`: `x` is divided by the power of two that
brings it into `[2^52, 2^53)`, rounded to an integer (ties to even) and scaled back. -/
def roundDouble (x : ℚ) : ℚ :=
  if x = 0 then 0
  else
    let e : ℤ := binade x - 52
    (roundEven (x / 2 ^ e) : ℚ) * 2 ^ e

/-- The sum `x + y` of two `double`s. -/
def addD (x y : ℚ) : ℚ := roundDouble (x + y)

/-- The difference `x - y` of two `double`s. -/
def subD (x y : ℚ) : ℚ := roundDouble (x - y)

/-- The product `x * y` of two `double`s. -/
def mulD (x y : ℚ) : ℚ := roundDouble (x * y)

/-- The quotient `x / y` of two `double`s. -/
def divD (x y : ℚ) : ℚ := roundDouble (x / y)

/-- `NoutMax = (long) ceil(totalstim*nrep*tdres/dead)` on `double`s. -/
def NoutMaxD (tdres : ℚ) (totalstim nrep : ℤ) : ℤ :=
  ⌈divD (mulD ((totalstim * nrep : ℤ) : ℚ) tdres) (roundDouble 0.00075)⌉

/-- `deadtimeIndex = (long) floor(dead/tdres)` on `double`s. -/
def deadtimeIndexD (tdres : ℚ) : ℤ := ⌊divD (roundDouble 0.00075) tdres⌋

/-- The pass `spikeBody` through the rate-vector loop of `SpikeGenerator` on `double`s. -/
def spikeBodyD (log : ℚ → ℚ) (synouttmp : ℤ → ℚ) (tdres : ℚ) (randNums : ℕ → ℚ)
    (s : SpikeState ℚ) : SpikeState ℚ :=
  let c0 : ℚ := 0.5
  let s0 : ℚ := roundDouble 0.001
  let c1 : ℚ := 0.5
  let s1 : ℚ := roundDouble 0.0125
  let deadtimeRnd : ℚ := mulD (deadtimeIndexD tdres : ℚ) tdres
  let refracMult0 : ℚ := subD 1 (divD tdres s0)
  let refracMult1 : ℚ := subD 1 (divD tdres s1)
  let t : SpikeState ℚ :=
    if synouttmp s.k > 0 then
      let Xsum :=
        addD s.Xsum (mulD (synouttmp s.k) (subD (subD 1 s.refracValue0) s.refracValue1))
      if Xsum ≥ s.unitRateIntrvl then
        { k := s.k + deadtimeIndexD tdres
          countTime := addD s.countTime deadtimeRnd
          refracValue0 := c0
          refracValue1 := c1
          Xsum := 0
          unitRateIntrvl := divD (-log (randNums s.randBufIndex)) tdres
          Nout := s.Nout + 1
          randBufIndex := s.randBufIndex + 1
          sptime := Arr.set s.sptime s.Nout s.countTime }
      else { s with Xsum := Xsum }
    else s
  { t with
    k := t.k + 1
    countTime := addD t.countTime tdres
    refracValue0 := mulD t.refracValue0 refracMult0
    refracValue1 := mulD t.refracValue1 refracMult1 }

/-- The rate-vector loop of `SpikeGenerator` on `double`s; the bound is
`DT = totalstim * tdres * nrep`, rounded after each of the two products. -/
def spikeLoopD (log : ℚ → ℚ) (synouttmp : ℤ → ℚ) (tdres : ℚ) (totalstim nrep : ℤ)
    (randNums : ℕ → ℚ) : ℕ → SpikeState ℚ → Option (SpikeState ℚ)
  | fuel, s =>
    if s.k < totalstim * nrep ∧
        s.countTime < mulD (mulD (totalstim : ℚ) tdres) (nrep : ℚ) then
      match fuel with
      | 0 => none
      | fuel + 1 =>
        spikeLoopD log synouttmp tdres totalstim nrep randNums fuel
          (spikeBodyD log synouttmp tdres randNums s)
    else some s

/-- The state `spikeInit` on entry of the rate-vector loop, on `double`s. -/
def spikeInitD (log exp : ℚ → ℚ) (synouttmp : ℤ → ℚ) (tdres : ℚ) (randNums : ℕ → ℚ)
    (sptime : Arr ℕ ℚ) : SpikeState ℚ :=
  let c0 : ℚ := 0.5
  let s0 : ℚ := roundDouble 0.001
  let c1 : ℚ := 0.5
  let s1 : ℚ := roundDouble 0.0125
  let dead : ℚ := roundDouble 0.00075
  let compared := addD (divD (log (randNums 0)) (synouttmp 0)) dead
  let endOfLastDeadtime :=
    if 0 > compared then 0 else addD (divD (log (randNums 1)) (synouttmp 0)) dead
  let randBufIndex : ℕ := if 0 > compared then 1 else 2
  { k := 0
    countTime := tdres
    refracValue0 := mulD c0 (exp (divD endOfLastDeadtime s0))
    refracValue1 := mulD c1 (exp (divD endOfLastDeadtime s1))
    Xsum := mulD (synouttmp 0)
      (addD
        (addD (-endOfLastDeadtime)
          (mulD (mulD c0 s0) (subD (exp (divD endOfLastDeadtime s0)) 1)))
        (mulD (mulD c1 s1) (subD (exp (divD endOfLastDeadtime s1)) 1)))
    unitRateIntrvl := divD (-log (randNums randBufIndex)) tdres
    Nout := 0
    randBufIndex := randBufIndex + 1
    sptime := sptime }

/-- The function `SpikeGenerator` on `double`s; `log` and `exp` are the functions of
`libm`, from `double` to `double`. -/
def SpikeGeneratorD (fuel : ℕ) (log exp : ℚ → ℚ) (rand : ℤ → ℤ → ℕ → ℚ) (synouttmp : ℤ → ℚ)
    (tdres : ℚ) (totalstim nrep : ℤ) (sptime : Arr ℕ ℚ) : Option (SpikeState ℚ) :=
  let randNums := rand 1 (NoutMaxD tdres totalstim nrep + 1)
  spikeLoopD log synouttmp tdres totalstim nrep randNums fuel
    (spikeInitD log exp synouttmp tdres randNums sptime)

/-- The phase index `(int) (fmod(sptime[i], tdres*totalstim) / tdres)` on `double`s: the
product and the quotient are rounded, `fmod` is exact. -/
def phaseIndexD (tdres : ℚ) (totalstim : ℤ) (t : ℚ) : ℤ :=
  toInt (divD (fmod t (mulD tdres (totalstim : ℚ))) tdres)

/-- The loop that bins the spike times into `psth` (lines 234–238) on `double`s. -/
def binSpikesD (sptime : Arr ℕ ℚ) (nspikes : ℕ) (tdres : ℚ) (totalstim : ℤ)
    (psth : Arr ℤ ℚ) : Arr ℤ ℚ :=
  forLoop nspikes
    (fun i (p : Arr ℤ ℚ) =>
      let ipst := phaseIndexD tdres totalstim (sptime i)
      Arr.set p ipst (addD (p ipst) 1))
    psth

/-- The uniform numbers of the run examined below: `0.5`, `0.999935`, `0.5`, …. -/
def exampleDraws (i : ℕ) : ℚ := if i = 1 then roundDouble 0.999935 else 0.5

/-- A table of `log` with the values of `libm` at the two uniform numbers of
`exampleDraws`, `log(0.5) = -0x1.62e42fefa39efp-1` and
`log(0.999935) = -0x1.10a37ca7f5fffp-14`, and `0` elsewhere. -/
def exampleLog (x : ℚ) : ℚ :=
  if x = 0.5 then -(6243314768165359 / 2 ^ 53)
  else if x = roundDouble 0.999935 then -(4796309340905471 / 2 ^ 66)
  else 0

/-- A table of `exp` with the value `exp(0) = 1`, and `0` elsewhere. -/
def exampleExp (x : ℚ) : ℚ := if x = 0 then 1 else 0

/-! ## Specification predicates -/

/-- The loop invariant of the rate-vector loop of `SpikeGenerator`, for `0 < tdres`:
`countTime` is `(k+1)*tdres`; the `i`-th recorded spike is at a multiple `m*tdres` of the
step with `i*(d+1) < m < totalstim*nrep` and at least `d+1` steps before the current
step, `d = deadtimeIndex`; recorded spikes are `d+1` steps apart; two or three draws are
read at the start and one after each spike; the cells of `sptime` from `Nout` on are
untouched. -/
def SpikeInv (tdres : α) (N : ℤ) (sptime0 : Arr ℕ α) (s : SpikeState α) : Prop :=
  s.countTime = ((s.k + 1 : ℤ) : α) * tdres ∧
  (s.Nout : ℤ) * (deadtimeIndex tdres + 1) ≤ s.k ∧
  (∀ i, i < s.Nout → ∃ m : ℤ, (i : ℤ) * (deadtimeIndex tdres + 1) + 1 ≤ m ∧ m < N ∧
      m + deadtimeIndex tdres + 1 ≤ s.k + 1 ∧ s.sptime i = (m : α) * tdres) ∧
  (∀ i, i + 1 < s.Nout →
      s.sptime i + ((deadtimeIndex tdres + 1 : ℤ) : α) * tdres ≤ s.sptime (i + 1)) ∧
  (s.randBufIndex = s.Nout + 2 ∨ s.randBufIndex = s.Nout + 3) ∧
  (∀ j, s.Nout ≤ j → s.sptime j = sptime0 j)

/-- What holds of the final state `r` of `SpikeGenerator` started on the buffer `sptime0`:
for `0 < tdres` the loop invariant, for `tdres ≤ 0` no pass through the loop. -/
def SpikeFacts (tdres : α) (N : ℤ) (sptime0 : Arr ℕ α) (r : SpikeState α) : Prop :=
  (0 < tdres ∧ SpikeInv tdres N sptime0 r) ∨
  (tdres ≤ 0 ∧ r.Nout = 0 ∧ (r.randBufIndex = 2 ∨ r.randBufIndex = 3) ∧ r.sptime = sptime0)

/-- Every divisor that is not a literal constant in the derivation of the constants
(lines 339–381) and in the store loop (lines 388–392) at zero drive is nonzero. -/
def DenominatorsNonzero (log : α → α) (c : SynapseConstants α) : Prop :=
  c.Aon ≠ 0 ∧ c.Ass ≠ 0 ∧ c.Asp ≠ 0 ∧ c.Prest ≠ 0 ∧
  c.Aon * c.Prest * (1 - c.Asp / c.Ass) ≠ 0 ∧ c.CG ≠ 0 ∧ c.gamma1 ≠ 0 ∧ c.gamma2 ≠ 0 ∧
  c.gamma1 * (c.AR * (c.k1 - c.k2) / c.CG / c.PImax + c.k2 / c.Prest / c.gamma1
    - c.k2 / c.PImax / c.gamma2) ≠ 0 ∧
  c.gamma1 * (c.AST * (c.k2 - c.k1) / c.CG / c.PImax + c.k1 / c.Prest / c.gamma1
    - c.k1 / c.PImax / c.gamma2) ≠ 0 ∧
  c.VI ≠ 0 ∧ c.theta1 ≠ 0 ∧ c.PL ≠ 0 ∧ c.theta3 - 1 / c.PL ≠ 0 ∧ c.VL ≠ 0 ∧
  log 2 ≠ 0 ∧ c.synstrength ≠ 0

/-- The relations between the constants of `Synapse`, read off the assignments of lines
334–381 in order. -/
def ConstantRelations (log exp : α → α) (pow : α → α → α) (u : Indeterminate α)
    (cf spont implnt : α) (c : SynapseConstants α) : Prop :=
  c.cf_factor =
    (if spont = 0.1 then cmin 1.0 (2.5e-4 * cf * 0.1 + 0.15)
     else if spont = 4 then cmin 50 (2.5e-4 * cf * 4 + 0.2)
     else if spont = 100 then cmin 800 (pow 10 (0.29 * cf / 1e3 + 0.7))
     else u.cf_factor) ∧
  c.PImax = 0.6 ∧
  c.kslope = (1 + 50.0) / (5 + 50.0) * c.cf_factor * 20.0 * c.PImax ∧
  c.Ass = 800 * (1 + cf / 100e3) ∧
  c.Asp =
    (if implnt = 0 then spont * 2.75
     else if implnt = 1 then spont * 3.0
     else if implnt = 2 then spont * 3.0
     else u.Asp) ∧
  c.TauR = 2e-3 ∧ c.TauST = 60e-3 ∧ c.Ar_Ast = 6 ∧ c.PTS = 3 ∧
  c.Aon = c.PTS * c.Ass ∧
  c.AR = (c.Aon - c.Ass) * c.Ar_Ast / (1 + c.Ar_Ast) ∧
  c.AST = c.Aon - c.Ass - c.AR ∧
  c.Prest = c.PImax / c.Aon * c.Asp ∧
  c.CG = (c.Asp * (c.Aon - c.Asp)) / (c.Aon * c.Prest * (1 - c.Asp / c.Ass)) ∧
  c.gamma1 = c.CG / c.Asp ∧
  c.gamma2 = c.CG / c.Ass ∧
  c.k1 = -1 / c.TauR ∧
  c.k2 = -1 / c.TauST ∧
  c.VI0 = (1 - c.PImax / c.Prest)
    / (c.gamma1 * (c.AR * (c.k1 - c.k2) / c.CG / c.PImax + c.k2 / c.Prest / c.gamma1
      - c.k2 / c.PImax / c.gamma2)) ∧
  c.VI1 = (1 - c.PImax / c.Prest)
    / (c.gamma1 * (c.AST * (c.k2 - c.k1) / c.CG / c.PImax + c.k1 / c.Prest / c.gamma1
      - c.k1 / c.PImax / c.gamma2)) ∧
  c.VI = (c.VI0 + c.VI1) / 2 ∧
  c.alpha = c.gamma2 / c.k1 / c.k2 ∧
  c.beta = -(c.k1 + c.k2) * c.alpha ∧
  c.theta1 = c.alpha * c.PImax / c.VI ∧
  c.theta2 = c.VI / c.PImax ∧
  c.theta3 = c.gamma2 - 1 / c.PImax ∧
  c.PL = ((c.beta - c.theta2 * c.theta3) / c.theta1 - 1) * c.PImax ∧
  c.PG = 1 / (c.theta3 - 1 / c.PL) ∧
  c.VL = c.theta1 * c.PL * c.PG ∧
  c.CI = c.Asp / c.Prest ∧
  c.CL = c.CI * (c.Prest + c.PL) / c.PL ∧
  c.vsat = (if c.kslope ≥ 0 then c.kslope + c.Prest else u.vsat) ∧
  c.tmpst = log 2 * c.vsat / c.Prest ∧
  c.synstrength = (if c.tmpst < 400 then log (exp c.tmpst - 1) else c.tmpst) ∧
  c.synslope = c.Prest / log 2 * c.synstrength

/-- The slope parameters of the release nonlinearity (lines 377–381). -/
structure SlopeParameters (α : Type) where
  vsat : α
  tmpst : α
  synstrength : α
  synslope : α

/-- The computation of `vsat`, `tmpst`, `synstrength` and `synslope` in `Synapse` (lines
377–381) from `kslope` and `Prest`; `vsat0` is the value `vsat` holds when `kslope < 0`
leaves it unassigned. -/
def slopeParameters (log exp : α → α) (kslope Prest vsat0 : α) : SlopeParameters α :=
  let vsat := if kslope ≥ 0 then kslope + Prest else vsat0
  let tmpst := log 2 * vsat / Prest
  let synstrength := if tmpst < 400 then log (exp tmpst - 1) else tmpst
  let synslope := Prest / log 2 * synstrength
  { vsat := vsat, tmpst := tmpst, synstrength := synstrength, synslope := synslope }

/-! # Verified properties -/

/-! ## SpikeGenerator: loop invariant, spacing and number of spikes -/

@[simp] theorem Arr.get_set {ι β : Type} [DecidableEq ι] (a : Arr ι β) (i j : ι) (v : β) :
    (a.set i v) j = if j = i then v else a j := by
  simp [Arr.set, Function.update]

@[simp] theorem Arr.get_zero {ι β : Type} [Zero β] (i : ι) : (Arr.zero : Arr ι β) i = 0 := rfl

theorem deadtimeIndex_nonneg {tdres : α} (h : 0 < tdres) : 0 ≤ deadtimeIndex tdres := by
  unfold deadtimeIndex
  apply Int.floor_nonneg.mpr
  positivity

theorem spikeLoop_eq (log : α → α) (synouttmp : ℤ → α) (tdres : α) (totalstim nrep : ℤ)
    (randNums : ℕ → α) (fuel : ℕ) (s : SpikeState α) :
    spikeLoop log synouttmp tdres totalstim nrep randNums fuel s =
      if s.k < totalstim * nrep ∧ s.countTime < (totalstim : α) * tdres * (nrep : α) then
        match fuel with
        | 0 => none
        | fuel + 1 =>
          spikeLoop log synouttmp tdres totalstim nrep randNums fuel
            (spikeBody log synouttmp tdres randNums s)
      else some s := by
  cases fuel <;> rfl

theorem spikeBody_k_ge (log : α → α) (synouttmp : ℤ → α) {tdres : α} (h : 0 < tdres)
    (randNums : ℕ → α) (s : SpikeState α) :
    s.k + 1 ≤ (spikeBody log synouttmp tdres randNums s).k := by
  have hd := deadtimeIndex_nonneg h
  unfold spikeBody
  simp only
  split_ifs
  · simp only; omega
  · simp only; omega
  · omega

theorem spikeBody_inv (log : α → α) (synouttmp : ℤ → α) {tdres : α} (h : 0 < tdres)
    (totalstim nrep : ℤ) (randNums : ℕ → α) (sptime0 : Arr ℕ α) (s : SpikeState α)
    (hinv : SpikeInv tdres (totalstim * nrep) sptime0 s)
    (hc : s.countTime < (totalstim : α) * tdres * (nrep : α)) :
    SpikeInv tdres (totalstim * nrep) sptime0 (spikeBody log synouttmp tdres randNums s) := by
  have hd := deadtimeIndex_nonneg h
  obtain ⟨h1, h2, h3, h4, h5, h6⟩ := hinv
  have hk0 : 0 ≤ s.k := le_trans (by positivity) h2
  have hkN : s.k + 1 < totalstim * nrep := by
    rw [h1] at hc
    have : ((s.k + 1 : ℤ) : α) * tdres < ((totalstim * nrep : ℤ) : α) * tdres := by
      push_cast; push_cast at hc; linarith
    have := lt_of_mul_lt_mul_right this h.le
    exact_mod_cast this
  unfold spikeBody
  simp only
  split_ifs with hr hx
  · -- a spike is recorded
    refine ⟨?_, ?_, ?_, ?_, ?_, ?_⟩
    · simp only [h1]; push_cast; ring
    · simp only; push_cast; nlinarith
    · intro i hi
      simp only at hi
      simp only [Arr.get_set]
      split_ifs with hiN
      · subst hiN
        exact ⟨s.k + 1, by linarith, hkN, by linarith, by rw [h1]⟩
      · obtain ⟨m, hm1, hm2, hm3, hm4⟩ := h3 i (by omega)
        exact ⟨m, hm1, hm2, by linarith, hm4⟩
    · intro i hi
      simp only at hi
      simp only [Arr.get_set]
      have hne : i ≠ s.Nout := by omega
      rw [if_neg hne]
      split_ifs with hiN
      · obtain ⟨m, hm1, hm2, hm3, hm4⟩ := h3 i (by omega)
        rw [hm4, h1, ← add_mul]
        apply mul_le_mul_of_nonneg_right _ h.le
        have : m + (deadtimeIndex tdres + 1) ≤ s.k + 1 := by linarith
        exact_mod_cast this
      · exact h4 i (by omega)
    · simp only
      omega
    · intro j hj
      simp only at hj
      simp only [Arr.get_set]
      rw [if_neg (by omega)]
      exact h6 j (by omega)
  · refine ⟨?_, ?_, ?_, ?_, ?_, ?_⟩
    · simp only [h1]; push_cast; ring
    · simp only; linarith
    · intro i hi
      obtain ⟨m, hm1, hm2, hm3, hm4⟩ := h3 i hi
      exact ⟨m, hm1, hm2, by simp only; linarith, hm4⟩
    · exact h4
    · exact h5
    · exact h6
  · refine ⟨?_, ?_, ?_, ?_, ?_, ?_⟩
    · simp only [h1]; push_cast; ring
    · simp only; linarith
    · intro i hi
      obtain ⟨m, hm1, hm2, hm3, hm4⟩ := h3 i hi
      exact ⟨m, hm1, hm2, by simp only; linarith, hm4⟩
    · exact h4
    · exact h5
    · exact h6

theorem spikeLoop_spec (log : α → α) (synouttmp : ℤ → α) {tdres : α} (h : 0 < tdres)
    (totalstim nrep : ℤ) (randNums : ℕ → α) (sptime0 : Arr ℕ α) :
    ∀ (fuel : ℕ) (s : SpikeState α), SpikeInv tdres (totalstim * nrep) sptime0 s →
      (totalstim * nrep - s.k).toNat ≤ fuel →
      ∃ r, spikeLoop log synouttmp tdres totalstim nrep randNums fuel s = some r ∧
        SpikeInv tdres (totalstim * nrep) sptime0 r := by
  intro fuel
  induction fuel with
  | zero =>
    intro s hinv hf
    rw [spikeLoop_eq]
    have hk : ¬ s.k < totalstim * nrep := by omega
    simp only [hk, false_and, if_false]
    exact ⟨s, rfl, hinv⟩
  | succ fuel ih =>
    intro s hinv hf
    rw [spikeLoop_eq]
    split_ifs with hc
    · have hk := spikeBody_k_ge log synouttmp h randNums s
      exact ih _ (spikeBody_inv log synouttmp h totalstim nrep randNums sptime0 s hinv hc.2)
        (by omega)
    · exact ⟨s, rfl, hinv⟩

theorem SpikeGenerator_facts (fuel : ℕ) (log exp : α → α) (rand : ℤ → ℤ → ℕ → α)
    (synouttmp : ℤ → α) (tdres : α) (totalstim nrep : ℤ) (sptime0 : Arr ℕ α)
    (hfuel : (totalstim * nrep).toNat ≤ fuel) :
    ∃ r, SpikeGenerator fuel log exp rand synouttmp tdres totalstim nrep sptime0 = some r ∧
      SpikeFacts tdres (totalstim * nrep) sptime0 r := by
  unfold SpikeGenerator
  simp only
  rcases lt_or_le 0 tdres with h | h
  · obtain ⟨r, hr, hinv⟩ := spikeLoop_spec log synouttmp h totalstim nrep
      (rand 1 (NoutMax tdres totalstim nrep + 1)) sptime0 fuel
      (spikeInit log exp synouttmp tdres (rand 1 (NoutMax tdres totalstim nrep + 1)) sptime0)
      (by
        have hd := deadtimeIndex_nonneg h
        refine ⟨?_, ?_, ?_, ?_, ?_, ?_⟩
        · simp [spikeInit]
        · simp [spikeInit]
        · simp [spikeInit]
        · simp [spikeInit]
        · simp only [spikeInit]
          split_ifs
          · left; rfl
          · right; rfl
        · simp [spikeInit])
      (by simpa [spikeInit] using hfuel)
    exact ⟨r, hr, Or.inl ⟨h, hinv⟩⟩
  · rw [spikeLoop_eq]
    have hc : ¬ ((spikeInit log exp synouttmp tdres
        (rand 1 (NoutMax tdres totalstim nrep + 1)) sptime0).k < totalstim * nrep ∧
        (spikeInit log exp synouttmp tdres
          (rand 1 (NoutMax tdres totalstim nrep + 1)) sptime0).countTime
          < (totalstim : α) * tdres * (nrep : α)) := by
      simp only [spikeInit]
      rintro ⟨h1, h2⟩
      have h3 : (1 : α) ≤ ((totalstim * nrep : ℤ) : α) := by exact_mod_cast h1
      push_cast at h3
      nlinarith
    rw [if_neg hc]
    refine ⟨_, rfl, Or.inr ⟨h, rfl, ?_, rfl⟩⟩
    simp only [spikeInit]
    split_ifs
    · left; rfl
    · right; rfl

theorem dead_lt_step {tdres : α} (h : 0 < tdres) :
    (0.00075 : α) < ((deadtimeIndex tdres + 1 : ℤ) : α) * tdres := by
  have h1 : (0.00075 : α) / tdres < ((deadtimeIndex tdres + 1 : ℤ) : α) := by
    unfold deadtimeIndex
    push_cast
    exact Int.lt_floor_add_one _
  rwa [div_lt_iff₀ h] at h1

/-- C2: for `0 < tdres`, a rate sequence of length `totalstim*nrep` and enough fuel
`SpikeGenerator` returns, the number of spikes is at most
`NoutMax = ceil(totalstim*nrep*tdres/0.00075)`, and no cell of `sptime` at an index
`≥ NoutMax` (outside the buffer allocated by `SingleAN`) is changed. -/
theorem SpikeGenerator_nspikes_le_NoutMax (fuel : ℕ) (log exp : α → α)
    (rand : ℤ → ℤ → ℕ → α) (synouttmp : ℤ → α) (tdres : α) (totalstim nrep : ℤ)
    (sptime0 : Arr ℕ α) (htd : 0 < tdres) (hlen : 0 ≤ totalstim * nrep)
    (hfuel : (totalstim * nrep).toNat ≤ fuel) :
    ∃ r, SpikeGenerator fuel log exp rand synouttmp tdres totalstim nrep sptime0 = some r ∧
      (r.Nout : ℤ) ≤ NoutMax tdres totalstim nrep ∧
      ∀ j : ℕ, NoutMax tdres totalstim nrep ≤ (j : ℤ) → r.sptime j = sptime0 j := by
  obtain ⟨r, hr, hf⟩ := SpikeGenerator_facts fuel log exp rand synouttmp tdres totalstim nrep
    sptime0 hfuel
  refine ⟨r, hr, ?_⟩
  rcases hf with ⟨_, hinv⟩ | ⟨hneg, _⟩
  · obtain ⟨h1, h2, h3, h4, h5, h6⟩ := hinv
    have hle : (r.Nout : ℤ) ≤ NoutMax tdres totalstim nrep := by
      unfold NoutMax
      rcases Nat.eq_zero_or_pos r.Nout with h0 | hpos
      · rw [h0]
        apply Int.ceil_nonneg
        have : (0 : α) ≤ ((totalstim * nrep : ℤ) : α) := by exact_mod_cast hlen
        positivity
      · obtain ⟨m, hm1, hm2, _, _⟩ := h3 (r.Nout - 1) (by omega)
        have hd := deadtimeIndex_nonneg htd
        have hstep := dead_lt_step htd
        have hcast : ((r.Nout - 1 : ℕ) : ℤ) = (r.Nout : ℤ) - 1 := by omega
        rw [hcast] at hm1
        have hlt : (r.Nout : ℤ) - 1 < ⌈((totalstim * nrep : ℤ) : α) * tdres / 0.00075⌉ := by
          rw [Int.lt_ceil, lt_div_iff₀ (by norm_num)]
          have hm1' : (((r.Nout : ℤ) - 1) * (deadtimeIndex tdres + 1) + 1 : ℤ) ≤ m := hm1
          have e1 : ((((r.Nout : ℤ) - 1 : ℤ) : α)) * ((deadtimeIndex tdres + 1 : ℤ) : α) + 1
              ≤ (m : α) := by exact_mod_cast hm1'
          have e2 : (m : α) < ((totalstim * nrep : ℤ) : α) := by exact_mod_cast hm2
          have e3 : (0 : α) ≤ (((r.Nout : ℤ) - 1 : ℤ) : α) := by
            have : (0 : ℤ) ≤ (r.Nout : ℤ) - 1 := by omega
            exact_mod_cast this
          have e4 : (((r.Nout : ℤ) - 1 : ℤ) : α) * 0.00075
              ≤ (((r.Nout : ℤ) - 1 : ℤ) : α) * (((deadtimeIndex tdres + 1 : ℤ) : α) * tdres) :=
            mul_le_mul_of_nonneg_left hstep.le e3
          have e5 : ((((r.Nout : ℤ) - 1 : ℤ) : α)) * ((deadtimeIndex tdres + 1 : ℤ) : α) * tdres
              + tdres ≤ (m : α) * tdres := by
            have := mul_le_mul_of_nonneg_right e1 htd.le
            linarith
          have e6 : (m : α) * tdres < ((totalstim * nrep : ℤ) : α) * tdres :=
            mul_lt_mul_of_pos_right e2 htd
          linarith
        omega
    refine ⟨hle, ?_⟩
    intro j hj
    exact h6 j (by omega)
  · exact absurd htd (not_lt.mpr hneg)

/-- The witness of C2: a run with step 1 ms over four samples. -/
theorem SpikeGenerator_nspikes_le_NoutMax_witness :
    (0 : ℚ) < 1 / 1000 ∧ (0 : ℤ) ≤ 4 * 1 ∧ ((4 : ℤ) * 1).toNat ≤ 4 ∧
    ∃ r, SpikeGenerator 4 (fun x => x - 1) (fun x => 1 + x) (fun _ _ _ => 1 / 2)
        (fun _ => 100000) (1 / 1000 : ℚ) 4 1 Arr.zero = some r ∧
      (r.Nout : ℤ) ≤ NoutMax (1 / 1000 : ℚ) 4 1 ∧
      ∀ j : ℕ, NoutMax (1 / 1000 : ℚ) 4 1 ≤ (j : ℤ) → r.sptime j = (Arr.zero : Arr ℕ ℚ) j :=
  ⟨by norm_num, by decide, by decide,
    SpikeGenerator_nspikes_le_NoutMax 4 _ _ _ _ _ 4 1 Arr.zero (by norm_num) (by decide)
      (by decide)⟩

/-! ## SingleAN: PSTH, mean rate and variance -/

theorem forLoop_succ {σ : Type} (n : ℕ) (body : ℕ → σ → σ) (s : σ) :
    forLoop (n + 1) body s = body n (forLoop n body s) := rfl

theorem forLoop_zero {σ : Type} (body : ℕ → σ → σ) (s : σ) : forLoop 0 body s = s := rfl

theorem toInt_intCast (m : ℤ) : toInt ((m : ℤ) : α) = m := by
  unfold toInt
  split_ifs <;> simp

theorem floor_intCast_div_pos (m T : ℤ) (hT : 0 < T) : ⌊(m : α) / (T : α)⌋ = m / T := by
  have hT' : (0 : α) < (T : α) := by exact_mod_cast hT
  rw [Int.floor_eq_iff]
  constructor
  · rw [le_div_iff₀ hT']
    have := Int.ediv_mul_le m hT.ne'
    exact_mod_cast this
  · rw [div_lt_iff₀ hT']
    have := Int.lt_ediv_add_one_mul_self m hT
    exact_mod_cast this

theorem phaseIndex_mul (tdres : α) (htd : 0 < tdres) (T m : ℤ) (hT : 0 < T) (hm : 0 ≤ m) :
    phaseIndex tdres T ((m : α) * tdres) = m % T := by
  have hT' : (0 : α) < (T : α) := by exact_mod_cast hT
  have hm' : (0 : α) ≤ (m : α) := by exact_mod_cast hm
  unfold phaseIndex fmod
  have e1 : (m : α) * tdres / (tdres * (T : α)) = (m : α) / (T : α) := by
    field_simp
    ring
  have e2 : toInt ((m : α) / (T : α)) = m / T := by
    unfold toInt
    rw [if_pos (by positivity)]
    exact floor_intCast_div_pos m T hT
  rw [e1, e2]
  have e3 : ((m : α) * tdres - ((m / T : ℤ) : α) * (tdres * (T : α))) / tdres
      = ((m % T : ℤ) : α) := by
    have : m % T = m - T * (m / T) := by
      have := Int.emod_add_ediv m T
      linarith
    rw [this]
    push_cast
    field_simp
    ring
  rw [e3, toInt_intCast]

theorem binSpikes_get (sptime : Arr ℕ α) (tdres : α) (totalstim : ℤ) (psth : Arr ℤ α)
    (j : ℤ) (n : ℕ) :
    (binSpikes sptime n tdres totalstim psth) j = psth j +
      (((Finset.range n).filter (fun i => phaseIndex tdres totalstim (sptime i) = j)).card : α) := by
  induction n with
  | zero => simp [binSpikes, forLoop_zero]
  | succ n ih =>
    unfold binSpikes at ih ⊢
    rw [forLoop_succ]
    simp only [Arr.get_set]
    rw [Finset.range_succ, Finset.filter_insert]
    by_cases hj : j = phaseIndex tdres totalstim (sptime n)
    · subst hj
      rw [if_pos rfl, if_pos rfl, ih, Finset.card_insert_of_not_mem (by simp)]
      push_cast
      ring
    · rw [if_neg hj, if_neg (fun h => hj h.symm), ih]

theorem aggregate_of_some (fuel : ℕ) (log exp : α → α) (rand : ℤ → ℤ → ℕ → α)
    (synouttmp : ℤ → α) (I : α) (nrep : ℤ) (tdres : α) (totalstim : ℤ)
    (meanrate varrate psth : Arr ℤ α) (r : SpikeState α)
    (hr : SpikeGenerator fuel log exp rand synouttmp tdres totalstim nrep Arr.zero = some r) :
    aggregate fuel log exp rand synouttmp I nrep tdres totalstim meanrate varrate psth =
      some
        { meanrate :=
            (refractoryCorrection totalstim
              (foldRate synouttmp I totalstim nrep meanrate, varrate)).1
          varrate :=
            (refractoryCorrection totalstim
              (foldRate synouttmp I totalstim nrep meanrate, varrate)).2
          psth := binSpikes r.sptime r.Nout tdres totalstim psth } := by
  simp only [aggregate, hr]

/-- The PSTH in exact arithmetic, where every spike time is exactly a multiple `m*tdres`
of the step: starting from a zeroed `psth`, after `SingleAN` has binned the spike times
returned by `SpikeGenerator`, every bin `j` holds the number of spikes with phase index
`j`, every spike time `t` satisfies `tdres ≤ t < totalstim*nrep*tdres` and has its phase
index in `0..totalstim-1`, and the bins `0..totalstim-1` sum to `nspikes`.  This is a
property of the exact embedding only: it depends on `countTime` and `fmod(t, …)/tdres`
being computed without rounding, and the last section shows that it is lost on
`double`s. -/
theorem aggregate_psth_sum_exact (fuel : ℕ) (log exp : α → α) (rand : ℤ → ℤ → ℕ → α)
    (synouttmp : ℤ → α) (I : α) (nrep : ℤ) (tdres : α) (totalstim : ℤ)
    (meanrate varrate : Arr ℤ α) (hT : 0 ≤ totalstim)
    (hfuel : (totalstim * nrep).toNat ≤ fuel) :
    ∃ r out,
      SpikeGenerator fuel log exp rand synouttmp tdres totalstim nrep Arr.zero = some r ∧
      aggregate fuel log exp rand synouttmp I nrep tdres totalstim meanrate varrate Arr.zero
        = some out ∧
      (∑ j in Finset.Ico 0 totalstim, out.psth j) = (r.Nout : α) ∧
      (∀ i, i < r.Nout → tdres ≤ r.sptime i ∧
        r.sptime i < ((totalstim * nrep : ℤ) : α) * tdres ∧
        0 ≤ phaseIndex tdres totalstim (r.sptime i) ∧
        phaseIndex tdres totalstim (r.sptime i) < totalstim) ∧
      ∀ j, out.psth j = (((Finset.range r.Nout).filter
        (fun i => phaseIndex tdres totalstim (r.sptime i) = j)).card : α) := by
  obtain ⟨r, hr, hf⟩ := SpikeGenerator_facts fuel log exp rand synouttmp tdres totalstim nrep
    Arr.zero hfuel
  have hspk : ∀ i, i < r.Nout → tdres ≤ r.sptime i ∧
        r.sptime i < ((totalstim * nrep : ℤ) : α) * tdres ∧
        0 ≤ phaseIndex tdres totalstim (r.sptime i) ∧
        phaseIndex tdres totalstim (r.sptime i) < totalstim := by
    intro i hi
    rcases hf with ⟨htd, hinv⟩ | ⟨_, h0, _⟩
    · obtain ⟨m, hm1, hm2, _, hm4⟩ := hinv.2.2.1 i hi
      have hd := deadtimeIndex_nonneg htd
      have hm0 : 1 ≤ m := by nlinarith [Int.natCast_nonneg i]
      have hN : 0 < totalstim * nrep := by omega
      have hTpos : 0 < totalstim := by
        rcases hT.eq_or_lt with h | h
        · rw [← h] at hN; simp at hN
        · exact h
      rw [hm4, phaseIndex_mul tdres htd totalstim m hTpos (by omega)]
      refine ⟨?_, ?_, Int.emod_nonneg _ hTpos.ne', Int.emod_lt_of_pos _ hTpos⟩
      · have : (1 : α) ≤ (m : α) := by exact_mod_cast hm0
        nlinarith
      · have : (m : α) < ((totalstim * nrep : ℤ) : α) := by exact_mod_cast hm2
        exact mul_lt_mul_of_pos_right this htd
    · omega
  have hbin : ∀ j, (binSpikes r.sptime r.Nout tdres totalstim Arr.zero) j =
      (((Finset.range r.Nout).filter
        (fun i => phaseIndex tdres totalstim (r.sptime i) = j)).card : α) := by
    intro j
    rw [binSpikes_get, Arr.get_zero, zero_add]
  refine ⟨r, _, hr, aggregate_of_some fuel log exp rand synouttmp I nrep tdres totalstim
    meanrate varrate Arr.zero r hr, ?_, hspk, hbin⟩
  simp only [hbin]
  rw [← Nat.cast_sum, ← Finset.card_eq_sum_card_fiberwise]
  · simp
  · intro i hi
    have := hspk i (Finset.mem_range.mp hi)
    exact Finset.mem_Ico.mpr ⟨this.2.2.1, this.2.2.2⟩

/-- An instance of the PSTH property in exact arithmetic: a run with step 1 ms, two
repetitions of two samples. -/
theorem aggregate_psth_sum_exact_instance :
    (0 : ℤ) ≤ 2 ∧ ((2 : ℤ) * 2).toNat ≤ 4 ∧
    ∃ r out,
      SpikeGenerator 4 (fun x => x - 1) (fun x => 1 + x) (fun _ _ _ => 1 / 2)
        (fun _ => 100000) (1 / 1000 : ℚ) 2 2 Arr.zero = some r ∧
      aggregate 4 (fun x => x - 1) (fun x => 1 + x) (fun _ _ _ => 1 / 2)
        (fun _ => 100000) 4 2 (1 / 1000 : ℚ) 2 Arr.zero Arr.zero Arr.zero = some out ∧
      (∑ j in Finset.Ico 0 (2 : ℤ), out.psth j) = (r.Nout : ℚ) ∧
      (∀ i, i < r.Nout → (1 / 1000 : ℚ) ≤ r.sptime i ∧
        r.sptime i < (((2 : ℤ) * 2 : ℤ) : ℚ) * (1 / 1000) ∧
        0 ≤ phaseIndex (1 / 1000 : ℚ) 2 (r.sptime i) ∧
        phaseIndex (1 / 1000 : ℚ) 2 (r.sptime i) < 2) ∧
      ∀ j, out.psth j = (((Finset.range r.Nout).filter
        (fun i => phaseIndex (1 / 1000 : ℚ) 2 (r.sptime i) = j)).card : ℚ) :=
  ⟨by decide, by decide,
    aggregate_psth_sum_exact 4 _ _ _ _ 4 2 (1 / 1000 : ℚ) 2 Arr.zero Arr.zero (by decide)
      (by decide)⟩

theorem toInt_fmod_natCast (k : ℕ) (T : ℤ) (hT : 0 < T) :
    toInt (fmod (k : α) (T : α)) = (k : ℤ) % T := by
  have hT' : (0 : α) < (T : α) := by exact_mod_cast hT
  have hk : ((k : ℕ) : α) = (((k : ℤ) : ℤ) : α) := by push_cast; rfl
  unfold fmod
  have e2 : toInt ((k : α) / (T : α)) = (k : ℤ) / T := by
    unfold toInt
    rw [if_pos (by positivity), hk]
    exact floor_intCast_div_pos (k : ℤ) T hT
  rw [e2]
  have e3 : (k : α) - (((k : ℤ) / T : ℤ) : α) * (T : α) = (((k : ℤ) % T : ℤ) : α) := by
    have : (k : ℤ) % T = (k : ℤ) - T * ((k : ℤ) / T) := by
      have := Int.emod_add_ediv (k : ℤ) T
      linarith
    rw [this]
    push_cast
    ring
  rw [e3, toInt_intCast]

theorem foldRate_get (synouttmp : ℤ → α) (I : α) (totalstim nrep : ℤ) (meanrate : Arr ℤ α)
    (hT : 0 < totalstim) (j : ℤ) :
    (foldRate synouttmp I totalstim nrep meanrate) j = meanrate j +
      ∑ k in Finset.range ⌈I⌉.toNat,
        if (k : ℤ) % totalstim = j then synouttmp (k : ℤ) / (nrep : α) else 0 := by
  unfold foldRate
  induction ⌈I⌉.toNat with
  | zero => simp [forLoop_zero]
  | succ n ih =>
    rw [forLoop_succ, Finset.sum_range_succ]
    simp only [Arr.get_set, toInt_fmod_natCast n totalstim hT]
    by_cases hj : j = (n : ℤ) % totalstim
    · subst hj
      rw [if_pos rfl, if_pos rfl, ih]
      ring
    · rw [if_neg hj, if_neg (fun h => hj h.symm), ih]
      ring

theorem sum_mod_tiles (T n i : ℕ) (hi : i < T) (f : ℕ → α) :
    (∑ k in Finset.range (T * n), if k % T = i then f k else 0) =
      ∑ j in Finset.range n, f (j * T + i) := by
  induction n with
  | zero => simp
  | succ n ih =>
    rw [Nat.mul_succ, Finset.sum_range_add, ih, Finset.sum_range_succ]
    congr 1
    have : ∀ x ∈ Finset.range T,
        (if (T * n + x) % T = i then f (T * n + x) else 0) =
          if x = i then f (n * T + i) else 0 := by
      intro x hx
      have hx' := Finset.mem_range.mp hx
      rw [Nat.mul_add_mod, Nat.mod_eq_of_lt hx']
      by_cases h : x = i
      · subst h; simp [Nat.mul_comm]
      · simp [h]
    rw [Finset.sum_congr rfl this, Finset.sum_ite_eq' (Finset.range T) i]
    simp [hi]

theorem refractoryLoop_get (mv : Arr ℤ α × Arr ℤ α) (n : ℕ) (j : ℤ) :
    (forLoop n refractoryBody mv).1 j =
        (if 0 ≤ j ∧ j < (n : ℤ) then mv.1 j / (1 + 0.75e-3 * mv.1 j) else mv.1 j) ∧
      (forLoop n refractoryBody mv).2 j =
        (if 0 ≤ j ∧ j < (n : ℤ) then mv.1 j / (1 + 0.75e-3 * mv.1 j) ^ 3 else mv.2 j) := by
  induction n generalizing j with
  | zero =>
    have h0 : ¬ (0 ≤ j ∧ j < ((0 : ℕ) : ℤ)) := by omega
    rw [forLoop_zero, if_neg h0, if_neg h0]
    exact ⟨rfl, rfl⟩
  | succ n ih =>
    rw [forLoop_succ]
    have hn := (ih (n : ℤ)).1
    rw [if_neg (by omega)] at hn
    by_cases hj : j = (n : ℤ)
    · subst hj
      have h1 : (0 : ℤ) ≤ (n : ℤ) ∧ (n : ℤ) < ((n + 1 : ℕ) : ℤ) := by omega
      rw [if_pos h1, if_pos h1]
      simp only [refractoryBody, Arr.get_set, hn, if_true, and_self]
    · have h2 : (0 ≤ j ∧ j < ((n + 1 : ℕ) : ℤ)) ↔ (0 ≤ j ∧ j < (n : ℤ)) := by omega
      simp only [refractoryBody, Arr.get_set, if_neg hj, h2]
      exact ih j

theorem refractoryCorrection_get (totalstim : ℤ) (mv : Arr ℤ α × Arr ℤ α) (j : ℤ)
    (h0 : 0 ≤ j) (hj : j < totalstim) :
    (refractoryCorrection totalstim mv).1 j = mv.1 j / (1 + 0.75e-3 * mv.1 j) ∧
      (refractoryCorrection totalstim mv).2 j = mv.1 j / (1 + 0.75e-3 * mv.1 j) ^ 3 := by
  unfold refractoryCorrection
  have h := refractoryLoop_get mv totalstim.toNat j
  have hc : 0 ≤ j ∧ j < (totalstim.toNat : ℤ) := by omega
  rw [if_pos hc, if_pos hc] at h
  exact h

theorem foldRate_nonneg (synouttmp : ℤ → α) (totalstim nrep : ℤ) (hT : 0 < totalstim)
    (hnn : ∀ k, 0 ≤ synouttmp k) (j : ℤ) :
    0 ≤ (foldRate synouttmp ((totalstim * nrep : ℤ) : α) totalstim nrep Arr.zero) j := by
  rw [foldRate_get synouttmp _ totalstim nrep Arr.zero hT j, Arr.get_zero, zero_add,
    Int.ceil_intCast]
  rcases le_or_lt 0 nrep with h | h
  · apply Finset.sum_nonneg
    intro k _
    have hn : (0 : α) ≤ (nrep : α) := by exact_mod_cast h
    split_ifs
    · exact div_nonneg (hnn _) hn
    · exact le_rfl
  · have : (totalstim * nrep).toNat = 0 := by
      have : totalstim * nrep < 0 := by nlinarith
      omega
    rw [this]
    simp

/-- C4: for a nonnegative rate sequence and a zeroed `meanrate`, `SingleAN` returns, and at
every phase index `0 ≤ i < totalstim` the computed `varrate[i]` is `m/(1+0.75e-3*m)^3`
for the raw mean rate `m` (the value of `meanrate[i]` before the refractory correction),
and `varrate[i] ≤ m`. -/
theorem aggregate_varrate_le_raw_mean (fuel : ℕ) (log exp : α → α) (rand : ℤ → ℤ → ℕ → α)
    (synouttmp : ℤ → α) (nrep : ℤ) (tdres : α) (totalstim : ℤ) (varrate psth : Arr ℤ α)
    (hnn : ∀ k, 0 ≤ synouttmp k) (hfuel : (totalstim * nrep).toNat ≤ fuel) :
    ∃ out, aggregate fuel log exp rand synouttmp ((totalstim * nrep : ℤ) : α) nrep tdres
        totalstim Arr.zero varrate psth = some out ∧
      ∀ i, 0 ≤ i → i < totalstim →
        out.varrate i =
          (foldRate synouttmp ((totalstim * nrep : ℤ) : α) totalstim nrep Arr.zero) i /
            (1 + 0.75e-3 *
              (foldRate synouttmp ((totalstim * nrep : ℤ) : α) totalstim nrep Arr.zero) i) ^ 3 ∧
        out.varrate i ≤
          (foldRate synouttmp ((totalstim * nrep : ℤ) : α) totalstim nrep Arr.zero) i := by
  obtain ⟨r, hr, -⟩ := SpikeGenerator_facts fuel log exp rand synouttmp tdres totalstim nrep
    Arr.zero hfuel
  refine ⟨_, aggregate_of_some fuel log exp rand synouttmp _ nrep tdres totalstim
    Arr.zero varrate psth r hr, ?_⟩
  intro i h0 hi
  have hm := foldRate_nonneg synouttmp totalstim nrep (by omega) hnn i
  have hv := (refractoryCorrection_get totalstim
    (foldRate synouttmp ((totalstim * nrep : ℤ) : α) totalstim nrep Arr.zero, varrate)
    i h0 hi).2
  simp only at hv ⊢
  rw [hv]
  refine ⟨rfl, ?_⟩
  apply div_le_self hm
  apply one_le_pow₀
  have : (0 : α) ≤ 0.75e-3 *
      (foldRate synouttmp ((totalstim * nrep : ℤ) : α) totalstim nrep Arr.zero) i :=
    mul_nonneg (by norm_num) hm
  linarith

/-- The witness of C4: constant rate 100 over two repetitions of two samples. -/
theorem aggregate_varrate_le_raw_mean_witness :
    (∀ k : ℤ, (0 : ℚ) ≤ (fun _ => 100) k) ∧ ((2 : ℤ) * 2).toNat ≤ 4 ∧
    ∃ out, aggregate 4 (fun x => x - 1) (fun x => 1 + x) (fun _ _ _ => 1 / 2)
        (fun _ => (100 : ℚ)) (((2 : ℤ) * 2 : ℤ) : ℚ) 2 (1 / 1000) 2 Arr.zero Arr.zero Arr.zero
        = some out ∧
      ∀ i, 0 ≤ i → i < (2 : ℤ) →
        out.varrate i =
          (foldRate (fun _ => (100 : ℚ)) (((2 : ℤ) * 2 : ℤ) : ℚ) 2 2 Arr.zero) i /
            (1 + 0.75e-3 *
              (foldRate (fun _ => (100 : ℚ)) (((2 : ℤ) * 2 : ℤ) : ℚ) 2 2 Arr.zero) i) ^ 3 ∧
        out.varrate i ≤
          (foldRate (fun _ => (100 : ℚ)) (((2 : ℤ) * 2 : ℤ) : ℚ) 2 2 Arr.zero) i :=
  ⟨fun _ => by norm_num, by decide,
    aggregate_varrate_le_raw_mean 4 _ _ _ _ 2 (1 / 1000) 2 Arr.zero Arr.zero
      (fun _ => by norm_num) (by decide)⟩

/-- C5: for `nrep ≥ 1` and zeroed outputs `SingleAN` returns, and at every phase index
`0 ≤ i < totalstim`, with `m` the mean `(1/nrep) * Σ_{j<nrep} r[j*totalstim+i]` of the
rate over the repetitions, `meanrate[i] = m/(1+0.75e-3*m)` and
`varrate[i] = m/(1+0.75e-3*m)^3`. -/
theorem aggregate_meanrate_varrate (fuel : ℕ) (log exp : α → α) (rand : ℤ → ℤ → ℕ → α)
    (synouttmp : ℤ → α) (nrep : ℤ) (tdres : α) (totalstim : ℤ) (psth : Arr ℤ α)
    (hnrep : 1 ≤ nrep) (hfuel : (totalstim * nrep).toNat ≤ fuel) :
    ∃ out, aggregate fuel log exp rand synouttmp ((totalstim * nrep : ℤ) : α) nrep tdres
        totalstim Arr.zero Arr.zero psth = some out ∧
      ∀ i, 0 ≤ i → i < totalstim →
        out.meanrate i =
          (1 / (nrep : α) * ∑ j in Finset.range nrep.toNat, synouttmp ((j : ℤ) * totalstim + i)) /
            (1 + 0.75e-3 *
              (1 / (nrep : α) *
                ∑ j in Finset.range nrep.toNat, synouttmp ((j : ℤ) * totalstim + i))) ∧
        out.varrate i =
          (1 / (nrep : α) * ∑ j in Finset.range nrep.toNat, synouttmp ((j : ℤ) * totalstim + i)) /
            (1 + 0.75e-3 *
              (1 / (nrep : α) *
                ∑ j in Finset.range nrep.toNat, synouttmp ((j : ℤ) * totalstim + i))) ^ 3 := by
  obtain ⟨r, hr, -⟩ := SpikeGenerator_facts fuel log exp rand synouttmp tdres totalstim nrep
    Arr.zero hfuel
  refine ⟨_, aggregate_of_some fuel log exp rand synouttmp _ nrep tdres totalstim
    Arr.zero Arr.zero psth r hr, ?_⟩
  intro i h0 hi
  have hT : 0 < totalstim := by omega
  have hraw : (foldRate synouttmp ((totalstim * nrep : ℤ) : α) totalstim nrep Arr.zero) i =
      1 / (nrep : α) * ∑ j in Finset.range nrep.toNat, synouttmp ((j : ℤ) * totalstim + i) := by
    rw [foldRate_get synouttmp _ totalstim nrep Arr.zero hT i, Arr.get_zero, zero_add,
      Int.ceil_intCast]
    have hN : (totalstim * nrep).toNat = totalstim.toNat * nrep.toNat := by
      have h1 : (totalstim.toNat : ℤ) = totalstim := Int.toNat_of_nonneg hT.le
      have h2 : (nrep.toNat : ℤ) = nrep := Int.toNat_of_nonneg (by omega)
      have : ((totalstim.toNat * nrep.toNat : ℕ) : ℤ) = totalstim * nrep := by
        push_cast; rw [h1, h2]
      omega
    have hcongr : ∀ k ∈ Finset.range (totalstim.toNat * nrep.toNat),
        (if (k : ℤ) % totalstim = i then synouttmp (k : ℤ) / (nrep : α) else 0) =
          if k % totalstim.toNat = i.toNat then synouttmp (k : ℤ) / (nrep : α) else 0 := by
      intro k _
      have : ((k : ℤ) % totalstim = i) ↔ (k % totalstim.toNat = i.toNat) := by
        have h1 : (totalstim.toNat : ℤ) = totalstim := Int.toNat_of_nonneg hT.le
        have h3 : ((k % totalstim.toNat : ℕ) : ℤ) = (k : ℤ) % totalstim := by
          rw [Int.natCast_mod, h1]
        omega
      simp only [this]
    rw [hN, Finset.sum_congr rfl hcongr,
      sum_mod_tiles totalstim.toNat nrep.toNat i.toNat (by omega)
        (fun k => synouttmp (k : ℤ) / (nrep : α)), Finset.mul_sum]
    apply Finset.sum_congr rfl
    intro j _
    have h1 : (totalstim.toNat : ℤ) = totalstim := Int.toNat_of_nonneg hT.le
    have h4 : (i.toNat : ℤ) = i := Int.toNat_of_nonneg h0
    have : ((j * totalstim.toNat + i.toNat : ℕ) : ℤ) = (j : ℤ) * totalstim + i := by
      push_cast; rw [h1, h4]
    rw [this]
    ring
  have hv := refractoryCorrection_get totalstim
    (foldRate synouttmp ((totalstim * nrep : ℤ) : α) totalstim nrep Arr.zero, Arr.zero)
    i h0 hi
  simp only at hv ⊢
  rw [hv.1, hv.2, hraw]
  exact ⟨rfl, rfl⟩

/-- The witness of C5: two repetitions of two samples. -/
theorem aggregate_meanrate_varrate_witness :
    (1 : ℤ) ≤ 2 ∧ ((2 : ℤ) * 2).toNat ≤ 4 ∧
    ∃ out, aggregate 4 (fun x => x - 1) (fun x => 1 + x) (fun _ _ _ => 1 / 2)
        (fun k => (k : ℚ)) (((2 : ℤ) * 2 : ℤ) : ℚ) 2 (1 / 1000) 2 Arr.zero Arr.zero Arr.zero
        = some out ∧
      ∀ i, 0 ≤ i → i < (2 : ℤ) →
        out.meanrate i =
          (1 / ((2 : ℤ) : ℚ) * ∑ j in Finset.range (2 : ℤ).toNat,
              (fun k : ℤ => (k : ℚ)) ((j : ℤ) * 2 + i)) /
            (1 + 0.75e-3 *
              (1 / ((2 : ℤ) : ℚ) * ∑ j in Finset.range (2 : ℤ).toNat,
                (fun k : ℤ => (k : ℚ)) ((j : ℤ) * 2 + i))) ∧
        out.varrate i =
          (1 / ((2 : ℤ) : ℚ) * ∑ j in Finset.range (2 : ℤ).toNat,
              (fun k : ℤ => (k : ℚ)) ((j : ℤ) * 2 + i)) /
            (1 + 0.75e-3 *
              (1 / ((2 : ℤ) : ℚ) * ∑ j in Finset.range (2 : ℤ).toNat,
                (fun k : ℤ => (k : ℚ)) ((j : ℤ) * 2 + i))) ^ 3 :=
  ⟨by decide, by decide,
    aggregate_meanrate_varrate 4 _ _ _ _ 2 (1 / 1000) 2 Arr.zero (by decide) (by decide)⟩

/-! ## Synapse: constants, vesicle store and rate output -/

/-- C10: for every characteristic frequency, spontaneous rate and adaptation mode the
onset rate derived in `Synapse` is `Aon = 3*Ass`, with `Ass = 800*(1+cf/100e3)`. -/
theorem synapseConstants_Aon_eq (log exp : α → α) (pow : α → α → α) (u : Indeterminate α)
    (cf spont implnt : α) :
    (synapseConstants log exp pow u cf spont implnt).Aon =
        3 * (synapseConstants log exp pow u cf spont implnt).Ass ∧
      (synapseConstants log exp pow u cf spont implnt).Ass = 800 * (1 + cf / 100e3) ∧
      (synapseConstants log exp pow u cf spont implnt).PTS = 3 :=
  ⟨rfl, rfl, rfl⟩

theorem releaseProb_pos (synstrength synslope x : ℝ) (hs : 0 < synslope / synstrength) :
    0 < releaseProb Real.log Real.exp synstrength synslope x := by
  unfold releaseProb
  simp only
  apply mul_pos hs
  split_ifs with h
  · apply Real.log_pos
    have := Real.exp_pos (synstrength * x)
    linarith
  · linarith

theorem renormalised_pos (PL PG CG PPI : ℝ) (hPL : 0 < PL) (hPG : 0 < PG) (hCG : 0 < CG)
    (hP : 0 < PPI) :
    0 < (renormalised PL PG CG PPI).CI ∧ 0 < (renormalised PL PG CG PPI).CL := by
  unfold renormalised
  simp only
  have h1 : 0 < CG / (PPI * (1 / PG + 1 / PL + 1 / PPI)) := by positivity
  exact ⟨h1, by positivity⟩

theorem storeUpdate_CI_nonneg (tdres PL PG CG VI VL PPI : ℝ) (s : Store ℝ) (hPL : 0 < PL)
    (hPG : 0 < PG) (hCG : 0 < CG) (hP : 0 < PPI) :
    0 ≤ (storeUpdate tdres PL PG CG VI VL PPI s).CI := by
  unfold storeUpdate
  simp only
  split_ifs with h
  · exact (renormalised_pos PL PG CG PPI hPL hPG hCG hP).1.le
  · exact not_lt.mp h

theorem storeLoop_succ (log exp : α → α) (tdres synstrength synslope PL PG CG VI VL : α)
    (ihcout : ℕ → α) (s0 : Store α) (n : ℕ) :
    (storeLoop log exp tdres synstrength synslope PL PG CG VI VL ihcout s0 (n + 1)).1 =
      storeUpdate tdres PL PG CG VI VL (releaseProb log exp synstrength synslope (ihcout n))
        (storeLoop log exp tdres synstrength synslope PL PG CG VI VL ihcout s0 n).1 := rfl

/-- The counterexample to C8: with `PL = PG = CG = VI = VL = 1`, `tdres = 3`, zero drive and
the store state `(CI, CL) = (0, 10)`, the explicit step gives `CI = 30`, so the
renormalisation branch is not taken, and `CL = 10 + 3*(-10 + (1 - 10)) = -47 < 0`. -/
theorem storeLoop_CL_negative :
    (0 : ℝ) < 1 ∧ (0 : ℝ) < 3 ∧
    0 < releaseProb Real.log Real.exp 1 1 ((fun _ => (0 : ℝ)) 0) ∧
    (0 : ℝ) ≤ (⟨0, 10⟩ : Store ℝ).CI ∧ (0 : ℝ) ≤ (⟨0, 10⟩ : Store ℝ).CL ∧
    (storeLoop Real.log Real.exp 3 1 1 1 1 1 1 1 (fun _ => (0 : ℝ)) ⟨0, 10⟩ 1).1.CI = 30 ∧
    (storeLoop Real.log Real.exp 3 1 1 1 1 1 1 1 (fun _ => (0 : ℝ)) ⟨0, 10⟩ 1).1.CL = -47 ∧
    ¬ 0 ≤ (storeLoop Real.log Real.exp 3 1 1 1 1 1 1 1 (fun _ => (0 : ℝ)) ⟨0, 10⟩ 1).1.CL := by
  have hP := releaseProb_pos 1 1 0 (by norm_num)
  have hI : (storeLoop Real.log Real.exp 3 1 1 1 1 1 1 1 (fun _ => (0 : ℝ)) ⟨0, 10⟩ 1).1
      = ⟨30, -47⟩ := by
    rw [storeLoop_succ]
    simp only [storeLoop, forLoop_zero, storeUpdate, explicitStep]
    norm_num
  refine ⟨one_pos, by norm_num, hP, le_rfl, by norm_num, ?_, ?_, ?_⟩
  · rw [hI]
  · rw [hI]
  · rw [hI]; norm_num

theorem explicitStep_CL_nonneg (tdres PL PG CG VI VL PPI : ℝ) (s : Store ℝ) (hPL : 0 < PL)
    (hPG : 0 < PG) (hCG : 0 < CG) (hVL : 0 < VL) (htd : 0 < tdres)
    (hstep : tdres * (PL + PG) ≤ VL) (hI : 0 ≤ s.CI) (hL : 0 ≤ s.CL) :
    0 ≤ (explicitStep tdres PL PG CG VI VL PPI s).CL := by
  unfold explicitStep
  simp only
  have hq : 0 ≤ tdres / VL := by positivity
  have hq1 : tdres / VL * (PL + PG) ≤ 1 := by
    rw [div_mul_eq_mul_div, div_le_one hVL]
    exact hstep
  have e : s.CL + tdres / VL * (-PL * (s.CL - s.CI) + PG * (CG - s.CL)) =
      s.CL * (1 - tdres / VL * (PL + PG)) + tdres / VL * (PL * s.CI + PG * CG) := by ring
  rw [e]
  have h1 : 0 ≤ s.CL * (1 - tdres / VL * (PL + PG)) := mul_nonneg hL (by linarith)
  have h2 : 0 ≤ tdres / VL * (PL * s.CI + PG * CG) := by positivity
  linarith

/-- C8, as amended: for every drive sequence, positive constants `PL`, `PG`, `CG`, `VL`,
`tdres`, positive `synslope/synstrength`, and a step bounded by `tdres*(PL+PG) ≤ VL`,
starting from a store state with `CI ≥ 0` and `CL ≥ 0`, both `CI ≥ 0` and `CL ≥ 0` hold
after every per-sample store update of `Synapse`. -/
theorem storeLoop_CL_nonneg (tdres synstrength synslope PL PG CG VI VL : ℝ)
    (ihcout : ℕ → ℝ) (s0 : Store ℝ) (hPL : 0 < PL) (hPG : 0 < PG) (hCG : 0 < CG)
    (hVL : 0 < VL) (htd : 0 < tdres) (hs : 0 < synslope / synstrength)
    (hstep : tdres * (PL + PG) ≤ VL) (hI : 0 ≤ s0.CI) (hL : 0 ≤ s0.CL) (n : ℕ) :
    0 ≤ (storeLoop Real.log Real.exp tdres synstrength synslope PL PG CG VI VL ihcout s0
      n).1.CI ∧
    0 ≤ (storeLoop Real.log Real.exp tdres synstrength synslope PL PG CG VI VL ihcout s0
      n).1.CL := by
  induction n with
  | zero => exact ⟨hI, hL⟩
  | succ n ih =>
    have hP := releaseProb_pos synstrength synslope (ihcout n) hs
    rw [storeLoop_succ]
    refine ⟨storeUpdate_CI_nonneg tdres PL PG CG VI VL _ _ hPL hPG hCG hP, ?_⟩
    unfold storeUpdate
    simp only
    split_ifs with h
    · exact (renormalised_pos PL PG CG _ hPL hPG hCG hP).2.le
    · exact explicitStep_CL_nonneg tdres PL PG CG VI VL _ _ hPL hPG hCG hVL htd hstep
        ih.1 ih.2

/-- The witness of amended C8: the constants of the counterexample with the step `1/2`. -/
theorem storeLoop_CL_nonneg_witness :
    (0 : ℝ) < 1 ∧ (0 : ℝ) < 1 / 2 ∧ (0 : ℝ) < 1 / 1 ∧ (1 / 2 : ℝ) * (1 + 1) ≤ 1 ∧
    (0 : ℝ) ≤ (⟨0, 10⟩ : Store ℝ).CI ∧ (0 : ℝ) ≤ (⟨0, 10⟩ : Store ℝ).CL ∧
    0 ≤ (storeLoop Real.log Real.exp (1 / 2) 1 1 1 1 1 1 1 (fun _ => (0 : ℝ)) ⟨0, 10⟩
      1).1.CI ∧
    0 ≤ (storeLoop Real.log Real.exp (1 / 2) 1 1 1 1 1 1 1 (fun _ => (0 : ℝ)) ⟨0, 10⟩
      1).1.CL :=
  ⟨one_pos, by norm_num, by norm_num, by norm_num, le_rfl, by norm_num,
    storeLoop_CL_nonneg (1 / 2) 1 1 1 1 1 1 1 (fun _ => (0 : ℝ)) ⟨0, 10⟩ one_pos one_pos
      one_pos one_pos (by norm_num) (by norm_num) (by norm_num) le_rfl (by norm_num) 1⟩

theorem forLoop_invariant {σ : Type} (P : σ → Prop) (body : ℕ → σ → σ) (n : ℕ)
    (hstep : ∀ i, i < n → ∀ s, P s → P (body i s)) (s : σ) (h0 : P s) :
    P (forLoop n body s) := by
  induction n with
  | zero => exact h0
  | succ n ih =>
    rw [forLoop_succ]
    exact hstep n (Nat.lt_succ_self n) _ (ih (fun i hi => hstep i (Nat.lt_succ_of_lt hi)))

theorem cmax_zero_nonneg (x : α) : 0 ≤ cmax 0 x := by
  unfold cmax
  split_ifs with h
  · exact le_rfl
  · exact not_lt.mp h

theorem set_nonneg {ι : Type} [DecidableEq ι] (a : Arr ι α) (i : ι) (v : α)
    (ha : ∀ j, 0 ≤ a j) (hv : 0 ≤ v) : ∀ j, 0 ≤ (a.set i v) j := by
  intro j
  rw [Arr.get_set]
  split_ifs
  · exact hv
  · exact ha j

theorem plaBody_nonneg (exp : α → α) (implnt sampFreq : α)
    (tau_slow w_slow tau_fast w_fast : ℕ → α) (n_process : ℤ) (sampIHC randNums : ℕ → α)
    (n : ℕ) (s : PlaState α)
    (h : (∀ j, 0 ≤ s.sout1 j) ∧ (∀ j, 0 ≤ s.sout2 j) ∧ (∀ j, 0 ≤ s.synSampOut j)) :
    (∀ j, 0 ≤ (plaBody exp implnt sampFreq tau_slow w_slow tau_fast w_fast n_process
        sampIHC randNums n s).sout1 j) ∧
    (∀ j, 0 ≤ (plaBody exp implnt sampFreq tau_slow w_slow tau_fast w_fast n_process
        sampIHC randNums n s).sout2 j) ∧
    (∀ j, 0 ≤ (plaBody exp implnt sampFreq tau_slow w_slow tau_fast w_fast n_process
        sampIHC randNums n s).synSampOut j) := by
  obtain ⟨h1, h2, h3⟩ := h
  unfold plaBody
  simp only
  split_ifs with m0 m1 m2
  · simp only [plaApprox]
    have a1 := set_nonneg s.sout1 s.k _ h1 (cmax_zero_nonneg
      (sampIHC n + randNums n - 2.5e-6 * 100e3 * s.I1))
    have a2 := set_nonneg s.sout2 s.k _ h2 (cmax_zero_nonneg
      (sampIHC n - 1e-2 * 100e3 * s.I2))
    exact ⟨a1, a2, set_nonneg _ _ _ h3 (add_nonneg (a1 _) (a2 _))⟩
  · simp only [plaActual]
    have a1 := set_nonneg s.sout1 s.k _ h1 (cmax_zero_nonneg
      (sampIHC n + randNums n - 2.5e-6 * 100e3 * s.I1))
    have a2 := set_nonneg s.sout2 s.k _ h2 (cmax_zero_nonneg
      (sampIHC n - 1e-2 * 100e3 * s.I2))
    exact ⟨a1, a2, set_nonneg _ _ _ h3 (add_nonneg (a1 _) (a2 _))⟩
  · simp only [plaParallel]
    have a1 := set_nonneg s.sout1 n _ h1 (cmax_zero_nonneg
      (sampIHC n + randNums n - 2.5e-6 * 100e3 / sampFreq * s.I_slow))
    have a2 := set_nonneg s.sout2 n _ h2 (cmax_zero_nonneg
      (sampIHC n - 1e-2 * 100e3 / sampFreq * s.I_fast))
    exact ⟨a1, a2, set_nonneg _ _ _ h3 (add_nonneg (a1 _) (a2 _))⟩
  · exact ⟨h1, h2, set_nonneg _ _ _ h3 (add_nonneg (h1 _) (h2 _))⟩

theorem plaLoop_nonneg (exp : α → α) (u : Indeterminate α) (implnt sampFreq : α)
    (tau_slow w_slow tau_fast w_fast : ℕ → α) (n_process : ℤ) (sampIHC randNums : ℕ → α)
    (cnt : ℕ) (j : ℕ) :
    0 ≤ (plaLoop exp u implnt sampFreq tau_slow w_slow tau_fast w_fast n_process sampIHC
      randNums cnt).synSampOut j := by
  have h := forLoop_invariant
    (fun s : PlaState α =>
      (∀ j, 0 ≤ s.sout1 j) ∧ (∀ j, 0 ≤ s.sout2 j) ∧ (∀ j, 0 ≤ s.synSampOut j))
    (plaBody exp implnt sampFreq tau_slow w_slow tau_fast w_fast n_process sampIHC randNums)
    cnt
    (fun i _ s hs => plaBody_nonneg exp implnt sampFreq tau_slow w_slow tau_fast w_fast
      n_process sampIHC randNums i s hs)
    (plaInit u)
    ⟨fun _ => le_rfl, fun _ => le_rfl, fun _ => le_rfl⟩
  exact h.2.2 j

theorem interpolated_nonneg (a b : α) (resamp : ℤ) (i : ℕ) (ha : 0 ≤ a) (hb : 0 ≤ b)
    (hi : i < resamp.toNat) : 0 ≤ a + (i : α) * ((b - a) / (resamp : α)) := by
  have hr : (0 : ℤ) < resamp := by omega
  have hr' : (0 : α) < (resamp : α) := by exact_mod_cast hr
  have hir : (i : α) ≤ (resamp : α) := by
    have : (i : ℤ) ≤ resamp := by omega
    exact_mod_cast this
  have hi0 : (0 : α) ≤ (i : α) := Nat.cast_nonneg i
  have e : a + (i : α) * ((b - a) / (resamp : α)) =
      (a * ((resamp : α) - (i : α)) + (i : α) * b) / (resamp : α) := by
    field_simp
    ring
  rw [e]
  apply div_nonneg _ hr'.le
  have := mul_nonneg ha (sub_nonneg.mpr hir)
  have := mul_nonneg hi0 hb
  linarith

theorem upsample_nonneg (synSampOut : Arr ℕ α) (k : ℕ) (resamp : ℤ)
    (h : ∀ j, 0 ≤ synSampOut j) (j : ℤ) : 0 ≤ (upsample synSampOut k resamp) j := by
  unfold upsample
  refine forLoop_invariant (fun T : Arr ℤ α => ∀ j, 0 ≤ T j) _ (k - 1) ?_ Arr.zero
    (fun _ => le_rfl) j
  intro z _ T hT
  refine forLoop_invariant (fun T : Arr ℤ α => ∀ j, 0 ≤ T j) _ resamp.toNat ?_ T hT
  intro b hb T' hT'
  exact set_nonneg T' _ _ hT' (interpolated_nonneg _ _ resamp b (h z) (h (z + 1)) hb)

theorem copyLoop_get (g : ℕ → α) (o : Arr ℤ α) (n : ℕ) (j : ℤ) :
    (forLoop n (fun i (o : Arr ℤ α) => Arr.set o (i : ℤ) (g i)) o) j =
      if 0 ≤ j ∧ j < (n : ℤ) then g j.toNat else o j := by
  induction n with
  | zero =>
    have h0 : ¬ (0 ≤ j ∧ j < ((0 : ℕ) : ℤ)) := by omega
    rw [forLoop_zero, if_neg h0]
  | succ n ih =>
    rw [forLoop_succ, Arr.get_set, ih]
    by_cases hj : j = (n : ℤ)
    · subst hj
      have h1 : (0 : ℤ) ≤ (n : ℤ) ∧ (n : ℤ) < ((n + 1 : ℕ) : ℤ) := by omega
      rw [if_pos rfl, if_pos h1, Int.toNat_natCast]
    · have h2 : (0 ≤ j ∧ j < ((n + 1 : ℕ) : ℤ)) ↔ (0 ≤ j ∧ j < (n : ℤ)) := by omega
      rw [if_neg hj]
      simp only [h2]

/-- C9: for every drive, noise sequence, resampler output and adaptation mode, every one
of the `totalstim*nrep` rate samples that `Synapse` writes to `synouttmp` is the cell
`TmpSyn[i+delaypoint]` of the up-sampled array and is `≥ 0`. -/
theorem Synapse_rate_nonneg (log exp : α → α) (pow : α → α → α) (u : Indeterminate α)
    (ffGn_rochester : α → α → α → α → α → α → ℕ → α) (resample : List α → α → α → ℕ → α)
    (ihcout : ℕ → α) (tdres cf : α) (totalstim nrep : ℤ) (spont noiseType implnt sampFreq : α)
    (tau_slow w_slow tau_fast w_fast : ℕ → α) (n_process : ℤ) (synouttmp : Arr ℤ α)
    (i : ℤ) (h0 : 0 ≤ i) (hi : i < totalstim * nrep) :
    0 ≤ (Synapse log exp pow u ffGn_rochester resample ihcout tdres cf totalstim nrep spont
      noiseType implnt sampFreq tau_slow w_slow tau_fast w_fast n_process synouttmp).1 i := by
  unfold Synapse
  simp only
  rw [copyLoop_get]
  have hc : 0 ≤ i ∧ i < ((totalstim * nrep).toNat : ℤ) := by omega
  rw [if_pos hc]
  apply upsample_nonneg
  intro j
  apply plaLoop_nonneg

theorem explicitStep_rest (tdres VI VL Asp Ass Aon PImax Prest CG PL PG CI CL : α)
    (hAon : Aon ≠ 0) (hAss : Ass ≠ 0) (hAsp : Asp ≠ 0) (hPrestne : Prest ≠ 0)
    (hden : Aon * Prest * (1 - Asp / Ass) ≠ 0) (hPLne : PL ≠ 0)
    (hPGne : CG / Ass - 1 / PImax - 1 / PL ≠ 0)
    (hPrest : Prest = PImax / Aon * Asp)
    (hCG : CG = Asp * (Aon - Asp) / (Aon * Prest * (1 - Asp / Ass)))
    (hPG : PG = 1 / (CG / Ass - 1 / PImax - 1 / PL))
    (hCI : CI = Asp / Prest) (hCL : CL = CI * (Prest + PL) / PL) :
    explicitStep tdres PL PG CG VI VL Prest ⟨CI, CL⟩ = ⟨CI, CL⟩ := by
  have hPI : PImax ≠ 0 := by
    intro h
    rw [h] at hPrest
    simp at hPrest
    exact hPrestne hPrest
  have h1 : (1 - Asp / Ass) ≠ 0 := right_ne_zero_of_mul hden
  have h1' : Ass - Asp ≠ 0 := by
    intro h
    apply h1
    field_simp
    linarith
  have hPIe : PImax = Prest * Aon / Asp := by
    rw [hPrest]; field_simp
  have fluxI : -Prest * CI + PL * (CL - CI) = 0 := by
    rw [hCL]; field_simp; ring
  have hCG' : CG * (Ass - Asp) * (Aon * Prest) = Asp * (Aon - Asp) * Ass := by
    rw [hCG]; field_simp; ring
  have hPGne' : CG / Ass - Asp / (Prest * Aon) - 1 / PL ≠ 0 := by
    have e : CG / Ass - Asp / (Prest * Aon) - 1 / PL = CG / Ass - 1 / PImax - 1 / PL := by
      rw [hPIe]; field_simp
    rw [e]; exact hPGne
  have hPG' : PG = 1 / (CG / Ass - Asp / (Prest * Aon) - 1 / PL) := by
    rw [hPG, hPIe]; field_simp
  have fluxL : -PL * (CL - CI) + PG * (CG - CL) = 0 := by
    have e1 : PL * (CL - CI) = Asp := by
      rw [hCL, hCI]; field_simp; ring
    have e2 : CG - CL = Asp * (CG / Ass - Asp / (Prest * Aon) - 1 / PL) := by
      rw [hCL, hCI]
      field_simp
      linear_combination (Prest * PL * PL) * hCG'
    rw [neg_mul, e1, e2, hPG', one_div, mul_comm Asp _, ← mul_assoc,
      inv_mul_cancel₀ hPGne', one_mul, neg_add_cancel]
  unfold explicitStep
  simp only [fluxI, fluxL, mul_zero, add_zero]

theorem storeLoop_snd_get (log exp : α → α) (tdres synstrength synslope PL PG CG VI VL : α)
    (ihcout : ℕ → α) (s0 : Store α) (n t : ℕ) :
    (storeLoop log exp tdres synstrength synslope PL PG CG VI VL ihcout s0 n).2 t =
      if t < n then
        (storeLoop log exp tdres synstrength synslope PL PG CG VI VL ihcout s0 (t + 1)).1.CI *
          releaseProb log exp synstrength synslope (ihcout t)
      else 0 := by
  induction n with
  | zero => simp [storeLoop, forLoop_zero]
  | succ n ih =>
    have e : (storeLoop log exp tdres synstrength synslope PL PG CG VI VL ihcout s0 (n + 1)).2 =
        Arr.set (storeLoop log exp tdres synstrength synslope PL PG CG VI VL ihcout s0 n).2 n
          ((storeLoop log exp tdres synstrength synslope PL PG CG VI VL ihcout s0 (n + 1)).1.CI *
            releaseProb log exp synstrength synslope (ihcout n)) := rfl
    rw [e, Arr.get_set]
    by_cases ht : t = n
    · subst ht
      rw [if_pos rfl, if_pos (Nat.lt_succ_self t)]
    · rw [if_neg ht, ih]
      have : t < n + 1 ↔ t < n := by omega
      simp only [this]

theorem releaseProb_zero_drive (synstrength synslope Prest : ℝ) (hss : synstrength ≠ 0)
    (hsl : synslope = Prest / Real.log 2 * synstrength) :
    releaseProb Real.log Real.exp synstrength synslope 0 = Prest := by
  unfold releaseProb
  simp only [mul_zero, Real.exp_zero]
  rw [if_pos (by norm_num), hsl]
  have : (1 : ℝ) + 1 = 2 := by norm_num
  rw [this]
  field_simp
  ring

/-- C6: with zero drive, `0 < cf` and every divisor in the derivation of the constants
nonzero (for any spontaneous rate and adaptation mode), in real arithmetic the store state
`(CI, CL)` of `Synapse` is its resting value after every number of passes through the store
loop, the renormalisation branch is never taken, and `exponOut[t]` equals
`CI_rest*Prest = Asp` for every `t < totalstim*nrep`. -/
theorem zero_drive_exponOut (u : Indeterminate ℝ) (tdres cf spont implnt : ℝ)
    (totalstim nrep : ℤ) (hcf : 0 < cf)
    (hden : DenominatorsNonzero Real.log
      (synapseConstants Real.log Real.exp (fun x y => x ^ y) u cf spont implnt)) :
    (∀ n, storeState Real.log Real.exp (fun x y => x ^ y) u (fun _ => 0) tdres cf spont
        implnt n =
      ⟨(synapseConstants Real.log Real.exp (fun x y => x ^ y) u cf spont implnt).CI,
        (synapseConstants Real.log Real.exp (fun x y => x ^ y) u cf spont implnt).CL⟩) ∧
    (∀ n, ¬ (explicitStep tdres
        (synapseConstants Real.log Real.exp (fun x y => x ^ y) u cf spont implnt).PL
        (synapseConstants Real.log Real.exp (fun x y => x ^ y) u cf spont implnt).PG
        (synapseConstants Real.log Real.exp (fun x y => x ^ y) u cf spont implnt).CG
        (synapseConstants Real.log Real.exp (fun x y => x ^ y) u cf spont implnt).VI
        (synapseConstants Real.log Real.exp (fun x y => x ^ y) u cf spont implnt).VL
        (releaseProb Real.log Real.exp
          (synapseConstants Real.log Real.exp (fun x y => x ^ y) u cf spont implnt).synstrength
          (synapseConstants Real.log Real.exp (fun x y => x ^ y) u cf spont implnt).synslope 0)
        (storeState Real.log Real.exp (fun x y => x ^ y) u (fun _ => 0) tdres cf spont
          implnt n)).CI < 0) ∧
    (∀ t : ℕ, (t : ℤ) < totalstim * nrep →
      (exponOut Real.log Real.exp (fun x y => x ^ y) u (fun _ => 0) tdres cf totalstim nrep
        spont implnt) t =
      (synapseConstants Real.log Real.exp (fun x y => x ^ y) u cf spont implnt).Asp) ∧
    (synapseConstants Real.log Real.exp (fun x y => x ^ y) u cf spont implnt).CI *
      (synapseConstants Real.log Real.exp (fun x y => x ^ y) u cf spont implnt).Prest =
      (synapseConstants Real.log Real.exp (fun x y => x ^ y) u cf spont implnt).Asp := by
  obtain ⟨hAon, hAss, hAsp, hPrest, hd, -, -, -, -, -, -, -, hPL, hPG, -, -, hss⟩ := hden
  generalize hc : synapseConstants Real.log Real.exp (fun x y => x ^ y) u cf spont implnt = c
    at *
  have ePrest : c.Prest = c.PImax / c.Aon * c.Asp := by subst hc; rfl
  have eCG : c.CG = c.Asp * (c.Aon - c.Asp) / (c.Aon * c.Prest * (1 - c.Asp / c.Ass)) := by
    subst hc; rfl
  have ePG : c.PG = 1 / (c.CG / c.Ass - 1 / c.PImax - 1 / c.PL) := by subst hc; rfl
  have eCI : c.CI = c.Asp / c.Prest := by subst hc; rfl
  have eCL : c.CL = c.CI * (c.Prest + c.PL) / c.PL := by subst hc; rfl
  have eth : c.theta3 = c.CG / c.Ass - 1 / c.PImax := by subst hc; rfl
  have esl : c.synslope = c.Prest / Real.log 2 * c.synstrength := by subst hc; rfl
  have eAon : c.Aon = 3 * (800 * (1 + cf / 100e3)) := by subst hc; rfl
  have ePI : c.PImax = 0.6 := by subst hc; rfl
  have hP0 : releaseProb Real.log Real.exp c.synstrength c.synslope 0 = c.Prest :=
    releaseProb_zero_drive _ _ _ hss esl
  have hfix : explicitStep tdres c.PL c.PG c.CG c.VI c.VL c.Prest ⟨c.CI, c.CL⟩ = ⟨c.CI, c.CL⟩ :=
    explicitStep_rest tdres c.VI c.VL c.Asp c.Ass c.Aon c.PImax c.Prest c.CG c.PL c.PG c.CI c.CL
      hAon hAss hAsp hPrest hd hPL (by rw [← eth]; exact hPG) ePrest eCG ePG eCI eCL
  have hprod : c.CI * c.Prest = c.Asp := by rw [eCI]; field_simp
  have hCI : 0 ≤ c.CI := by
    have hAonpos : 0 < c.Aon := by rw [eAon]; positivity
    have : c.CI = c.Aon / c.PImax := by
      rw [eCI, ePrest, ePI]; field_simp; ring
    rw [this, ePI]
    positivity
  have hupd : storeUpdate tdres c.PL c.PG c.CG c.VI c.VL c.Prest ⟨c.CI, c.CL⟩ = ⟨c.CI, c.CL⟩ := by
    unfold storeUpdate
    simp only [hfix, if_neg (not_lt.mpr hCI)]
  have hstate : ∀ n, storeState Real.log Real.exp (fun x y => x ^ y) u (fun _ => 0) tdres cf
      spont implnt n = ⟨c.CI, c.CL⟩ := by
    intro n
    unfold storeState
    simp only [hc]
    induction n with
    | zero => rfl
    | succ n ih => rw [storeLoop_succ, ih, hP0, hupd]
  refine ⟨hstate, ?_, ?_, hprod⟩
  · intro n
    rw [hstate n, hP0, hfix]
    exact not_lt.mpr hCI
  · intro t ht
    unfold exponOut
    simp only [hc]
    rw [storeLoop_snd_get, if_pos (by omega)]
    have h := hstate (t + 1)
    unfold storeState at h
    simp only [hc] at h
    rw [h, hP0, hprod]

theorem synapseConstants_relations (log exp : α → α) (pow : α → α → α) (u : Indeterminate α)
    (cf spont implnt : α) :
    ConstantRelations log exp pow u cf spont implnt
      (synapseConstants log exp pow u cf spont implnt) := by
  refine ⟨?_, rfl, rfl, rfl, ?_, rfl, rfl, rfl, rfl, rfl, rfl, rfl, rfl, rfl, rfl, rfl, rfl,
    rfl, rfl, rfl, rfl, rfl, rfl, rfl, rfl, rfl, rfl, rfl, rfl, rfl, rfl, rfl, rfl, rfl, rfl⟩
  · simp only [synapseConstants]
  · simp only [synapseConstants]

theorem synstrength_pos (pow : ℝ → ℝ → ℝ) (u : Indeterminate ℝ) (cf spont implnt : ℝ)
    (c : SynapseConstants ℝ) (hc : ConstantRelations Real.log Real.exp pow u cf spont implnt c)
    (hk : 0 < c.kslope) (hP : 0 < c.Prest) : 0 < c.synstrength := by
  obtain ⟨-, -, -, -, -, -, -, -, -, -, -, -, -, -, -, -, -, -, -, -, -, -, -, -, -, -, -, -,
    -, -, -, e1, e2, e3, -⟩ := hc
  rw [if_pos hk.le] at e1
  have hl2 : 0 < Real.log 2 := Real.log_pos (by norm_num)
  have ht : Real.log 2 < c.tmpst := by
    rw [e2, e1, lt_div_iff₀ hP]
    nlinarith
  rw [e3]
  split_ifs with h
  · apply Real.log_pos
    have : Real.exp (Real.log 2) < Real.exp c.tmpst := Real.exp_lt_exp.mpr ht
    rw [Real.exp_log (by norm_num)] at this
    linarith
  · linarith

theorem constants_cf1000_medium (pow : ℝ → ℝ → ℝ) (u : Indeterminate ℝ)
    (c : SynapseConstants ℝ)
    (hc : ConstantRelations Real.log Real.exp pow u 1000 4 0 c) :
    DenominatorsNonzero Real.log c ∧ c.CI = 4040 ∧ c.CL = 93388871896 / 22971909 ∧
      c.Asp = 11 := by
  have hss : 0 < c.synstrength := by
    apply synstrength_pos pow u 1000 4 0 c hc
    · obtain ⟨e1, e2, e3, -⟩ := hc
      rw [e3, e2, e1]
      norm_num [cmin]
    · obtain ⟨-, e2, -, e4, e5, -, -, -, e9, e10, -, -, e13, -⟩ := hc
      rw [e13, e10, e9, e5, e4, e2]
      norm_num
  obtain ⟨-, ePImax, -, eAss, eAsp, eTauR, eTauST, eAr, ePTS, eAon, eAR, eAST, ePrest, eCG,
    eg1, eg2, ek1, ek2, eVI0, eVI1, eVI, ealpha, ebeta, eth1, eth2, eth3, ePL, ePG, eVL, eCI,
    eCL, -, -, -, -⟩ := hc
  have hAss : c.Ass = 808 := by rw [eAss]; norm_num
  have hAsp : c.Asp = 11 := by rw [eAsp]; norm_num
  have hAon : c.Aon = 2424 := by rw [eAon, ePTS, hAss]; norm_num
  have hAR : c.AR = 9696 / 7 := by rw [eAR, hAon, hAss, eAr]; norm_num
  have hAST : c.AST = 1616 / 7 := by rw [eAST, hAon, hAss, hAR]; norm_num
  have hPrest : c.Prest = 11 / 4040 := by rw [ePrest, ePImax, hAon, hAsp]; norm_num
  have hCG : c.CG = 9748520 / 2391 := by rw [eCG, hAsp, hAon, hPrest, hAss]; norm_num
  have hg1 : c.gamma1 = 9748520 / 26301 := by rw [eg1, hCG, hAsp]; norm_num
  have hg2 : c.gamma2 = 12065 / 2391 := by rw [eg2, hCG, hAss]; norm_num
  have hk1 : c.k1 = -500 := by rw [ek1, eTauR]; norm_num
  have hk2 : c.k2 = -50 / 3 := by rw [ek2, eTauST]; norm_num
  have hd0 : c.gamma1 * (c.AR * (c.k1 - c.k2) / c.CG / c.PImax + c.k2 / c.Prest / c.gamma1
      - c.k2 / c.PImax / c.gamma2) = -73124000 / 693 := by
    rw [hg1, hAR, hk1, hk2, hCG, ePImax, hPrest, hg2]; norm_num
  have hd1 : c.gamma1 * (c.AST * (c.k2 - c.k1) / c.CG / c.PImax + c.k1 / c.Prest / c.gamma1
      - c.k1 / c.PImax / c.gamma2) = -73124000 / 693 := by
    rw [hg1, hAST, hk1, hk2, hCG, ePImax, hPrest, hg2]; norm_num
  have hVI0 : c.VI0 = 152019 / 73124000 := by rw [eVI0, hd0, ePImax, hPrest]; norm_num
  have hVI1 : c.VI1 = 152019 / 73124000 := by rw [eVI1, hd1, ePImax, hPrest]; norm_num
  have hVI : c.VI = 152019 / 73124000 := by rw [eVI, hVI0, hVI1]; norm_num
  have halpha : c.alpha = 2413 / 3985000 := by rw [ealpha, hg2, hk1, hk2]; norm_num
  have hbeta : c.beta = 74803 / 239100 := by rw [ebeta, hk1, hk2, halpha]; norm_num
  have hth1 : c.theta1 = 73124 / 418425 := by rw [eth1, halpha, ePImax, hVI]; norm_num
  have hth2 : c.theta2 = 50673 / 14624800 := by rw [eth2, hVI, ePImax]; norm_num
  have hth3 : c.theta3 = 8080 / 2391 := by rw [eth3, hg2, ePImax]; norm_num
  have hPL : c.PL = 22971909 / 52941776 := by
    rw [ePL, hbeta, hth2, hth3, hth1, ePImax]; norm_num
  have hdPG : c.theta3 - 1 / c.PL = 6558804256 / 6102870491 := by
    rw [hth3, hPL]; norm_num
  have hPG : c.PG = 6102870491 / 6558804256 := by rw [ePG, hdPG]; norm_num
  have hVL : c.VL = 58634289233809 / 831000499235200 := by
    rw [eVL, hth1, hPL, hPG]; norm_num
  have hCI : c.CI = 4040 := by rw [eCI, hAsp, hPrest]; norm_num
  have hCL : c.CL = 93388871896 / 22971909 := by rw [eCL, hCI, hPrest, hPL]; norm_num
  refine ⟨⟨?_, ?_, ?_, ?_, ?_, ?_, ?_, ?_, ?_, ?_, ?_, ?_, ?_, ?_, ?_, ?_, hss.ne'⟩,
    hCI, hCL, hAsp⟩
  · rw [hAon]; norm_num
  · rw [hAss]; norm_num
  · rw [hAsp]; norm_num
  · rw [hPrest]; norm_num
  · rw [hAon, hPrest, hAsp, hAss]; norm_num
  · rw [hCG]; norm_num
  · rw [hg1]; norm_num
  · rw [hg2]; norm_num
  · rw [hd0]; norm_num
  · rw [hd1]; norm_num
  · rw [hVI]; norm_num
  · rw [hth1]; norm_num
  · rw [hPL]; norm_num
  · rw [hdPG]; norm_num
  · rw [hVL]; norm_num
  · exact (Real.log_pos (by norm_num)).ne'

/-- The witness of C6: `cf = 1000` Hz, medium spontaneous rate (`spont = 4`), `implnt = 0`,
five samples at `tdres = 1e-5`. -/
theorem zero_drive_exponOut_witness :
    (0 : ℝ) < 1000 ∧
    DenominatorsNonzero Real.log
      (synapseConstants Real.log Real.exp (fun x y => x ^ y)
        ⟨0, 0, 0, 0, 0, 0, Arr.zero, Arr.zero⟩ 1000 4 0) ∧
    (∀ t : ℕ, (t : ℤ) < 5 * 1 →
      (exponOut Real.log Real.exp (fun x y => x ^ y) ⟨0, 0, 0, 0, 0, 0, Arr.zero, Arr.zero⟩
        (fun _ => 0) (1 / 100000) 1000 5 1 4 0) t = 11) := by
  have hc := constants_cf1000_medium (fun x y => x ^ y) ⟨0, 0, 0, 0, 0, 0, Arr.zero, Arr.zero⟩
    _ (synapseConstants_relations Real.log Real.exp (fun x y => x ^ y)
      ⟨0, 0, 0, 0, 0, 0, Arr.zero, Arr.zero⟩ 1000 4 0)
  have h := zero_drive_exponOut ⟨0, 0, 0, 0, 0, 0, Arr.zero, Arr.zero⟩ (1 / 100000) 1000 4 0
    5 1 (by norm_num) hc.1
  refine ⟨by norm_num, hc.1, ?_⟩
  intro t ht
  rw [h.2.2.1 t ht, hc.2.2.2]

/-- The witness of C9: the first rate sample of a two-sample run at `cf = 1000` Hz. -/
theorem Synapse_rate_nonneg_witness :
    (0 : ℤ) ≤ 0 ∧ (0 : ℤ) < 2 * 1 ∧
    0 ≤ (Synapse (fun x : ℚ => x - 1) (fun x => 1 + x) (fun x y => x * y)
      ⟨0, 0, 0, 0, 0, 0, Arr.zero, Arr.zero⟩ (fun _ _ _ _ _ _ _ => 1 / 10)
      (fun l _ _ i => l.getD i 0) (fun _ => 0) (1 / 100000) 1000 2 1 4 0 0 10000
      (fun _ => 1) (fun _ => 1) (fun _ => 1) (fun _ => 1) 1 Arr.zero).1 0 :=
  ⟨le_rfl, by decide,
    Synapse_rate_nonneg _ _ _ _ _ _ _ (1 / 100000) 1000 2 1 4 0 0 10000 _ _ _ _ 1 Arr.zero 0
      le_rfl (by decide)⟩

/-- A concrete run: with step 1 ms, four samples of rate 1 and `log`, `exp` replaced by the
zero function, `SpikeGenerator` emits three spikes, at 1 ms, 2 ms and 3 ms, and reads six
uniform numbers: three before the loop (the comparison of `__max` does not clip, so its
argument is evaluated twice) and one after each spike. -/
theorem SpikeGenerator_example_run :
    ∃ r, SpikeGenerator 4 (fun _ => 0) (fun _ => 0) (fun _ _ _ => 1 / 2)
        (fun _ => 1) (1 / 1000 : ℚ) 4 1 Arr.zero = some r ∧
      r.Nout = 3 ∧ r.sptime 0 = 1 / 1000 ∧ r.sptime 1 = 2 / 1000 ∧ r.sptime 2 = 3 / 1000 ∧
      r.randBufIndex = 6 := by
  simp [SpikeGenerator, spikeLoop, spikeInit, spikeBody, NoutMax, deadtimeIndex]
  norm_num

/-- The value returned by `Synapse`, which `SingleAN` uses as the trip count of its fold
loop, is `totalstim*nrep`. -/
theorem Synapse_return (log exp : α → α) (pow : α → α → α) (u : Indeterminate α)
    (ffGn_rochester : α → α → α → α → α → α → ℕ → α) (resample : List α → α → α → ℕ → α)
    (ihcout : ℕ → α) (tdres cf : α) (totalstim nrep : ℤ) (spont noiseType implnt sampFreq : α)
    (tau_slow w_slow tau_fast w_fast : ℕ → α) (n_process : ℤ) (synouttmp : Arr ℤ α) :
    (Synapse log exp pow u ffGn_rochester resample ihcout tdres cf totalstim nrep spont
      noiseType implnt sampFreq tau_slow w_slow tau_fast w_fast n_process synouttmp).2 =
      ((totalstim * nrep : ℤ) : α) := rfl

/-! ## Synapse: renormalised store, parallel-exponential accumulators, release nonlinearity -/

theorem renormalised_flux (PL PG CG PPI : α) (hPG : PG ≠ 0) (hPL : PL ≠ 0)
    (hPPI : PPI ≠ 0) (hT : 1 / PG + 1 / PL + 1 / PPI ≠ 0) :
    -PPI * (renormalised PL PG CG PPI).CI
      + PL * ((renormalised PL PG CG PPI).CL - (renormalised PL PG CG PPI).CI) = 0 ∧
    -PL * ((renormalised PL PG CG PPI).CL - (renormalised PL PG CG PPI).CI)
      + PG * (CG - (renormalised PL PG CG PPI).CL) = 0 := by
  have hden : PPI * (1 / PG + 1 / PL + 1 / PPI) ≠ 0 := mul_ne_zero hPPI hT
  have eCI : (renormalised PL PG CG PPI).CI = CG / (PPI * (1 / PG + 1 / PL + 1 / PPI)) := rfl
  have eCL : (renormalised PL PG CG PPI).CL =
      (renormalised PL PG CG PPI).CI * (PPI + PL) / PL := rfl
  have hCG : CG = (renormalised PL PG CG PPI).CI * (PPI * (1 / PG + 1 / PL + 1 / PPI)) := by
    rw [eCI, div_mul_cancel₀ _ hden]
  rw [eCL]
  generalize (renormalised PL PG CG PPI).CI = CI at hCG ⊢
  constructor
  · field_simp
    ring
  · rw [hCG]
    field_simp
    ring

/-- C11: for nonzero `PG`, `PL`, `PPI` with `1/PG + 1/PL + 1/PPI` nonzero and any `CG`,
`VI`, `VL`, `tdres`, the pair `(CI*, CL*)` written by the renormalisation branch is
`CI* = CG/(PPI*(1/PG+1/PL+1/PPI))`, `CL* = CI*(PPI+PL)/PL`, both fluxes of the explicit
store update vanish there, and the explicit step maps `(CI*, CL*)` to itself. -/
theorem renormalised_steady (tdres PL PG CG VI VL PPI : α) (hPG : PG ≠ 0) (hPL : PL ≠ 0)
    (hPPI : PPI ≠ 0) (hT : 1 / PG + 1 / PL + 1 / PPI ≠ 0) :
    (renormalised PL PG CG PPI).CI = CG / (PPI * (1 / PG + 1 / PL + 1 / PPI)) ∧
    (renormalised PL PG CG PPI).CL = (renormalised PL PG CG PPI).CI * (PPI + PL) / PL ∧
    -PPI * (renormalised PL PG CG PPI).CI
      + PL * ((renormalised PL PG CG PPI).CL - (renormalised PL PG CG PPI).CI) = 0 ∧
    -PL * ((renormalised PL PG CG PPI).CL - (renormalised PL PG CG PPI).CI)
      + PG * (CG - (renormalised PL PG CG PPI).CL) = 0 ∧
    explicitStep tdres PL PG CG VI VL PPI (renormalised PL PG CG PPI)
      = renormalised PL PG CG PPI := by
  obtain ⟨f1, f2⟩ := renormalised_flux PL PG CG PPI hPG hPL hPPI hT
  refine ⟨rfl, rfl, f1, f2, ?_⟩
  unfold explicitStep
  simp only [f1, f2, mul_zero, add_zero]

/-- The witness of C11: unit permeabilities and unit global concentration. -/
theorem renormalised_steady_witness :
    (1 : ℚ) ≠ 0 ∧ (1 : ℚ) / 1 + 1 / 1 + 1 / 1 ≠ 0 ∧
    (renormalised (1 : ℚ) 1 1 1).CI = 1 / (1 * (1 / 1 + 1 / 1 + 1 / 1)) ∧
    (renormalised (1 : ℚ) 1 1 1).CL = (renormalised (1 : ℚ) 1 1 1).CI * (1 + 1) / 1 ∧
    -1 * (renormalised (1 : ℚ) 1 1 1).CI
      + 1 * ((renormalised (1 : ℚ) 1 1 1).CL - (renormalised (1 : ℚ) 1 1 1).CI) = 0 ∧
    -1 * ((renormalised (1 : ℚ) 1 1 1).CL - (renormalised (1 : ℚ) 1 1 1).CI)
      + 1 * (1 - (renormalised (1 : ℚ) 1 1 1).CL) = 0 ∧
    explicitStep (1 / 100000) 1 1 1 1 1 1 (renormalised (1 : ℚ) 1 1 1)
      = renormalised (1 : ℚ) 1 1 1 :=
  ⟨one_ne_zero, by norm_num,
    renormalised_steady (1 / 100000) 1 1 1 1 1 1 one_ne_zero one_ne_zero one_ne_zero
      (by norm_num)⟩

theorem bank_loop (f g : ℕ → α → α) (e0 : ExpBank α) (m : ℕ) :
    (∀ i, (forLoop m
        (fun i (e : ExpBank α) =>
          ({ E_slow := Arr.set e.E_slow i (f i (e.E_slow i))
             E_fast := Arr.set e.E_fast i (g i (e.E_fast i))
             I_slow := e.I_slow + f i (e.E_slow i)
             I_fast := e.I_fast + g i (e.E_fast i) } : ExpBank α)) e0).E_slow i =
      if i < m then f i (e0.E_slow i) else e0.E_slow i) ∧
    (forLoop m
        (fun i (e : ExpBank α) =>
          ({ E_slow := Arr.set e.E_slow i (f i (e.E_slow i))
             E_fast := Arr.set e.E_fast i (g i (e.E_fast i))
             I_slow := e.I_slow + f i (e.E_slow i)
             I_fast := e.I_fast + g i (e.E_fast i) } : ExpBank α)) e0).I_slow =
      e0.I_slow + ∑ i in Finset.range m, f i (e0.E_slow i) ∧
    (∀ i, (forLoop m
        (fun i (e : ExpBank α) =>
          ({ E_slow := Arr.set e.E_slow i (f i (e.E_slow i))
             E_fast := Arr.set e.E_fast i (g i (e.E_fast i))
             I_slow := e.I_slow + f i (e.E_slow i)
             I_fast := e.I_fast + g i (e.E_fast i) } : ExpBank α)) e0).E_fast i =
      if i < m then g i (e0.E_fast i) else e0.E_fast i) ∧
    (forLoop m
        (fun i (e : ExpBank α) =>
          ({ E_slow := Arr.set e.E_slow i (f i (e.E_slow i))
             E_fast := Arr.set e.E_fast i (g i (e.E_fast i))
             I_slow := e.I_slow + f i (e.E_slow i)
             I_fast := e.I_fast + g i (e.E_fast i) } : ExpBank α)) e0).I_fast =
      e0.I_fast + ∑ i in Finset.range m, g i (e0.E_fast i) := by
  induction m with
  | zero => simp [forLoop_zero]
  | succ m ih =>
    obtain ⟨h1, h2, h3, h4⟩ := ih
    have hs := h1 m
    have hf := h3 m
    rw [if_neg (lt_irrefl m)] at hs hf
    rw [forLoop_succ]
    refine ⟨?_, ?_, ?_, ?_⟩
    · intro i
      simp only [Arr.get_set, hs]
      by_cases hi : i = m
      · subst hi
        rw [if_pos rfl, if_pos (Nat.lt_succ_self i)]
      · have : i < m + 1 ↔ i < m := by omega
        rw [if_neg hi, h1 i]
        simp only [this]
    · simp only [hs, h2, Finset.sum_range_succ]
      ring
    · intro i
      simp only [Arr.get_set, hf]
      by_cases hi : i = m
      · subst hi
        rw [if_pos rfl, if_pos (Nat.lt_succ_self i)]
      · have : i < m + 1 ↔ i < m := by omega
        rw [if_neg hi, h3 i]
        simp only [this]
    · simp only [hf, h4, Finset.sum_range_succ]
      ring

theorem plaParallel_spec (sampFreq : α) (w_slow w_fast D_slow D_fast : ℕ → α)
    (n_process : ℤ) (sampIHC randNums : ℕ → α) (n : ℕ) (s : PlaState α) :
    (∀ j, j ≠ n →
      (plaParallel sampFreq w_slow w_fast D_slow D_fast n_process sampIHC randNums n s).sout1 j
        = s.sout1 j) ∧
    (∀ j, j ≠ n →
      (plaParallel sampFreq w_slow w_fast D_slow D_fast n_process sampIHC randNums n s).sout2 j
        = s.sout2 j) ∧
    (∀ i, i < n_process.toNat →
      (plaParallel sampFreq w_slow w_fast D_slow D_fast n_process sampIHC randNums n s).E_slow i
        = if n = 0 then
            w_slow i * (plaParallel sampFreq w_slow w_fast D_slow D_fast n_process sampIHC
              randNums n s).sout1 n
          else
            w_slow i * (plaParallel sampFreq w_slow w_fast D_slow D_fast n_process sampIHC
              randNums n s).sout1 n + (1 - D_slow i) * s.E_slow i) ∧
    (plaParallel sampFreq w_slow w_fast D_slow D_fast n_process sampIHC randNums n s).I_slow
      = ∑ i in Finset.range n_process.toNat,
          (plaParallel sampFreq w_slow w_fast D_slow D_fast n_process sampIHC randNums n
            s).E_slow i ∧
    (∀ i, i < n_process.toNat →
      (plaParallel sampFreq w_slow w_fast D_slow D_fast n_process sampIHC randNums n s).E_fast i
        = if n = 0 then
            w_fast i * (plaParallel sampFreq w_slow w_fast D_slow D_fast n_process sampIHC
              randNums n s).sout2 n
          else
            w_fast i * (plaParallel sampFreq w_slow w_fast D_slow D_fast n_process sampIHC
              randNums n s).sout2 n + (1 - D_fast i) * s.E_fast i) ∧
    (plaParallel sampFreq w_slow w_fast D_slow D_fast n_process sampIHC randNums n s).I_fast
      = ∑ i in Finset.range n_process.toNat,
          (plaParallel sampFreq w_slow w_fast D_slow D_fast n_process sampIHC randNums n
            s).E_fast i := by
  have hbody : ∀ (a1 a2 : α),
      (fun i (e : ExpBank α) =>
        let E_slow :=
          if n = 0 then Arr.set e.E_slow i (w_slow i * a1)
          else Arr.set e.E_slow i (w_slow i * a1 + (1 - D_slow i) * e.E_slow i)
        let E_fast :=
          if n = 0 then Arr.set e.E_fast i (w_fast i * a2)
          else Arr.set e.E_fast i (w_fast i * a2 + (1 - D_fast i) * e.E_fast i)
        ({ E_slow := E_slow, E_fast := E_fast, I_slow := e.I_slow + E_slow i,
           I_fast := e.I_fast + E_fast i } : ExpBank α)) =
      (fun i (e : ExpBank α) =>
        ({ E_slow := Arr.set e.E_slow i
             ((fun i x => if n = 0 then w_slow i * a1 else w_slow i * a1 + (1 - D_slow i) * x)
               i (e.E_slow i))
           E_fast := Arr.set e.E_fast i
             ((fun i x => if n = 0 then w_fast i * a2 else w_fast i * a2 + (1 - D_fast i) * x)
               i (e.E_fast i))
           I_slow := e.I_slow +
             (fun i x => if n = 0 then w_slow i * a1 else w_slow i * a1 + (1 - D_slow i) * x)
               i (e.E_slow i)
           I_fast := e.I_fast +
             (fun i x => if n = 0 then w_fast i * a2 else w_fast i * a2 + (1 - D_fast i) * x)
               i (e.E_fast i) } : ExpBank α)) := by
    intro a1 a2
    funext i e
    by_cases hn : n = 0
    · simp [hn]
    · simp [hn]
  unfold plaParallel
  simp only
  rw [hbody]
  obtain ⟨h1, h2, h3, h4⟩ := bank_loop
    (fun i x => if n = 0 then
        w_slow i * (Arr.set s.sout1 n
          (cmax 0 (sampIHC n + randNums n - 2.5e-6 * 100e3 / sampFreq * s.I_slow))) n
      else
        w_slow i * (Arr.set s.sout1 n
          (cmax 0 (sampIHC n + randNums n - 2.5e-6 * 100e3 / sampFreq * s.I_slow))) n
          + (1 - D_slow i) * x)
    (fun i x => if n = 0 then
        w_fast i * (Arr.set s.sout2 n
          (cmax 0 (sampIHC n - 1e-2 * 100e3 / sampFreq * s.I_fast))) n
      else
        w_fast i * (Arr.set s.sout2 n
          (cmax 0 (sampIHC n - 1e-2 * 100e3 / sampFreq * s.I_fast))) n
          + (1 - D_fast i) * x)
    { E_slow := s.E_slow, E_fast := s.E_fast, I_slow := 0.0, I_fast := 0.0 }
    n_process.toNat
  refine ⟨?_, ?_, ?_, ?_, ?_, ?_⟩
  · intro j hj
    rw [Arr.get_set, if_neg hj]
  · intro j hj
    rw [Arr.get_set, if_neg hj]
  · intro i hi
    rw [h1 i, if_pos hi]
  · rw [h2]
    symm
    rw [Finset.sum_congr rfl (fun i hi => (h1 i).trans (if_pos (Finset.mem_range.mp hi)))]
    norm_num
  · intro i hi
    rw [h3 i, if_pos hi]
  · rw [h4]
    symm
    rw [Finset.sum_congr rfl (fun i hi => (h3 i).trans (if_pos (Finset.mem_range.mp hi)))]
    norm_num

theorem plaBody_two (exp : α → α) (sampFreq : α) (tau_slow w_slow tau_fast w_fast : ℕ → α)
    (n_process : ℤ) (sampIHC randNums : ℕ → α) (n : ℕ) (s t : PlaState α)
    (ht : t = plaParallel sampFreq w_slow w_fast (fun p => 1 - exp (-1 / sampFreq / tau_slow p))
      (fun p => 1 - exp (-1 / sampFreq / tau_fast p)) n_process sampIHC randNums n s) :
    (plaBody exp 2 sampFreq tau_slow w_slow tau_fast w_fast n_process sampIHC randNums n
        s).sout1 = t.sout1 ∧
    (plaBody exp 2 sampFreq tau_slow w_slow tau_fast w_fast n_process sampIHC randNums n
        s).sout2 = t.sout2 ∧
    (plaBody exp 2 sampFreq tau_slow w_slow tau_fast w_fast n_process sampIHC randNums n
        s).E_slow = t.E_slow ∧
    (plaBody exp 2 sampFreq tau_slow w_slow tau_fast w_fast n_process sampIHC randNums n
        s).E_fast = t.E_fast ∧
    (plaBody exp 2 sampFreq tau_slow w_slow tau_fast w_fast n_process sampIHC randNums n
        s).I_slow = t.I_slow ∧
    (plaBody exp 2 sampFreq tau_slow w_slow tau_fast w_fast n_process sampIHC randNums n
        s).I_fast = t.I_fast := by
  have h20 : ¬ (2 : α) = 0 := by norm_num
  have h21 : ¬ (2 : α) = 1 := by norm_num
  subst ht
  simp only [plaBody, h20, h21, if_false, if_true, and_self]

theorem plaLoop_succ (exp : α → α) (u : Indeterminate α) (implnt sampFreq : α)
    (tau_slow w_slow tau_fast w_fast : ℕ → α) (n_process : ℤ) (sampIHC randNums : ℕ → α)
    (cnt : ℕ) :
    plaLoop exp u implnt sampFreq tau_slow w_slow tau_fast w_fast n_process sampIHC randNums
        (cnt + 1) =
      plaBody exp implnt sampFreq tau_slow w_slow tau_fast w_fast n_process sampIHC randNums
        cnt
        (plaLoop exp u implnt sampFreq tau_slow w_slow tau_fast w_fast n_process sampIHC
          randNums cnt) := rfl

/-- In the parallel-exponential mode the cell `sout1[j]` (and `sout2[j]`) written at coarse
sample `j` is not changed by the later passes. -/
theorem plaLoop_parallel_sout_stable (exp : α → α) (u : Indeterminate α) (sampFreq : α)
    (tau_slow w_slow tau_fast w_fast : ℕ → α) (n_process : ℤ) (sampIHC randNums : ℕ → α)
    (j d : ℕ) :
    (plaLoop exp u 2 sampFreq tau_slow w_slow tau_fast w_fast n_process sampIHC randNums
        (j + 1 + d)).sout1 j =
      (plaLoop exp u 2 sampFreq tau_slow w_slow tau_fast w_fast n_process sampIHC randNums
        (j + 1)).sout1 j ∧
    (plaLoop exp u 2 sampFreq tau_slow w_slow tau_fast w_fast n_process sampIHC randNums
        (j + 1 + d)).sout2 j =
      (plaLoop exp u 2 sampFreq tau_slow w_slow tau_fast w_fast n_process sampIHC randNums
        (j + 1)).sout2 j := by
  induction d with
  | zero => exact ⟨rfl, rfl⟩
  | succ d ih =>
    have e : j + 1 + (d + 1) = (j + 1 + d) + 1 := by omega
    rw [e, plaLoop_succ]
    obtain ⟨b1, b2, -⟩ := plaBody_two exp sampFreq tau_slow w_slow tau_fast w_fast
      n_process sampIHC randNums (j + 1 + d)
      (plaLoop exp u 2 sampFreq tau_slow w_slow tau_fast w_fast n_process sampIHC randNums
        (j + 1 + d))
      _ rfl
    obtain ⟨p1, p2, -⟩ := plaParallel_spec sampFreq w_slow w_fast
      (fun p => 1 - exp (-1 / sampFreq / tau_slow p))
      (fun p => 1 - exp (-1 / sampFreq / tau_fast p)) n_process sampIHC randNums (j + 1 + d)
      (plaLoop exp u 2 sampFreq tau_slow w_slow tau_fast w_fast n_process sampIHC randNums
        (j + 1 + d))
    rw [b1, b2, p1 j (by omega), p2 j (by omega)]
    exact ih

/-- The slope parameters among the constants of `Synapse` are `slopeParameters` at the
derived `kslope` and `Prest`. -/
theorem synapseConstants_slope (log exp : α → α) (pow : α → α → α) (u : Indeterminate α)
    (cf spont implnt : α) :
    slopeParameters log exp (synapseConstants log exp pow u cf spont implnt).kslope
        (synapseConstants log exp pow u cf spont implnt).Prest u.vsat =
      { vsat := (synapseConstants log exp pow u cf spont implnt).vsat
        tmpst := (synapseConstants log exp pow u cf spont implnt).tmpst
        synstrength := (synapseConstants log exp pow u cf spont implnt).synstrength
        synslope := (synapseConstants log exp pow u cf spont implnt).synslope } := rfl

theorem slopeParameters_facts (kslope Prest vsat0 : ℝ) (hP : 0 < Prest) (hk : 0 < kslope)
    (p : SlopeParameters ℝ) (hp : p = slopeParameters Real.log Real.exp kslope Prest vsat0) :
    p.vsat = kslope + Prest ∧ p.tmpst = Real.log 2 * p.vsat / Prest ∧
    Real.log 2 < p.tmpst ∧
    p.synstrength = (if p.tmpst < 400 then Real.log (Real.exp p.tmpst - 1) else p.tmpst) ∧
    p.synslope = Prest / Real.log 2 * p.synstrength ∧ 0 < p.synstrength := by
  have e1 : p.vsat = if kslope ≥ 0 then kslope + Prest else vsat0 := by subst hp; rfl
  have e2 : p.tmpst = Real.log 2 * p.vsat / Prest := by subst hp; rfl
  have e3 : p.synstrength =
      if p.tmpst < 400 then Real.log (Real.exp p.tmpst - 1) else p.tmpst := by subst hp; rfl
  have e4 : p.synslope = Prest / Real.log 2 * p.synstrength := by subst hp; rfl
  rw [if_pos hk.le] at e1
  have hl2 : 0 < Real.log 2 := Real.log_pos (by norm_num)
  have ht : Real.log 2 < p.tmpst := by
    rw [e2, e1, lt_div_iff₀ hP]
    nlinarith
  refine ⟨e1, e2, ht, e3, e4, ?_⟩
  rw [e3]
  split_ifs with h
  · apply Real.log_pos
    have : Real.exp (Real.log 2) < Real.exp p.tmpst := Real.exp_lt_exp.mpr ht
    rw [Real.exp_log (by norm_num)] at this
    linarith
  · linarith

/-- C13: for every `Prest > 0` and `kslope > 0`, with `vsat = kslope + Prest` and
`synstrength`, `synslope` computed as in `Synapse`, the release probability
`PPI(v) = synslope/synstrength * softplus(synstrength*v)` (softplus guarded at 400)
satisfies `PPI(0) = Prest` and `PPI(1) = vsat` in real arithmetic, whether
`log(2)*vsat/Prest` is below 400 or not. -/
theorem releaseProb_calibration (kslope Prest vsat0 : ℝ) (hP : 0 < Prest) (hk : 0 < kslope) :
    (slopeParameters Real.log Real.exp kslope Prest vsat0).vsat = kslope + Prest ∧
    releaseProb Real.log Real.exp
        (slopeParameters Real.log Real.exp kslope Prest vsat0).synstrength
        (slopeParameters Real.log Real.exp kslope Prest vsat0).synslope 0 = Prest ∧
    releaseProb Real.log Real.exp
        (slopeParameters Real.log Real.exp kslope Prest vsat0).synstrength
        (slopeParameters Real.log Real.exp kslope Prest vsat0).synslope 1 =
      (slopeParameters Real.log Real.exp kslope Prest vsat0).vsat := by
  obtain ⟨e1, e2, ht, e3, e4, hss⟩ := slopeParameters_facts kslope Prest vsat0 hP hk _ rfl
  generalize slopeParameters Real.log Real.exp kslope Prest vsat0 = p at *
  have hl2 : 0 < Real.log 2 := Real.log_pos (by norm_num)
  refine ⟨e1, releaseProb_zero_drive _ _ _ hss.ne' e4, ?_⟩
  have hfin : p.synslope / p.synstrength * p.tmpst = p.vsat := by
    rw [e4, e2]
    field_simp
    ring
  have hsoft : (if p.synstrength * 1 < 400 then Real.log (1 + Real.exp (p.synstrength * 1))
      else p.synstrength * 1) = p.tmpst := by
    rw [mul_one]
    by_cases h : p.tmpst < 400
    · rw [if_pos h] at e3
      have h2 : 1 < Real.exp p.tmpst - 1 := by
        have : Real.exp (Real.log 2) < Real.exp p.tmpst := Real.exp_lt_exp.mpr ht
        rw [Real.exp_log (by norm_num)] at this
        linarith
      have hlt : p.synstrength < p.tmpst := by
        rw [e3]
        calc Real.log (Real.exp p.tmpst - 1) < Real.log (Real.exp p.tmpst) :=
              Real.log_lt_log (by linarith) (by linarith)
          _ = p.tmpst := Real.log_exp _
      rw [if_pos (by linarith), e3, Real.exp_log (by linarith)]
      have : 1 + (Real.exp p.tmpst - 1) = Real.exp p.tmpst := by ring
      rw [this, Real.log_exp]
    · rw [if_neg h] at e3
      rw [e3, if_neg h]
  unfold releaseProb
  simp only
  rw [hsoft, hfin]

/-- The witness of C13: `Prest = 1` with `kslope = 1` (where `log(2)*vsat/Prest < 400`) and
with `kslope = 1000` (where `log(2)*vsat/Prest ≥ 400`). -/
theorem releaseProb_calibration_witness :
    ((0 : ℝ) < 1 ∧
      (slopeParameters Real.log Real.exp 1 1 0).tmpst < 400 ∧
      (slopeParameters Real.log Real.exp 1 1 0).vsat = 1 + 1 ∧
      releaseProb Real.log Real.exp (slopeParameters Real.log Real.exp 1 1 0).synstrength
        (slopeParameters Real.log Real.exp 1 1 0).synslope 0 = 1 ∧
      releaseProb Real.log Real.exp (slopeParameters Real.log Real.exp 1 1 0).synstrength
        (slopeParameters Real.log Real.exp 1 1 0).synslope 1 =
        (slopeParameters Real.log Real.exp 1 1 0).vsat) ∧
    ((0 : ℝ) < 1000 ∧
      ¬ (slopeParameters Real.log Real.exp 1000 1 0).tmpst < 400 ∧
      (slopeParameters Real.log Real.exp 1000 1 0).vsat = 1000 + 1 ∧
      releaseProb Real.log Real.exp (slopeParameters Real.log Real.exp 1000 1 0).synstrength
        (slopeParameters Real.log Real.exp 1000 1 0).synslope 0 = 1 ∧
      releaseProb Real.log Real.exp (slopeParameters Real.log Real.exp 1000 1 0).synstrength
        (slopeParameters Real.log Real.exp 1000 1 0).synslope 1 =
        (slopeParameters Real.log Real.exp 1000 1 0).vsat) := by
  have hlo := Real.log_two_gt_d9
  have hhi := Real.log_two_lt_d9
  have f1 := slopeParameters_facts 1 1 0 one_pos one_pos _ rfl
  have f2 := slopeParameters_facts 1000 1 0 one_pos (by norm_num) _ rfl
  refine ⟨⟨one_pos, ?_, releaseProb_calibration 1 1 0 one_pos one_pos⟩,
    ⟨by norm_num, ?_, releaseProb_calibration 1000 1 0 one_pos (by norm_num)⟩⟩
  · rw [f1.2.1, f1.1]
    norm_num
    linarith
  · rw [f2.2.1, f2.1]
    norm_num
    linarith

/-! ## SpikeGenerator: uniform numbers read -/

theorem spikeBody_no_spike (log : α → α) (synouttmp : ℤ → α) (tdres : α) (randNums : ℕ → α)
    (s : SpikeState α) (hr : synouttmp s.k > 0)
    (hx : ¬ s.Xsum + synouttmp s.k * (1 - s.refracValue0 - s.refracValue1) ≥ s.unitRateIntrvl) :
    (spikeBody log synouttmp tdres randNums s).k = s.k + 1 ∧
    (spikeBody log synouttmp tdres randNums s).countTime = s.countTime + tdres ∧
    (spikeBody log synouttmp tdres randNums s).refracValue0 =
      s.refracValue0 * (1 - tdres / 0.001) ∧
    (spikeBody log synouttmp tdres randNums s).refracValue1 =
      s.refracValue1 * (1 - tdres / 0.0125) ∧
    (spikeBody log synouttmp tdres randNums s).Xsum =
      s.Xsum + synouttmp s.k * (1 - s.refracValue0 - s.refracValue1) ∧
    (spikeBody log synouttmp tdres randNums s).unitRateIntrvl = s.unitRateIntrvl ∧
    (spikeBody log synouttmp tdres randNums s).Nout = s.Nout ∧
    (spikeBody log synouttmp tdres randNums s).randBufIndex = s.randBufIndex ∧
    (spikeBody log synouttmp tdres randNums s).sptime = s.sptime := by
  unfold spikeBody
  simp only [hr, hx, if_true, if_false, and_self]

theorem spikeBody_spike (log : α → α) (synouttmp : ℤ → α) (tdres : α) (randNums : ℕ → α)
    (s : SpikeState α) (hr : synouttmp s.k > 0)
    (hx : s.Xsum + synouttmp s.k * (1 - s.refracValue0 - s.refracValue1) ≥ s.unitRateIntrvl) :
    (spikeBody log synouttmp tdres randNums s).k = s.k + deadtimeIndex tdres + 1 ∧
    (spikeBody log synouttmp tdres randNums s).unitRateIntrvl =
      -log (randNums s.randBufIndex) / tdres ∧
    (spikeBody log synouttmp tdres randNums s).Nout = s.Nout + 1 ∧
    (spikeBody log synouttmp tdres randNums s).randBufIndex = s.randBufIndex + 1 ∧
    (spikeBody log synouttmp tdres randNums s).sptime = Arr.set s.sptime s.Nout s.countTime := by
  unfold spikeBody
  simp only [hr, hx, if_true, and_self]

theorem spikeLoop_step (log : α → α) (synouttmp : ℤ → α) (tdres : α) (totalstim nrep : ℤ)
    (randNums : ℕ → α) (fuel : ℕ) (s : SpikeState α) (hf : 0 < fuel)
    (hc : s.k < totalstim * nrep ∧ s.countTime < (totalstim : α) * tdres * (nrep : α)) :
    spikeLoop log synouttmp tdres totalstim nrep randNums fuel s =
      spikeLoop log synouttmp tdres totalstim nrep randNums (fuel - 1)
        (spikeBody log synouttmp tdres randNums s) := by
  obtain ⟨m, rfl⟩ : ∃ m, fuel = m + 1 := ⟨fuel - 1, by omega⟩
  rw [spikeLoop_eq, if_pos hc]
  rfl

theorem spikeLoop_exit (log : α → α) (synouttmp : ℤ → α) (tdres : α) (totalstim nrep : ℤ)
    (randNums : ℕ → α) (fuel : ℕ) (s : SpikeState α)
    (hc : ¬ (s.k < totalstim * nrep ∧ s.countTime < (totalstim : α) * tdres * (nrep : α))) :
    spikeLoop log synouttmp tdres totalstim nrep randNums fuel s = some s := by
  rw [spikeLoop_eq, if_neg hc]

/-- C14 fails on the code: with `totalstim = 3`, `nrep = 1`, `tdres = 1e-5`, the constant
rate 100 and the uniform numbers `1/2, 0.999999, 1/4, …`, `SpikeGenerator` requests
`NoutMax + 1 = 2` uniform numbers, emits one spike at `k = 1` and reads three: the next
unit-rate interval is computed from the cell `randNums[2]`. -/
theorem SpikeGenerator_reads_past_draws :
    ∃ r, SpikeGenerator 3 Real.log Real.exp
        (fun _ _ i => if i = 0 then 1 / 2 else if i = 1 then 999999 / 1000000 else 1 / 4)
        (fun _ => 100) (1 / 100000 : ℝ) 3 1 Arr.zero = some r ∧
      NoutMax (1 / 100000 : ℝ) 3 1 + 1 = 2 ∧
      r.Nout = 1 ∧ r.sptime 0 = 2 / 100000 ∧ r.randBufIndex = 3 ∧
      r.unitRateIntrvl = -Real.log (1 / 4) / (1 / 100000) := by
  have hN : NoutMax (1 / 100000 : ℝ) 3 1 = 1 := by
    unfold NoutMax
    rw [Int.ceil_eq_iff]
    norm_num
  have hd : deadtimeIndex (1 / 100000 : ℝ) = 75 := by
    unfold deadtimeIndex
    rw [Int.floor_eq_iff]
    norm_num
  have hA : Real.log (1 / 2) ≤ -(1 / 2) := by
    have := Real.log_le_sub_one_of_pos (show (0 : ℝ) < 1 / 2 by norm_num)
    linarith
  have hB1 : Real.log (999999 / 1000000) < 0 := Real.log_neg (by norm_num) (by norm_num)
  have hB2 : -(1 / 999999) ≤ Real.log (999999 / 1000000) := by
    have h := Real.log_le_sub_one_of_pos (show (0 : ℝ) < (999999 / 1000000)⁻¹ by norm_num)
    rw [Real.log_inv] at h
    have e : ((999999 : ℝ) / 1000000)⁻¹ - 1 = 1 / 999999 := by norm_num
    linarith
  -- the state at loop entry
  have he : (0 : ℝ) > Real.log (1 / 2) / 100 + 0.00075 := by
    have : Real.log (1 / 2) / 100 ≤ -(1 / 2) / 100 := by
      apply div_le_div_of_nonneg_right hA (by norm_num)
    norm_num at this ⊢
    linarith
  have hL : (0 : ℝ) < -Real.log (999999 / 1000000) / (1 / 100000) := by
    apply div_pos <;> linarith [hB1]
  have hL2 : -Real.log (999999 / 1000000) / (1 / 100000) ≤ 27 / 50 := by
    rw [div_le_iff₀ (by norm_num)]
    norm_num
    linarith
  unfold SpikeGenerator
  simp only [hN]
  generalize hs0 : spikeInit Real.log Real.exp (fun _ => (100 : ℝ)) (1 / 100000)
    ((fun _ _ i => if i = 0 then 1 / 2 else if i = 1 then 999999 / 1000000 else 1 / 4 :
      ℤ → ℤ → ℕ → ℝ) 1 (1 + 1)) Arr.zero = s0
  have i1 : s0.k = 0 := by subst hs0; rfl
  have i2 : s0.countTime = 1 / 100000 := by subst hs0; rfl
  have i3 : s0.refracValue0 = 0.5 := by
    subst hs0
    simp only [spikeInit, if_true, he, zero_div, Real.exp_zero, mul_one]
  have i4 : s0.refracValue1 = 0.5 := by
    subst hs0
    simp only [spikeInit, if_true, he, zero_div, Real.exp_zero, mul_one]
  have i5 : s0.Xsum = 0 := by
    subst hs0
    simp only [spikeInit, if_true, he, zero_div, Real.exp_zero]
    norm_num
  have i6 : s0.unitRateIntrvl = -Real.log (999999 / 1000000) / (1 / 100000) := by
    subst hs0
    simp only [spikeInit, if_true, he]
    norm_num
  have i7 : s0.Nout = 0 := by subst hs0; rfl
  have i8 : s0.randBufIndex = 2 := by
    subst hs0
    simp only [spikeInit, if_true, he]
  have i9 : s0.sptime = Arr.zero := by subst hs0; rfl
  -- first pass, k = 0: no spike
  rw [spikeLoop_step _ _ _ _ _ _ _ _ (by norm_num)
    ⟨by rw [i1]; norm_num, by rw [i2]; norm_num⟩]
  obtain ⟨a1, a2, a3, a4, a5, a6, a7, a8, a9⟩ := spikeBody_no_spike Real.log
    (fun _ => (100 : ℝ)) (1 / 100000)
    ((fun _ _ i => if i = 0 then 1 / 2 else if i = 1 then 999999 / 1000000 else 1 / 4 :
      ℤ → ℤ → ℕ → ℝ) 1 (1 + 1)) s0 (by norm_num)
    (by
      rw [i3, i4, i5, i6]
      norm_num
      linarith)
  generalize spikeBody Real.log (fun _ => (100 : ℝ)) (1 / 100000)
    ((fun _ _ i => if i = 0 then 1 / 2 else if i = 1 then 999999 / 1000000 else 1 / 4 :
      ℤ → ℤ → ℕ → ℝ) 1 (1 + 1)) s0 = s1 at a1 a2 a3 a4 a5 a6 a7 a8 a9 ⊢
  rw [i1] at a1
  rw [i2] at a2
  rw [i3] at a3
  rw [i4] at a4
  rw [i3, i4, i5] at a5
  rw [i6] at a6
  rw [i7] at a7
  rw [i8] at a8
  rw [i9] at a9
  -- second pass, k = 1: a spike, and the draw with index 2
  rw [spikeLoop_step _ _ _ _ _ _ _ _ (by norm_num)
    ⟨by rw [a1]; norm_num, by rw [a2]; norm_num⟩]
  obtain ⟨b1, b2, b3, b4, b5⟩ := spikeBody_spike Real.log
    (fun _ => (100 : ℝ)) (1 / 100000)
    ((fun _ _ i => if i = 0 then 1 / 2 else if i = 1 then 999999 / 1000000 else 1 / 4 :
      ℤ → ℤ → ℕ → ℝ) 1 (1 + 1)) s1 (by norm_num)
    (by
      rw [a3, a4, a5, a6]
      norm_num
      linarith)
  generalize spikeBody Real.log (fun _ => (100 : ℝ)) (1 / 100000)
    ((fun _ _ i => if i = 0 then 1 / 2 else if i = 1 then 999999 / 1000000 else 1 / 4 :
      ℤ → ℤ → ℕ → ℝ) 1 (1 + 1)) s1 = s2 at b1 b2 b3 b4 b5 ⊢
  rw [a1, hd] at b1
  rw [a8] at b2 b4
  rw [a7] at b3
  rw [a9, a7, a2] at b5
  -- the loop condition fails at k = 77
  rw [spikeLoop_exit _ _ _ _ _ _ _ _ (by rw [b1]; norm_num)]
  refine ⟨s2, rfl, by norm_num, b3, ?_, b4, ?_⟩
  · rw [b5, Arr.get_set, if_pos rfl]
    norm_num
  · rw [b2]
    norm_num

/-- With enough fuel `SpikeGenerator` returns having read `2 + nspikes` or `3 + nspikes`
uniform numbers: one or two for the spike before `t = 0` (two when the comparison of
`__max` in line 582 does not clip), one for the first interval, one after each spike. -/
theorem SpikeGenerator_draws_read (fuel : ℕ) (log exp : α → α) (rand : ℤ → ℤ → ℕ → α)
    (synouttmp : ℤ → α) (tdres : α) (totalstim nrep : ℤ) (sptime0 : Arr ℕ α)
    (hfuel : (totalstim * nrep).toNat ≤ fuel) :
    ∃ r, SpikeGenerator fuel log exp rand synouttmp tdres totalstim nrep sptime0 = some r ∧
      (r.randBufIndex = r.Nout + 2 ∨ r.randBufIndex = r.Nout + 3) := by
  obtain ⟨r, hr, hf⟩ := SpikeGenerator_facts fuel log exp rand synouttmp tdres totalstim nrep
    sptime0 hfuel
  refine ⟨r, hr, ?_⟩
  rcases hf with ⟨_, hinv⟩ | ⟨_, h0, h2, _⟩
  · exact hinv.2.2.2.2.1
  · rw [h0]
    exact h2

/-! ## Synapse: extent of the up-sampling writes -/

/-- The counter `k` of the adaptation loop is the number of passes made. -/
theorem plaLoop_k (exp : α → α) (u : Indeterminate α) (implnt sampFreq : α)
    (tau_slow w_slow tau_fast w_fast : ℕ → α) (n_process : ℤ) (sampIHC randNums : ℕ → α)
    (cnt : ℕ) :
    (plaLoop exp u implnt sampFreq tau_slow w_slow tau_fast w_fast n_process sampIHC randNums
      cnt).k = cnt := by
  induction cnt with
  | zero => rfl
  | succ cnt ih =>
    rw [plaLoop_succ]
    have hk : ∀ s : PlaState α,
        (plaBody exp implnt sampFreq tau_slow w_slow tau_fast w_fast n_process sampIHC
          randNums cnt s).k = s.k + 1 := by
      intro s
      unfold plaBody
      simp only
      split_ifs <;> rfl
    rw [hk, ih]

/-- The last assignment of the up-sampling loops: with `k = m + 2` coarse samples and
`resamp = q + 1`, the cell `TmpSyn[m*resamp + q]` holds the last interpolated value. -/
theorem upsample_last_write (synSampOut : Arr ℕ α) (m q : ℕ) :
    (upsample synSampOut (m + 2) ((q : ℤ) + 1)) ((m : ℤ) * ((q : ℤ) + 1) + (q : ℤ)) =
      synSampOut m +
        (q : α) * ((synSampOut (m + 1) - synSampOut m) / (((q : ℤ) + 1 : ℤ) : α)) := by
  have h1 : m + 2 - 1 = m + 1 := by omega
  have h2 : ((q : ℤ) + 1).toNat = q + 1 := by omega
  unfold upsample
  rw [h1, forLoop_succ, h2, forLoop_succ, Arr.get_set, if_pos rfl]

/-- C15 fails on the code: with `tdres = 1e-5`, `sampFreq = 40000` (so that
`1/(tdres*sampFreq) = 2.5`), `cf = 1000`, `totalstim = 1001` and `nrep = 1`, the fine
length is `L = 16001`, the adaptation loop makes `k = 6400` passes, `resamp = 3`, and
`(k-1)*resamp = 19197 > L`: the up-sampling loops of `Synapse` assign the cell
`TmpSyn[19196]`, past the `16001` cells allocated. -/
theorem upsample_writes_past_TmpSyn :
    resamp (1 / 100000 : ℚ) 40000 = 3 ∧ delaypoint (1000 : ℚ) = 7500 ∧
    (1001 * 1 + 2 * delaypoint (1000 : ℚ) : ℤ) = 16001 ∧
    ⌊(((1001 * 1 + 2 * delaypoint (1000 : ℚ) : ℤ) : ℤ) : ℚ) * (1 / 100000) * 40000⌋.toNat
      = 6400 ∧
    ¬ (((6400 : ℤ) - 1) * resamp (1 / 100000 : ℚ) 40000
        ≤ 1001 * 1 + 2 * delaypoint (1000 : ℚ)) ∧
    ∀ (exp : ℚ → ℚ) (u : Indeterminate ℚ) (implnt : ℚ)
      (tau_slow w_slow tau_fast w_fast : ℕ → ℚ) (n_process : ℤ) (sampIHC randNums : ℕ → ℚ),
      (upsample
          (plaLoop exp u implnt 40000 tau_slow w_slow tau_fast w_fast n_process sampIHC
            randNums 6400).synSampOut
          (plaLoop exp u implnt 40000 tau_slow w_slow tau_fast w_fast n_process sampIHC
            randNums 6400).k
          (resamp (1 / 100000 : ℚ) 40000)) 19196 =
        (plaLoop exp u implnt 40000 tau_slow w_slow tau_fast w_fast n_process sampIHC
            randNums 6400).synSampOut 6398 +
          2 * (((plaLoop exp u implnt 40000 tau_slow w_slow tau_fast w_fast n_process sampIHC
              randNums 6400).synSampOut 6399 -
            (plaLoop exp u implnt 40000 tau_slow w_slow tau_fast w_fast n_process sampIHC
              randNums 6400).synSampOut 6398) / 3) := by
  have hr : resamp (1 / 100000 : ℚ) 40000 = 3 := by
    unfold resamp
    rw [Int.ceil_eq_iff]
    norm_num
  have hd : delaypoint (1000 : ℚ) = 7500 := by
    unfold delaypoint
    rw [Int.floor_eq_iff]
    norm_num
  refine ⟨hr, hd, by rw [hd]; norm_num, ?_, by rw [hr, hd]; norm_num, ?_⟩
  · rw [hd]
    have : ⌊(((1001 * 1 + 2 * 7500 : ℤ) : ℤ) : ℚ) * (1 / 100000) * 40000⌋ = 6400 := by
      rw [Int.floor_eq_iff]
      norm_num
    rw [this]
    rfl
  · intro exp u implnt tau_slow w_slow tau_fast w_fast n_process sampIHC randNums
    rw [plaLoop_k, hr]
    have h := upsample_last_write
      (plaLoop exp u implnt 40000 tau_slow w_slow tau_fast w_fast n_process sampIHC
        randNums 6400).synSampOut 6398 2
    norm_num at h
    exact h

/-- When the fine rate is an integer multiple `r` of the coarse rate
(`tdres*sampFreq*r = 1`), `resamp = r` and the up-sampling loops stay inside the `L` cells
of `TmpSyn`: `(k-1)*resamp ≤ L` for `k = floor(L*tdres*sampFreq)`. -/
theorem upsample_in_bounds_of_integer_ratio (tdres sampFreq : α) (L r : ℤ) (hr : 0 < r)
    (hx : tdres * sampFreq * (r : α) = 1) :
    resamp tdres sampFreq = r ∧
      (⌊(L : α) * tdres * sampFreq⌋ - 1) * resamp tdres sampFreq ≤ L := by
  have hr' : (0 : α) < (r : α) := by exact_mod_cast hr
  have hinv : 1 / (tdres * sampFreq) = (r : α) := by
    have hne : tdres * sampFreq ≠ 0 := by
      intro h
      rw [h, zero_mul] at hx
      exact zero_ne_one hx
    field_simp
    linarith
  have hres : resamp tdres sampFreq = r := by
    unfold resamp
    rw [hinv, Int.ceil_intCast]
  refine ⟨hres, ?_⟩
  rw [hres]
  have h1 : ((⌊(L : α) * tdres * sampFreq⌋ : ℤ) : α) ≤ (L : α) * tdres * sampFreq :=
    Int.floor_le _
  have h2 : ((⌊(L : α) * tdres * sampFreq⌋ : ℤ) : α) * (r : α) ≤ (L : α) := by
    have := mul_le_mul_of_nonneg_right h1 hr'.le
    have e : (L : α) * tdres * sampFreq * (r : α) = (L : α) := by
      rw [mul_assoc, mul_assoc, ← mul_assoc tdres, hx, mul_one]
    linarith
  have h3 : ⌊(L : α) * tdres * sampFreq⌋ * r ≤ L := by exact_mod_cast h2
  nlinarith

/-! ## The rounding to `double`s -/

theorem bitLength_zero (fuel : ℕ) : bitLength fuel 0 = 0 := by
  cases fuel <;> simp [bitLength]

theorem bitLength_succ (fuel n : ℕ) (hn : n ≠ 0) :
    bitLength (fuel + 1) n = bitLength fuel (n / 2) + 1 := by
  simp [bitLength, hn]

/-- A number `n ≠ 0` with `b = bitLength fuel n` binary digits lies in `[2^(b-1), 2^b)`. -/
theorem bitLength_bounds : ∀ (fuel n : ℕ), n ≤ fuel → n ≠ 0 →
    2 ^ bitLength fuel n ≤ 2 * n ∧ n < 2 ^ bitLength fuel n := by
  intro fuel
  induction fuel with
  | zero =>
    intro n h hn
    omega
  | succ fuel ih =>
    intro n h hn
    rw [bitLength_succ fuel n hn]
    by_cases h2 : n / 2 = 0
    · rw [h2, bitLength_zero]
      have : n = 1 := by omega
      subst this
      norm_num
    · obtain ⟨h3, h4⟩ := ih (n / 2) (by omega) h2
      rw [pow_succ]
      constructor <;> omega

/-- The exponent `binade x` of `x ≠ 0` is the one with `2^e ≤ |x| < 2^(e+1)`. -/
theorem binade_spec (x : ℚ) (hx : x ≠ 0) :
    (2 : ℚ) ^ binade x ≤ |x| ∧ |x| < (2 : ℚ) ^ (binade x + 1) := by
  have hn : x.num.natAbs ≠ 0 := by
    simpa using hx
  have hd : x.den ≠ 0 := x.den_nz
  obtain ⟨a1, a2⟩ := bitLength_bounds x.num.natAbs x.num.natAbs le_rfl hn
  obtain ⟨b1, b2⟩ := bitLength_bounds x.den x.den le_rfl hd
  have habs : |x| = (x.num.natAbs : ℚ) / (x.den : ℚ) := by
    calc |x| = |(x.num : ℚ) / (x.den : ℚ)| := by rw [Rat.num_div_den]
      _ = |(x.num : ℚ)| / (x.den : ℚ) := by rw [abs_div, Nat.abs_cast]
      _ = (x.num.natAbs : ℚ) / (x.den : ℚ) := by rw [Nat.cast_natAbs, Int.cast_abs]
  have hdpos : (0 : ℚ) < (x.den : ℚ) := by exact_mod_cast x.den_pos
  have hnpos : (0 : ℚ) < (x.num.natAbs : ℚ) := by
    exact_mod_cast Nat.pos_of_ne_zero hn
  have a1' : (2 : ℚ) ^ bitLength x.num.natAbs x.num.natAbs ≤ 2 * (x.num.natAbs : ℚ) := by
    exact_mod_cast a1
  have a2' : (x.num.natAbs : ℚ) < (2 : ℚ) ^ bitLength x.num.natAbs x.num.natAbs := by
    exact_mod_cast a2
  have b1' : (2 : ℚ) ^ bitLength x.den x.den ≤ 2 * (x.den : ℚ) := by
    exact_mod_cast b1
  have b2' : (x.den : ℚ) < (2 : ℚ) ^ bitLength x.den x.den := by
    exact_mod_cast b2
  generalize ha : bitLength x.num.natAbs x.num.natAbs = a at a1' a2'
  generalize hb : bitLength x.den x.den = b at b1' b2'
  have hpa : (0 : ℚ) < 2 ^ a := by positivity
  have hpb : (0 : ℚ) < 2 ^ b := by positivity
  have he : (2 : ℚ) ^ ((a : ℤ) - (b : ℤ)) = 2 ^ a / 2 ^ b := by
    rw [zpow_sub₀ (by norm_num), zpow_natCast, zpow_natCast]
  have hlow : (2 : ℚ) ^ ((a : ℤ) - (b : ℤ) - 1) ≤ |x| := by
    rw [zpow_sub₀ (by norm_num), he, zpow_one, habs, div_div, div_le_div_iff₀ (by positivity) hdpos]
    nlinarith
  have hupp : |x| < (2 : ℚ) ^ ((a : ℤ) - (b : ℤ) + 1) := by
    rw [zpow_add₀ (by norm_num), he, zpow_one, habs, div_mul_eq_mul_div,
      div_lt_div_iff₀ hdpos hpb]
    nlinarith
  unfold binade
  simp only
  rw [ha, hb]
  split_ifs with h
  · exact ⟨h, hupp⟩
  · refine ⟨hlow, ?_⟩
    rw [sub_add_cancel]
    exact not_le.mp h

/-- The integer `roundEven q` is at most `1/2` away from `q`. -/
theorem roundEven_spec (q : ℚ) : |(roundEven q : ℚ) - q| ≤ 1 / 2 := by
  have h1 := Int.floor_le q
  have h2 := Int.lt_floor_add_one q
  unfold roundEven
  simp only
  rw [abs_le]
  split_ifs <;> push_cast <;> constructor <;> linarith

/-- Half-way between two integers `roundEven` returns the even one. -/
theorem roundEven_tie (q : ℚ) (h : q - ⌊q⌋ = 1 / 2) : roundEven q % 2 = 0 := by
  unfold roundEven
  simp only [h, lt_irrefl, if_false]
  split_ifs <;> omega

/-- The value `roundDouble x` is an integer multiple of `2^(binade x - 52)`, the spacing of
the `double`s between `2^(binade x)` and `2^(binade x + 1)`, and no further from `x` than
half of that spacing. -/
theorem roundDouble_spec (x : ℚ) (hx : x ≠ 0) :
    roundDouble x = (roundEven (x / 2 ^ (binade x - 52)) : ℚ) * 2 ^ (binade x - 52) ∧
    |roundDouble x - x| ≤ 2 ^ (binade x - 52) / 2 := by
  have hr : roundDouble x = (roundEven (x / 2 ^ (binade x - 52)) : ℚ) * 2 ^ (binade x - 52) := by
    unfold roundDouble
    rw [if_neg hx]
  refine ⟨hr, ?_⟩
  have hp : (0 : ℚ) < 2 ^ (binade x - 52) := by positivity
  have h := roundEven_spec (x / 2 ^ (binade x - 52))
  rw [hr]
  have e : (roundEven (x / 2 ^ (binade x - 52)) : ℚ) * 2 ^ (binade x - 52) - x =
      ((roundEven (x / 2 ^ (binade x - 52)) : ℚ) - x / 2 ^ (binade x - 52)) *
        2 ^ (binade x - 52) := by
    field_simp
  rw [e, abs_mul, abs_of_pos hp]
  calc |(roundEven (x / 2 ^ (binade x - 52)) : ℚ) - x / 2 ^ (binade x - 52)| * 2 ^ (binade x - 52)
      ≤ 1 / 2 * 2 ^ (binade x - 52) := mul_le_mul_of_nonneg_right h hp.le
    _ = 2 ^ (binade x - 52) / 2 := by ring

/-- The scaled value that `roundDouble` rounds to an integer has a 53-bit integer
part: it lies in `[2^52, 2^53)`. -/
theorem roundDouble_significand (x : ℚ) (hx : x ≠ 0) :
    (2 : ℚ) ^ (52 : ℕ) ≤ |x / 2 ^ (binade x - 52)| ∧
    |x / 2 ^ (binade x - 52)| < (2 : ℚ) ^ (53 : ℕ) := by
  obtain ⟨h1, h2⟩ := binade_spec x hx
  have hp : (0 : ℚ) < 2 ^ (binade x - 52) := by positivity
  rw [abs_div, abs_of_pos hp, le_div_iff₀ hp, div_lt_iff₀ hp]
  have e1 : (2 : ℚ) ^ (52 : ℕ) * 2 ^ (binade x - 52) = 2 ^ binade x := by
    rw [← zpow_natCast, ← zpow_add₀ (by norm_num)]
    congr 1
    push_cast
    ring
  have e2 : (2 : ℚ) ^ (53 : ℕ) * 2 ^ (binade x - 52) = 2 ^ (binade x + 1) := by
    rw [← zpow_natCast, ← zpow_add₀ (by norm_num)]
    congr 1
    push_cast
    ring
  rw [e1, e2]
  exact ⟨h1, h2⟩

/-- Known values of the rounding: the `double`s `0.1 = 0x1.999999999999ap-4`, `1e-5`, `1`, and
the two ties `2^53 + 1` (rounded down to the even `2^53`) and `2^53 + 3` (rounded up to
`2^53 + 4`). -/
theorem roundDouble_examples :
    roundDouble 0.1 = 3602879701896397 / 2 ^ 55 ∧
    roundDouble 0.00001 = 5902958103587057 / 2 ^ 69 ∧
    roundDouble 1 = 1 ∧
    roundDouble (2 ^ 53 + 1) = 2 ^ 53 ∧
    roundDouble (2 ^ 53 + 3) = 2 ^ 53 + 4 ∧
    addD (roundDouble 0.1) (roundDouble 0.2) = 5404319552844596 / 2 ^ 54 ∧
    roundDouble 0.3 = 5404319552844595 / 2 ^ 54 := by
  decide!



/-! ## SingleAN: the PSTH on `double`s -/

theorem spikeLoopD_eq (log : ℚ → ℚ) (synouttmp : ℤ → ℚ) (tdres : ℚ) (totalstim nrep : ℤ)
    (randNums : ℕ → ℚ) (fuel : ℕ) (s : SpikeState ℚ) :
    spikeLoopD log synouttmp tdres totalstim nrep randNums fuel s =
      if s.k < totalstim * nrep ∧
          s.countTime < mulD (mulD (totalstim : ℚ) tdres) (nrep : ℚ) then
        match fuel with
        | 0 => none
        | fuel + 1 =>
          spikeLoopD log synouttmp tdres totalstim nrep randNums fuel
            (spikeBodyD log synouttmp tdres randNums s)
      else some s := by
  cases fuel <;> rfl

/-- The pass through the loop consults `log` only at the uniform numbers. -/
theorem spikeBodyD_congr (log log' : ℚ → ℚ) (synouttmp : ℤ → ℚ) (tdres : ℚ)
    (randNums : ℕ → ℚ) (hl : ∀ i, log (randNums i) = log' (randNums i)) (s : SpikeState ℚ) :
    spikeBodyD log synouttmp tdres randNums s = spikeBodyD log' synouttmp tdres randNums s := by
  unfold spikeBodyD
  simp only [hl]

theorem spikeLoopD_congr (log log' : ℚ → ℚ) (synouttmp : ℤ → ℚ) (tdres : ℚ)
    (totalstim nrep : ℤ) (randNums : ℕ → ℚ)
    (hl : ∀ i, log (randNums i) = log' (randNums i)) :
    ∀ (fuel : ℕ) (s : SpikeState ℚ),
      spikeLoopD log synouttmp tdres totalstim nrep randNums fuel s =
        spikeLoopD log' synouttmp tdres totalstim nrep randNums fuel s := by
  intro fuel
  induction fuel with
  | zero =>
    intro s
    rw [spikeLoopD_eq, spikeLoopD_eq]
  | succ fuel ih =>
    intro s
    rw [spikeLoopD_eq, spikeLoopD_eq log']
    simp only [ih, spikeBodyD_congr log log' synouttmp tdres randNums hl]

/-- The state at loop entry consults `log` only at the uniform numbers, and `exp` only at
quotients of the end of the last dead time. -/
theorem spikeInitD_congr (log log' exp exp' : ℚ → ℚ) (synouttmp : ℤ → ℚ) (tdres : ℚ)
    (randNums : ℕ → ℚ) (sptime : Arr ℕ ℚ)
    (hl : ∀ i, log (randNums i) = log' (randNums i))
    (he : ∀ d : ℚ,
      exp (divD
        (if 0 > addD (divD (log' (randNums 0)) (synouttmp 0)) (roundDouble 0.00075) then 0
         else addD (divD (log' (randNums 1)) (synouttmp 0)) (roundDouble 0.00075)) d) =
      exp' (divD
        (if 0 > addD (divD (log' (randNums 0)) (synouttmp 0)) (roundDouble 0.00075) then 0
         else addD (divD (log' (randNums 1)) (synouttmp 0)) (roundDouble 0.00075)) d)) :
    spikeInitD log exp synouttmp tdres randNums sptime =
      spikeInitD log' exp' synouttmp tdres randNums sptime := by
  unfold spikeInitD
  simp only [hl, he]

/-- The run examined below depends on `log` and `exp` only through `log(0.5)`,
`log(0.999935)` and `exp(0)`. -/
theorem SpikeGeneratorD_example_congr (log exp : ℚ → ℚ)
    (hlog1 : log 0.5 = -(6243314768165359 / 2 ^ 53))
    (hlog2 : log (roundDouble 0.999935) = -(4796309340905471 / 2 ^ 66))
    (hexp : exp 0 = 1) (fuel : ℕ) (tdres : ℚ) (totalstim nrep : ℤ) (sptime : Arr ℕ ℚ) :
    SpikeGeneratorD fuel log exp (fun _ _ => exampleDraws) (fun _ => 100) tdres totalstim
        nrep sptime =
      SpikeGeneratorD fuel exampleLog exampleExp (fun _ _ => exampleDraws) (fun _ => 100)
        tdres totalstim nrep sptime := by
  have hne : roundDouble 0.999935 ≠ (0.5 : ℚ) := by decide!
  have hl : ∀ i, log (exampleDraws i) = exampleLog (exampleDraws i) := by
    intro i
    unfold exampleDraws exampleLog
    by_cases hi : i = 1
    · rw [if_pos hi, if_neg hne, if_pos rfl, hlog2]
    · rw [if_neg hi, if_pos rfl, hlog1]
  have h0 : (if 0 > addD (divD (exampleLog (exampleDraws 0)) 100) (roundDouble 0.00075) then 0
      else addD (divD (exampleLog (exampleDraws 1)) 100) (roundDouble 0.00075)) = (0 : ℚ) := by
    decide!
  have hd : ∀ d : ℚ, divD 0 d = 0 := by
    intro d
    simp [divD, roundDouble]
  unfold SpikeGeneratorD
  simp only
  rw [spikeLoopD_congr log exampleLog _ _ _ _ _ hl,
    spikeInitD_congr log exampleLog exp exampleExp _ _ _ _ hl
      (by
        intro d
        rw [h0, hd, hexp]
        rfl)]

/-- C3 (defect of the code): on `double`s, with `tdres = 1e-5`, `totalstim = 6`,
`nrep = 13`, the constant rate 100 spikes/s and the uniform numbers `0.5`, `0.999935`,
`0.5` (three are requested, three are read), for every `log` and `exp` that return
`log(0.5) = -0x1.62e42fefa39efp-1`, `log(0.999935) = -0x1.10a37ca7f5fffp-14` and
`exp(0) = 1`, `SpikeGenerator` returns one spike, recorded in pass `k = 5` at the time
`8854437155380585 / 2^67` (the `double` `6e-05`), which lies between `tdres` and
`totalstim*nrep*tdres`.  That time is below the `double` product
`tdres*totalstim = 8854437155380586 / 2^67`, so `fmod` leaves it unchanged, and its
quotient by `tdres` rounds to `6.0`: the phase index is `6 = totalstim`.  The binning loop
increments `psth[6]`, the cell after the last one, and the bins `0..5` sum to `0`, not to
`nspikes = 1`. -/
theorem binSpikes_double_index_eq_totalstim (log exp : ℚ → ℚ)
    (hlog1 : log 0.5 = -(6243314768165359 / 2 ^ 53))
    (hlog2 : log (roundDouble 0.999935) = -(4796309340905471 / 2 ^ 66))
    (hexp : exp 0 = 1) :
    ∃ r : SpikeState ℚ,
      SpikeGeneratorD 78 log exp (fun _ _ => exampleDraws) (fun _ => 100)
        (roundDouble 0.00001) 6 13 Arr.zero = some r ∧
      NoutMaxD (roundDouble 0.00001) 6 13 + 1 = 3 ∧ r.randBufIndex = 3 ∧
      r.Nout = 1 ∧ r.sptime 0 = 8854437155380585 / 2 ^ 67 ∧
      roundDouble 0.00001 ≤ r.sptime 0 ∧
      r.sptime 0 < (((6 : ℤ) * 13 : ℤ) : ℚ) * roundDouble 0.00001 ∧
      mulD (roundDouble 0.00001) ((6 : ℤ) : ℚ) = 8854437155380586 / 2 ^ 67 ∧
      phaseIndexD (roundDouble 0.00001) 6 (r.sptime 0) = 6 ∧
      (binSpikesD r.sptime r.Nout (roundDouble 0.00001) 6 Arr.zero) 6 = 1 ∧
      ∑ j in Finset.Ico (0 : ℤ) 6,
        (binSpikesD r.sptime r.Nout (roundDouble 0.00001) 6 Arr.zero) j = 0 := by
  have key : (SpikeGeneratorD 78 exampleLog exampleExp (fun _ _ => exampleDraws)
      (fun _ => 100) (roundDouble 0.00001) 6 13 Arr.zero).map
      (fun r => (r.randBufIndex, r.Nout, r.sptime 0,
        phaseIndexD (roundDouble 0.00001) 6 (r.sptime 0),
        (binSpikesD r.sptime r.Nout (roundDouble 0.00001) 6 Arr.zero) 6,
        ∑ j in Finset.Ico (0 : ℤ) 6,
          (binSpikesD r.sptime r.Nout (roundDouble 0.00001) 6 Arr.zero) j)) =
      some (3, 1, 8854437155380585 / 2 ^ 67, 6, 1, 0) := by decide!
  rw [SpikeGeneratorD_example_congr log exp hlog1 hlog2 hexp]
  generalize SpikeGeneratorD 78 exampleLog exampleExp (fun _ _ => exampleDraws)
      (fun _ => 100) (roundDouble 0.00001) 6 13 Arr.zero = o at key
  cases o with
  | none => simp at key
  | some r =>
    simp only [Option.map_some', Option.some.injEq, Prod.mk.injEq] at key
    obtain ⟨k1, k2, k3, k4, k5, k6⟩ := key
    refine ⟨r, rfl, by decide!, k1, k2, k3, ?_, ?_, by decide!, k4, k5, k6⟩
    · rw [k3]
      decide!
    · rw [k3]
      decide!

/-- The witness of C3: the tables `exampleLog` and `exampleExp` have the three values. -/
theorem binSpikes_double_index_eq_totalstim_witness :
    exampleLog 0.5 = -(6243314768165359 / 2 ^ 53) ∧
    exampleLog (roundDouble 0.999935) = -(4796309340905471 / 2 ^ 66) ∧
    exampleExp 0 = 1 ∧
    ∃ r : SpikeState ℚ,
      SpikeGeneratorD 78 exampleLog exampleExp (fun _ _ => exampleDraws) (fun _ => 100)
        (roundDouble 0.00001) 6 13 Arr.zero = some r ∧
      NoutMaxD (roundDouble 0.00001) 6 13 + 1 = 3 ∧ r.randBufIndex = 3 ∧
      r.Nout = 1 ∧ r.sptime 0 = 8854437155380585 / 2 ^ 67 ∧
      roundDouble 0.00001 ≤ r.sptime 0 ∧
      r.sptime 0 < (((6 : ℤ) * 13 : ℤ) : ℚ) * roundDouble 0.00001 ∧
      mulD (roundDouble 0.00001) ((6 : ℤ) : ℚ) = 8854437155380586 / 2 ^ 67 ∧
      phaseIndexD (roundDouble 0.00001) 6 (r.sptime 0) = 6 ∧
      (binSpikesD r.sptime r.Nout (roundDouble 0.00001) 6 Arr.zero) 6 = 1 ∧
      ∑ j in Finset.Ico (0 : ℤ) 6,
        (binSpikesD r.sptime r.Nout (roundDouble 0.00001) 6 Arr.zero) j = 0 :=
  ⟨by decide!, by decide!, by decide!,
    binSpikes_double_index_eq_totalstim exampleLog exampleExp (by decide!) (by decide!)
      (by decide!)⟩



/-- The same run with `nrep = 1`: the loop bound is the `double`
`DT = 8854437155380586 / 2^67`, the counter `countTime` of pass `k = 5` is
`8854437155380585 / 2^67`, so the pass `k = totalstim*nrep - 1` is made and records the
spike; two uniform numbers are requested, three are read. -/
theorem SpikeGeneratorD_pass_below_DT :
    ∃ r : SpikeState ℚ,
      SpikeGeneratorD 6 exampleLog exampleExp (fun _ _ => exampleDraws) (fun _ => 100)
        (roundDouble 0.00001) 6 1 Arr.zero = some r ∧
      mulD (mulD ((6 : ℤ) : ℚ) (roundDouble 0.00001)) ((1 : ℤ) : ℚ) =
        8854437155380586 / 2 ^ 67 ∧
      NoutMaxD (roundDouble 0.00001) 6 1 + 1 = 2 ∧ r.randBufIndex = 3 ∧
      r.Nout = 1 ∧ r.sptime 0 = 8854437155380585 / 2 ^ 67 ∧
      phaseIndexD (roundDouble 0.00001) 6 (r.sptime 0) = 6 := by
  have key : (SpikeGeneratorD 6 exampleLog exampleExp (fun _ _ => exampleDraws)
      (fun _ => 100) (roundDouble 0.00001) 6 1 Arr.zero).map
      (fun r => (r.randBufIndex, r.Nout, r.sptime 0,
        phaseIndexD (roundDouble 0.00001) 6 (r.sptime 0))) =
      some (3, 1, 8854437155380585 / 2 ^ 67, 6) := by decide!
  generalize SpikeGeneratorD 6 exampleLog exampleExp (fun _ _ => exampleDraws)
      (fun _ => 100) (roundDouble 0.00001) 6 1 Arr.zero = o at key
  cases o with
  | none => simp at key
  | some r =>
    simp only [Option.map_some', Option.some.injEq, Prod.mk.injEq] at key
    obtain ⟨k1, k2, k3, k4⟩ := key
    exact ⟨r, rfl, by decide!, by decide!, k1, k2, k3, k4⟩

/-- The run of the `double` evaluation above in exact arithmetic: the spike of pass
`k = 5` is at `6 * tdres`, its phase index is `0`, and it is counted in `psth[0]`. -/
theorem binSpikes_exact_run :
    ∃ r : SpikeState ℚ,
      SpikeGenerator 78 exampleLog exampleExp (fun _ _ => exampleDraws) (fun _ => 100)
        (roundDouble 0.00001) 6 13 Arr.zero = some r ∧
      r.Nout = 1 ∧ r.sptime 0 = 6 * roundDouble 0.00001 ∧
      phaseIndex (roundDouble 0.00001) 6 (r.sptime 0) = 0 ∧
      (binSpikes r.sptime r.Nout (roundDouble 0.00001) 6 Arr.zero) 0 = 1 ∧
      ∑ j in Finset.Ico (0 : ℤ) 6,
        (binSpikes r.sptime r.Nout (roundDouble 0.00001) 6 Arr.zero) j = 1 := by
  have key : (SpikeGenerator 78 exampleLog exampleExp (fun _ _ => exampleDraws)
      (fun _ => 100) (roundDouble 0.00001) 6 13 Arr.zero).map
      (fun r => (r.Nout, r.sptime 0,
        phaseIndex (roundDouble 0.00001) 6 (r.sptime 0),
        (binSpikes r.sptime r.Nout (roundDouble 0.00001) 6 Arr.zero) 0,
        ∑ j in Finset.Ico (0 : ℤ) 6,
          (binSpikes r.sptime r.Nout (roundDouble 0.00001) 6 Arr.zero) j)) =
      some (1, 6 * roundDouble 0.00001, 0, 1, 1) := by decide!
  generalize SpikeGenerator 78 exampleLog exampleExp (fun _ _ => exampleDraws)
      (fun _ => 100) (roundDouble 0.00001) 6 13 Arr.zero = o at key
  cases o with
  | none => simp at key
  | some r =>
    simp only [Option.map_some', Option.some.injEq, Prod.mk.injEq] at key
    obtain ⟨k1, k2, k3, k4, k5⟩ := key
    exact ⟨r, rfl, k1, k2, k3, k4, k5⟩


end ModelSynapse
